import Mathlib

/-!
# Coconut: coroutines and pipe nuts

A shallow embedding of `src/pipenut.c` and of the records and the coroutine
macros of `src/coconut.h`, and the properties of the activity flags, the buffer
setup, the `sync` step, the connection queues and the end of a coroutine.

Conventions of the embedding.

* Pointers are natural numbers naming cells of a heap; `NULL` is `none`.
* `uint32_t` and `size_t` values are natural numbers; the unsigned operations
  that can wrap (`<<`, `~`, `-`, `+`) carry an explicit modulus.
* A failed `assert`, a `NULL` dereference and a loop that runs out of fuel make
  an operation return `none`.
* The `int` result of `_conut_sync` is an integer: C leaves the conversion of a
  length above `INT_MAX` to the implementation, so it is not reduced.
-/

namespace Coconut

/-! ## Machine constants -/

/-- Modulus of `uint32_t` arithmetic. -/
def U32 : Nat := 2 ^ 32

/-- Modulus of `size_t` arithmetic (a 64-bit target). -/
def SIZE : Nat := 2 ^ 64

/-- The values of `<errno.h>` that `pipenut.c` uses.  The header is not part of
the repository, so the codes are a parameter of every operation that names one. -/
structure ErrnoCodes where
  EPIPE : Nat
  EPROTO : Nat
  ECONNRESET : Nat
  EAGAIN : Nat

/-- POSIX asks that the codes are positive and distinct. -/
def ErrnoCodes.valid (E : ErrnoCodes) : Prop :=
  0 < E.EPIPE ∧ 0 < E.EPROTO ∧ 0 < E.ECONNRESET ∧ 0 < E.EAGAIN ∧
  E.EPIPE ≠ E.EPROTO ∧ E.EPIPE ≠ E.ECONNRESET ∧ E.EPROTO ≠ E.ECONNRESET ∧
  E.EAGAIN ≠ E.EPIPE ∧ E.EAGAIN ≠ E.EPROTO ∧ E.EAGAIN ≠ E.ECONNRESET

/-- The codes of Linux, used for the concrete scenarios. -/
def linuxErrno : ErrnoCodes :=
  { EPIPE := 32, EPROTO := 71, ECONNRESET := 104, EAGAIN := 11 }

/-! ## Records (`coconut.h`, `pipenut.c`) -/

/-- The record `struct coconut_coro` of `coconut.h`. -/
structure coconut_coro where
  corofun : Nat
  next : Option Nat
  coswitch : Int
  cleanpost : Int
  resopen : Nat
  activity : Nat
  services : Nat

/-- The record `struct coconut_pipenut`.  The two declarations of the source
(`coconut.h` and `pipenut.c`) disagree on the field names, and the functions use
`peer` and `rnut` for the same link: the nut at the other end.  The embedding
has the one field `peer` for it; the `coro` of `pipenut.c` ("current related
peer's coro") is the coroutine that holds the peer nut, see `Heap.nutCoro`.
A buffer is the memory that `buf` points to, a map from offset to byte. -/
structure coconut_pipenut where
  peer : Option Nat
  buf : Option (Nat → Nat)
  ofs : Nat
  min : Nat
  max : Nat
  errno : Nat
  queue : Option Nat
  qnext : Option Nat
  writer : Bool
  reader : Bool

/-- The memory: pipe nuts and coroutines by address, and the layout of the nuts
(a coroutine record is followed by the array of its pipe nuts): the coroutine
that holds a nut, and the index of the nut in that array, its event number. -/
structure Heap where
  nuts : Nat → coconut_pipenut
  coros : Nat → coconut_coro
  nutCoro : Nat → Nat
  nutIndex : Nat → Nat

/-- Store a pipe nut. -/
def Heap.setNut (h : Heap) (p : Nat) (n : coconut_pipenut) : Heap :=
  { h with nuts := Function.update h.nuts p n }

/-- Store a coroutine record. -/
def Heap.setCoro (h : Heap) (c : Nat) (r : coconut_coro) : Heap :=
  { h with coros := Function.update h.coros c r }

/-! ## Activity flags -/

/-- The loop `while (!(target->activated & flag)) target->activated |= flag;`
of `conut_trigger`, on the field `activity` of the record.  The result is the
record and the number of times the body ran. -/
def triggerLoop : Nat → Nat → coconut_coro → Nat → Option (coconut_coro × Nat)
  | 0, _, _, _ => none
  | fuel + 1, flag, target, n =>
    if target.activity &&& flag = 0 then
      triggerLoop fuel flag { target with activity := target.activity ||| flag } (n + 1)
    else
      some (target, n)

/-- The function `conut_trigger (uint8_t conut, coconut_coro_t target)` with the
count of loop iterations.  `flag` is `1UL << conut` stored in a `uint32_t`: a
shift of the 64-bit `unsigned long`, for which the machine takes the count
modulo 64 (C defines the shift for the counts below 64 only), cut to 32 bits. -/
def conut_trigger_count (fuel : Nat) (conut : Nat) (target : coconut_coro) :
    Option (coconut_coro × Nat) :=
  let flag := ((1 <<< (conut % 64)) % SIZE) % U32
  if flag = 0 then some (target, 0)
  else triggerLoop fuel flag target 0

/-- The function `conut_trigger` on a coroutine record. -/
def conut_trigger (fuel : Nat) (conut : Nat) (target : coconut_coro) : Option coconut_coro :=
  (conut_trigger_count fuel conut target).map Prod.fst

/-- The function `conut_trigger` on the coroutine at address `target`. -/
def Heap.trigger (h : Heap) (fuel : Nat) (conut : Nat) (target : Nat) : Option Heap :=
  (conut_trigger fuel conut (h.coros target)).map (h.setCoro target)

/-- The `do { ... } while (shift)` loop of `_conut_active` over `act`, with the
registers `mask`, `shift` and `bitnr`; the result is the last `mask` and
`bitnr`. -/
def activeLoop : Nat → Nat → Nat → Nat → Nat → Option (Nat × Nat)
  | 0, _, _, _, _ => none
  | fuel + 1, act, mask, shift, bitnr =>
    let mask1 := if act &&& mask ≠ 0 then mask &&& (mask >>> shift)
                 else mask &&& ((mask <<< shift) % U32)
    let bitnr1 := if act &&& mask ≠ 0 then bitnr else bitnr + shift
    let shift1 := shift >>> 1
    if shift1 ≠ 0 then activeLoop fuel act mask1 shift1 bitnr1
    else some (mask1, bitnr1)

/-- The function `int8_t _conut_active (uint32_t *activity)`: the result and the
new value of `*activity`.  `mask` starts at `~0UL` in 32 bits and `shift` at
`sizeof (uint32_t) * 4`; `act & ~mask` complements `mask` in 32 bits. -/
def _conut_active (fuel : Nat) (activity : Nat) : Option (Int × Nat) :=
  let act := activity
  if act = 0 then some (-1, activity)
  else
    match activeLoop fuel act (U32 - 1) (4 * 4) 0 with
    | none => none
    | some (mask, bitnr) => some ((bitnr : Int), act &&& (U32 - 1 - mask))

/-! ## Pipe nuts -/

/-- The function `conut_makepipe (a, b)`. -/
def conut_makepipe (h : Heap) (a b : Nat) : Option Heap :=
  if (h.nuts a).peer ≠ none then none
  else if (h.nuts b).peer ≠ none then none
  else if (h.nuts a).queue ≠ none then none
  else if (h.nuts b).queue ≠ none then none
  else
    let h1 := h.setNut a { h.nuts a with peer := some b }
    some (h1.setNut b { h1.nuts b with peer := some a })

/-- The function `conut_resetbuf (pnut, wr)`.  The last assignment of the
source, `errno = 0`, is to the variable of the C library and changes no nut. -/
def conut_resetbuf (E : ErrnoCodes) (h : Heap) (pnut : Nat) (wr : Bool) : Option Heap :=
  if (h.nuts pnut).buf.isNone then none
  else
    match (h.nuts pnut).peer with
    | none => none
    | some rnut =>
      let h1 := h.setNut pnut
        { h.nuts pnut with
          writer := wr, reader := !wr,
          min := ((h.nuts pnut).max + 1) % SIZE, ofs := 0, errno := 0 }
      if ((h1.nuts pnut).writer && (h1.nuts rnut).writer) ||
         ((h1.nuts pnut).reader && (h1.nuts rnut).reader) then
        let h2 := h1.setNut pnut { h1.nuts pnut with errno := E.EPROTO }
        some (h2.setNut rnut { h2.nuts rnut with errno := E.EPROTO })
      else
        some h1

/-- The function `conut_setupbuf (pnut, wr, buf, maxlen)`. -/
def conut_setupbuf (E : ErrnoCodes) (h : Heap) (pnut : Nat) (wr : Bool)
    (buf : Option (Nat → Nat)) (maxlen : Nat) : Option Heap :=
  if (h.nuts pnut).buf.isSome then none
  else if (h.nuts pnut).peer.isNone then none
  else
    conut_resetbuf E (h.setNut pnut { h.nuts pnut with buf := buf, max := maxlen }) pnut wr

/-- The library function `memcpy (dst + dofs, src + sofs, len)` on two separate
regions: the memory of `dst` afterwards. -/
def memcpy (dst : Nat → Nat) (dofs : Nat) (src : Nat → Nat) (sofs : Nat) (len : Nat) :
    Nat → Nat :=
  fun j => if dofs ≤ j ∧ j < dofs + len then src (sofs + (j - dofs)) else dst j

/-- Step four of `_conut_sync`: move as much as possible from writer `w` to
reader `r`. -/
def syncMove (h : Heap) (w r : Nat) : Option Heap :=
  let len0 := ((h.nuts w).max + SIZE - (h.nuts w).ofs) % SIZE
  let rlen := ((h.nuts r).max + SIZE - (h.nuts r).ofs) % SIZE
  let len := if len0 > rlen then rlen else len0
  if len > 0 then
    match (h.nuts r).buf, (h.nuts w).buf with
    | some rbuf, some wbuf =>
      let h1 := h.setNut r
        { h.nuts r with
          buf := some (memcpy rbuf (h.nuts r).ofs wbuf (h.nuts w).ofs len),
          ofs := ((h.nuts r).ofs + len) % SIZE }
      some (h1.setNut w { h1.nuts w with ofs := ((h1.nuts w).ofs + len) % SIZE })
    | _, _ => none
  else some h

/-- The conversion of a `size_t` to the `int` that `_conut_sync` returns, at
`return me->ofs;` and `return me->act;`: the low 32 bits, read in two's
complement. -/
def int_of_size (n : Nat) : Int :=
  if n % U32 < 2 ^ 31 then ((n % U32 : Nat) : Int) else ((n % U32 : Nat) : Int) - (U32 : Int)

/-- The function `int _conut_sync (me, minlen)`: the memory afterwards and the
result.  The statement `*minlen = 0;` of the error branch stores 0 in the
parameter `minlen`, which is passed by value, so that the test `me->ofs < minlen`
after it compares with 0.  The field `act` of the last step is not declared; it
is the length actually communicated, `ofs`.  The signal of step five goes to the
coroutine of the peer nut, for the event number of that nut. -/
def _conut_sync (E : ErrnoCodes) (fuel : Nat) (h : Heap) (me : Nat) (minlen : Nat) :
    Option (Heap × Int) :=
  if (h.nuts me).buf.isNone then none
  else
    let retval := (h.nuts me).errno
    if retval ≠ 0 then
      let minlen := 0
      if retval ≠ E.EPIPE then
        let h1 := if retval = E.ECONNRESET then
                    h.setNut me { h.nuts me with peer := none }
                  else h
        some (h1, -(retval : Int))
      else if (h.nuts me).ofs > 0 ∧ (h.nuts me).ofs < minlen then
        match (h.nuts me).peer with
        | none => none
        | some p =>
          if (h.nuts p).peer ≠ some me then none
          else
            let h1 := h.setNut me { h.nuts me with errno := E.EPROTO }
            let h2 := h1.setNut p { h1.nuts p with errno := E.EPROTO }
            some (h2, -(E.EPROTO : Int))
      else
        some (h, int_of_size (h.nuts me).ofs)
    else
      match (h.nuts me).peer with
      | none => none
      | some p =>
        if (h.nuts p).peer ≠ some me then some (h, -(E.EAGAIN : Int))
        else if (h.nuts p).errno ≠ 0 then some (h, -(E.EAGAIN : Int))
        else if (h.nuts me).reader = (h.nuts me).writer then none
        else if !((h.nuts me).writer || (h.nuts p).writer) then none
        else if !((h.nuts me).reader || (h.nuts p).reader) then none
        else
          let w := if (h.nuts me).writer then me else p
          let r := if (h.nuts me).writer then p else me
          match syncMove h w r with
          | none => none
          | some h1 =>
            match h1.trigger fuel (h1.nutIndex p % 256) (h1.nutCoro p) with
            | none => none
            | some h2 =>
              if (h2.nuts me).ofs < minlen then some (h2, -(E.EAGAIN : Int))
              else some (h2, int_of_size (h2.nuts me).ofs)

/-! ## Connection queues -/

/-- The place a `coconut_pipenut_t *qp` points to: the field `queue` of a nut
(`&n->queue`) or the field `qnext` of a nut (`&n->qnext`). -/
inductive Slot where
  | queue (n : Nat)
  | qnext (n : Nat)
  deriving DecidableEq

/-- The value `*qp`. -/
def Heap.readSlot (h : Heap) : Slot → Option Nat
  | Slot.queue n => (h.nuts n).queue
  | Slot.qnext n => (h.nuts n).qnext

/-- The assignment `*qp = v`. -/
def Heap.writeSlot (h : Heap) (qp : Slot) (v : Option Nat) : Heap :=
  match qp with
  | Slot.queue n => h.setNut n { h.nuts n with queue := v }
  | Slot.qnext n => h.setNut n { h.nuts n with qnext := v }

/-- The nuts of a queue in order: the chain of `qnext` links from a head pointer
to `NULL`, when it has at most `fuel` links. -/
def queueWalk : Nat → (Nat → coconut_pipenut) → Option Nat → Option (List Nat)
  | _, _, none => some []
  | 0, _, some _ => none
  | fuel + 1, nuts, some x => (queueWalk fuel nuts (nuts x).qnext).map (fun l => x :: l)

/-- The function `bool _conut_accept (me)`: the memory afterwards and the value
returned.  After the queue has been found non-empty the function ends at its
closing brace without a `return` statement: no value is returned there, which is
the result `none`.  The signal `conut_trigger (me, newpeer)` is for the event
number of `me` and goes to the coroutine of `newpeer`. -/
def _conut_accept (fuel : Nat) (h : Heap) (me : Nat) : Option (Heap × Option Nat) :=
  if (h.nuts me).peer ≠ none then none
  else
    match (h.nuts me).queue with
    | none => some (h, some 1)
    | some newpeer =>
      let h1 := h.setNut me { h.nuts me with queue := (h.nuts newpeer).qnext }
      let h2 := h1.setNut newpeer { h1.nuts newpeer with qnext := none }
      let h3 := h2.setNut me { h2.nuts me with peer := some newpeer }
      match h3.trigger fuel (h3.nutIndex me % 256) (h3.nutCoro newpeer) with
      | none => none
      | some h4 => some (h4, none)

/-- The first loop of `_conut_connect`, from the place `qp` on:
`while (*qp) { if (*qp == newpeer) ...; qp = & (*qp)->qnext; }`.  The result
is the place that holds `newpeer`, or `none` when the loop ends at a `NULL`.  (The
source writes `*me` where the loop needs `*qp`.) -/
def connectSearch : Nat → Heap → Nat → Slot → Option (Option Slot)
  | 0, _, _, _ => none
  | fuel + 1, h, newpeer, qp =>
    match h.readSlot qp with
    | none => some none
    | some x => if x = newpeer then some (some qp) else connectSearch fuel h newpeer (Slot.qnext x)

/-- The second loop of `_conut_connect`: `while (*qp) qp = & (*qp)->qnext;`. -/
def queueEnd : Nat → Heap → Slot → Option Slot
  | 0, _, _ => none
  | fuel + 1, h, qp =>
    match h.readSlot qp with
    | none => some qp
    | some x => queueEnd fuel h (Slot.qnext x)

/-- The function `bool _conut_connect (me, newpeer)`: the memory afterwards and
the value returned.  The search goes through the queue of `me`; the sign-up of the
last lines stores `newpeer`, as the source does. -/
def _conut_connect (fuel : Nat) (h : Heap) (me newpeer : Nat) : Option (Heap × Nat) :=
  if (h.nuts me).peer ≠ none then none
  else
    match connectSearch fuel h newpeer (Slot.queue me) with
    | none => none
    | some (some qp) =>
      let h1 := h.writeSlot qp (h.nuts newpeer).qnext
      if (h1.nuts newpeer).peer ≠ some me then none
      else
        let h2 := h1.setNut me { h1.nuts me with peer := some newpeer }
        match h2.trigger fuel (h2.nutIndex me % 256) (h2.nutCoro newpeer) with
        | none => none
        | some h3 => some (h3, 0)
    | some none =>
      match queueEnd fuel h (Slot.queue newpeer) with
      | none => none
      | some qp =>
        let h1 := h.setNut newpeer { h.nuts newpeer with qnext := none }
        let h2 := h1.writeSlot qp (some newpeer)
        match h2.trigger fuel (h2.nutIndex me % 256) (h2.nutCoro newpeer) with
        | none => none
        | some h3 => some (h3, 1)

/-! ## Coroutine functions (`cobegin`, `coend`, `codone`, `coyield`) -/

/-- How a stretch of body code ends: at `coyield ()`, which stores its `__LINE__`
in `coswitch` and returns 1; at `codone ()`, which stores `-99998` and jumps to
`_coloop`; or at the end of the body, where control falls into the case of
`coend ()`. -/
inductive BodyExit where
  | yield (line : Int)
  | done
  | fallthrough

/-- The code between `cobegin ()` and `coend ()` over user data `σ`: for the case
label where the `switch` enters (`-99997` at the start, the line of a
`coyield ()` later) the user data at the next exit and the kind of exit; `none`
for a label that the body has no case for. -/
structure CoroCode (σ : Type) where
  run : Int → σ → Option (σ × BodyExit)

/-- What one call of a coroutine function leaves: the record, the user data, the
value returned, and whether body code ran. -/
structure Resumed (σ : Type) where
  co : coconut_coro
  user : σ
  ret : Nat
  bodyRan : Bool

/-- The case of `coend ()`: `case -99998: _codestroy (selfp); return 0;`, over
the function `destroy` that stands for `_codestroy`. -/
def coend {σ : Type} (destroy : coconut_coro × σ → coconut_coro × σ) (co : coconut_coro)
    (s : σ) (ran : Bool) : Resumed σ :=
  { co := (destroy (co, s)).1, user := (destroy (co, s)).2, ret := 0, bodyRan := ran }

/-- One call `cogo (C)` of a coroutine function built with `cobegin ()` ...
`coend ()`: `_coloop: switch (_co.coswitch) { case -99997: ... case -99998: ... }`.
`_codestroy` is declared in `coconut.h` and defined nowhere in the sources; it is
the parameter `destroy`. -/
def cogo {σ : Type} (destroy : coconut_coro × σ → coconut_coro × σ) (code : CoroCode σ)
    (co : coconut_coro) (s : σ) : Option (Resumed σ) :=
  if co.coswitch = -99998 then some (coend destroy co s false)
  else
    match code.run co.coswitch s with
    | none => none
    | some (s1, BodyExit.yield line) =>
      some { co := { co with coswitch := line }, user := s1, ret := 1, bodyRan := true }
    | some (s1, BodyExit.done) => some (coend destroy { co with coswitch := -99998 } s1 true)
    | some (s1, BodyExit.fallthrough) => some (coend destroy co s1 true)

/-! ## Resources (`cocleantodo`, `cocleandone`, `cocleanaction`, `cocleanwhen`) -/

/-- The mask `1 << (R)` as it meets the `uint32_t` field `resopen`.  For `R = 31`
the shift leaves the range of `int`; the model takes the bit pattern `2 ^ 31`. -/
def resMask (R : Nat) : Nat := (1 <<< R) % U32

/-- The statement `_co.resopen |= (1<<(R))` of `cocleantodo (R)`. -/
def cocleantodo (R : Nat) (co : coconut_coro) : coconut_coro :=
  { co with resopen := co.resopen ||| resMask R }

/-- The statement `_co.resopen &= ~ (1<<(R))` of `cocleandone (R)`. -/
def cocleandone (R : Nat) (co : coconut_coro) : coconut_coro :=
  { co with resopen := co.resopen &&& (U32 - 1 - resMask R) }

/-- A coroutine at work on its resources: the record, the user data, and the
resources whose cleanup block has run, oldest first. -/
structure CleanState (σ : Type) where
  co : coconut_coro
  user : σ
  trace : List Nat

/-- The code that `cocleanaction (R)` puts at `case -100000-(R)`: `if (cocleandone
(R), 1)` and the statement that follows the macro, the cleanup block of the
resource, which is `block R` on the user data; then the `while (1)` around it
comes to `_co.coswitch = _co.cleanpost; goto _coloop;`. -/
def cocleanaction {σ : Type} (block : Nat → σ → σ) (R : Nat) (st : CleanState σ) :
    CleanState σ :=
  let co1 := cocleandone R st.co
  { co := { co1 with coswitch := co1.cleanpost }, user := block R st.user,
    trace := st.trace ++ [R] }

/-- The `switch (_co.coswitch)` at `_coloop`, for the labels of the resources: a
label `-100000-(R)` enters the cleanup action of `R`, which jumps to `_coloop`
again; at another label control goes on in the body.  Every `goto _coloop` takes
one unit of fuel. -/
def coloopClean {σ : Type} (block : Nat → σ → σ) : Nat → CleanState σ → Option (CleanState σ)
  | 0, _ => none
  | fuel + 1, st =>
    if st.co.coswitch ≤ -100000 then
      coloopClean block fuel (cocleanaction block (-100000 - st.co.coswitch).toNat st)
    else some st

/-- The macro `cocleanwhen (R)` on line `line`: `if (_co.resopen & (1<<(R)))
{ _co.cleanpost = __LINE__; _co.coswitch = -100000-(R); goto _coloop;
case __LINE__: ; } else { }`.  The result is the state in which control goes on
after the macro. -/
def cocleanwhen {σ : Type} (fuel : Nat) (block : Nat → σ → σ) (R : Nat) (line : Int)
    (st : CleanState σ) : Option (CleanState σ) :=
  if st.co.resopen &&& resMask R ≠ 0 then
    coloopClean block fuel
      { st with co := { st.co with cleanpost := line, coswitch := -100000 - (R : Int) } }
  else some st

/-! ## The event loop (`copipenuts`, `copoll`, `cocatch_initialise`) -/

/-- The case label of `copoll (e)`: `case -12000-(e):`. -/
def copoll (e : Nat) : Int := -12000 - (e : Int)

/-- The case label of `cocatch_initialise ()`: `case -12000 - 31:`. -/
def cocatch_initialise : Int := -12000 - 31

/-- The case label of `cocatch_finalise ()`: `case -12000 - 30:`. -/
def cocatch_finalise : Int := -12000 - 30

/-- Where a `switch (_co.coswitch)` lands: at `_coeventloop`, which carries the
labels `default:` and `case -11999:`, or at a case of the body. -/
inductive Landing where
  | eventloop
  | handler (label : Int)
  deriving DecidableEq

/-- The `switch (_co.coswitch)` at `_coloop` in a coroutine with `copipenuts`:
`declared` tells the case labels that the body has; every other value goes to
`default:`. -/
def coloop (declared : Int → Bool) (label : Int) : Landing :=
  if label = -11999 then Landing.eventloop
  else if declared label then Landing.handler label
  else Landing.eventloop

/-- How one round of the event loop ends: with `return 1`, or with the jump
`goto _coloop`. -/
inductive EventLoopExit where
  | ret1
  | jump (target : Landing)
  deriving DecidableEq

/-- One round of the event loop of `copipenuts`, entered at `_coeventloop`:
`_co.coswitch = -12000 - _conut_active (&_co.activity); if (_co.coswitch ==
-11999) return 1;` and then `goto _coloop;`. -/
def copipenuts (fuel : Nat) (declared : Int → Bool) (co : coconut_coro) :
    Option (coconut_coro × EventLoopExit) :=
  match _conut_active fuel co.activity with
  | none => none
  | some (e, act) =>
    let co1 := { co with activity := act, coswitch := -12000 - e }
    if co1.coswitch = -11999 then some (co1, EventLoopExit.ret1)
    else some (co1, EventLoopExit.jump (coloop declared co1.coswitch))

/-! ## Reference definitions and scenarios -/

/-- The highest bit below `n` that is set in `a`, if any. -/
def highestBit : Nat → Nat → Option Nat
  | 0, _ => none
  | n + 1, a => if a.testBit n then some n else highestBit n a

/-- The operation `take_highest` in the words of the specification: clear and
return the numerically highest set bit of the 32-bit set, or none (`-1`) when the
set is empty. -/
def take_highest_spec (a : Nat) : Int × Nat :=
  match highestBit 32 a with
  | none => (-1, a)
  | some n => ((n : Int), a &&& (U32 - 1 - 2 ^ n))

/-- The mask and bit number that the search of `_conut_active` ends with, as a
decision tree over the activity value; `conut_active_eq` relates the two. -/
def activeChoice (a : Nat) : Nat × Nat :=
  if a &&& 65535 = 0 then (32768, 15)
  else if a &&& 255 = 0 then (128, 7)
  else if a &&& 15 = 0 then (8, 3)
  else if a &&& 3 = 0 then (2, 1)
  else (1, 0)

/-- A coroutine record as `coinit` leaves it, with no pending activity. -/
def initialCoro : coconut_coro :=
  { corofun := 0, next := none, coswitch := -99997, cleanpost := 0,
    resopen := 0, activity := 0, services := 0 }

/-- A pipe nut in the INITIAL state: all fields zero. -/
def zeroNut : coconut_pipenut :=
  { peer := none, buf := none, ofs := 0, min := 0, max := 0, errno := 0,
    queue := none, qnext := none, writer := false, reader := false }

/-- The memory that holds the bytes of a list, and zero after them. -/
def bytes (l : List Nat) : Nat → Nat := fun i => l.getD i 0

/-- A memory of fresh records: every nut INITIAL, every coroutine as `coinit`
leaves it; nut `p` is the first nut of coroutine `p`. -/
def freshHeap : Heap :=
  { nuts := fun _ => zeroNut, coros := fun _ => initialCoro,
    nutCoro := fun p => p, nutIndex := fun _ => 0 }

/-- A nut that is set up for a round: connected to `peer`, with a buffer of `max`
bytes and a role, no byte moved yet. -/
def readyNut (peer : Nat) (wr : Bool) (buf : Nat → Nat) (max : Nat) : coconut_pipenut :=
  { peer := some peer, buf := some buf, ofs := 0, min := (max + 1) % SIZE, max := max,
    errno := 0, queue := none, qnext := none, writer := wr, reader := !wr }

/-- The memory of scenario S2 before the first `sync`: nut 0 is a writer that
holds the five bytes 1 to 5, nut 1 is its peer, a reader with room for ten. -/
def s2Heap : Heap :=
  (freshHeap.setNut 0 (readyNut 1 true (bytes [1, 2, 3, 4, 5]) 5)).setNut 1
    (readyNut 0 false (bytes []) 10)

/-- A writer `w` and a reader `r` that are ready to transfer: they name each
other as peer, neither has an error, each has exactly its role and a buffer, and
each offset is within its maximum, a `size_t`. -/
def PairReady (h : Heap) (w r : Nat) : Prop :=
  (h.nuts w).peer = some r ∧ (h.nuts r).peer = some w ∧
  (h.nuts w).errno = 0 ∧ (h.nuts r).errno = 0 ∧
  (h.nuts w).writer = true ∧ (h.nuts w).reader = false ∧
  (h.nuts r).reader = true ∧ (h.nuts r).writer = false ∧
  (h.nuts w).buf ≠ none ∧ (h.nuts r).buf ≠ none ∧
  (h.nuts w).ofs ≤ (h.nuts w).max ∧ (h.nuts w).max < SIZE ∧
  (h.nuts r).ofs ≤ (h.nuts r).max ∧ (h.nuts r).max < SIZE

/-- Whether a nut has the role that the flag `wr` of `conut_setupbuf` and
`conut_resetbuf` asks for: writer for a non-zero `wr`, reader for zero. -/
def hasRole (n : coconut_pipenut) (wr : Bool) : Bool :=
  if wr then n.writer else n.reader

/-- Two connected nuts without buffers: nuts 0 and 1 of a fresh memory after
`conut_makepipe`. -/
def pipedHeap : Heap :=
  (freshHeap.setNut 0 { zeroNut with peer := some 1 }).setNut 1 { zeroNut with peer := some 0 }

/-- Scenario S3 followed by two calls of `_conut_sync` on nut 0 and two on nut 1:
both nuts are set up as writers; the result is the four return values and the
`errno` of the two nuts after the second setup. -/
def s3Run : Option (Int × Int × Int × Int × Nat × Nat) := do
  let h1 ← conut_makepipe freshHeap 0 1
  let h2 ← conut_setupbuf linuxErrno h1 0 true (some (bytes [1, 2])) 2
  let h3 ← conut_setupbuf linuxErrno h2 1 true (some (bytes [3, 4])) 2
  let r1 ← _conut_sync linuxErrno 2 h3 0 2
  let r2 ← _conut_sync linuxErrno 2 r1.1 0 2
  let r3 ← _conut_sync linuxErrno 2 r2.1 1 2
  let r4 ← _conut_sync linuxErrno 2 r3.1 1 2
  pure (r1.2, r2.2, r3.2, r4.2, (h3.nuts 0).errno, (h3.nuts 1).errno)

/-- A memory for the error paths: the pair of scenario S2 with the error code `e`
on both ends, all five bytes taken from the writer and `ofs` bytes at the
reader. -/
def errHeap (e ofs : Nat) : Heap :=
  (s2Heap.setNut 0 { s2Heap.nuts 0 with errno := e, ofs := 5 }).setNut 1
    { s2Heap.nuts 1 with errno := e, ofs := ofs }

/-- Nut 1 waits on the queue of nut 0 and has no peer yet. -/
def queuedHeap : Heap :=
  freshHeap.setNut 0 { zeroNut with queue := some 1 }

/-- Nuts 1 and 2 wait, in this order, on the queue of nut 0; nut 1 already names
nut 0 as its peer. -/
def halfHeap : Heap :=
  (freshHeap.setNut 0 { zeroNut with queue := some 1 }).setNut 1
    { zeroNut with peer := some 0, qnext := some 2 }

/-- Nut 2 waits on the queue of nut 1. -/
def otherQueueHeap : Heap :=
  freshHeap.setNut 1 { zeroNut with queue := some 2 }

/-- Nut 0 waits on the queue of nut 1; nut 0 has no peer and an empty queue. -/
def meQueuedHeap : Heap :=
  freshHeap.setNut 1 { zeroNut with queue := some 0 }

/-- Nuts 3, 1 and 2 wait, in this order, on the queue of nut 0; nut 1 names nut 0
as its peer. -/
def threeQueuedHeap : Heap :=
  (((freshHeap.setNut 0 { zeroNut with queue := some 3 }).setNut 3
    { zeroNut with qnext := some 1 }).setNut 1
    { zeroNut with peer := some 0, qnext := some 2 })

/-- The place that `qp` has reached after the nuts `pre` of a queue, from the
place `s` on. -/
def lastSlot : Slot → List Nat → Slot
  | s, [] => s
  | _, y :: pre => lastSlot (Slot.qnext y) pre

/-- Modelled from the spec: the function `_codestroy`, which `coconut.h` declares
and no source file defines.  It is the termination sweep: the cleanup block of
every open resource is performed and clears the bit of the resource, so that
`open_resources` is 0 afterwards; when no bits remain the record enters the
terminated state, which is the resume label `-99998` of the case of `coend ()`. -/
def _codestroy {σ : Type} (r : coconut_coro × σ) : coconut_coro × σ :=
  ({ r.1 with resopen := 0, coswitch := -99998 }, r.2)

/-- The body `self.n++; if (self.n == 2) coyield ();` between `cobegin ()` and
`coend ()`, with the `coyield ()` on line 7. -/
def counterCode : CoroCode Nat where
  run := fun label n =>
    if label = -99997 then
      some (n + 1, if n + 1 = 2 then BodyExit.yield 7 else BodyExit.fallthrough)
    else if label = 7 then some (n, BodyExit.fallthrough)
    else none

/-- The body `self.n++; codone ();` between `cobegin ()` and `coend ()`. -/
def doneCode : CoroCode Nat where
  run := fun label n =>
    if label = -99997 then some (n + 1, BodyExit.done) else none

/-- The return values, the user data, the labels and the body flags of two calls
of `cogo` in a row, on a record as `coinit` leaves it. -/
def cogoTwice (code : CoroCode Nat) :
    Option ((Nat × Nat × Int × Bool) × (Nat × Nat × Int × Bool)) := do
  let r1 ← cogo _codestroy code initialCoro 0
  let r2 ← cogo _codestroy code r1.co r1.user
  pure ((r1.ret, r1.user, r1.co.coswitch, r1.bodyRan),
    (r2.ret, r2.user, r2.co.coswitch, r2.bodyRan))

/-- Modelled from the spec: the termination sweep, which the comment of
`coresources` announces and for which the sources have only the case `-99999`
with a `coyield ()` and the declaration of `_codestroy`.  It goes through `n`
resource indices from `r` on in ascending order, the order of declaration; for
each set bit it performs the cleanup block of the resource, which clears the bit
as `cocleanaction` does. -/
def terminationSweep {σ : Type} (block : Nat → σ → σ) : Nat → Nat → CleanState σ → CleanState σ
  | 0, _, st => st
  | n + 1, r, st =>
    terminationSweep block n (r + 1)
      (if st.co.resopen.testBit r then
        { co := cocleandone r st.co, user := block r st.user, trace := st.trace ++ [r] }
      else st)

/-- Modelled from the spec: `_codestroy` as the termination sweep over the 32
resource bits, for `coend`, with the cleanup blocks run on the user data; when no
bits remain the record enters the terminated state, the resume label `-99998`. -/
def codestroySweep {σ : Type} (block : Nat → σ → σ) (p : coconut_coro × σ) : coconut_coro × σ :=
  ({ (terminationSweep block 32 0 { co := p.1, user := p.2, trace := [] }).co with
      coswitch := -99998 },
    (terminationSweep block 32 0 { co := p.1, user := p.2, trace := [] }).user)

/-- Calls of `cogo` on the same record, `n` of them after the call that left `r`:
the result of the last one. -/
def cogoRepeat {σ : Type} (destroy : coconut_coro × σ → coconut_coro × σ) (code : CoroCode σ) :
    Nat → Resumed σ → Option (Resumed σ)
  | 0, r => some r
  | n + 1, r =>
    match cogo destroy code r.co r.user with
    | none => none
    | some r1 => cogoRepeat destroy code n r1

/-- A coroutine record as `coinit` leaves it, with the resources `a` open. -/
def resCoro (a : Nat) : coconut_coro := { initialCoro with resopen := a }

/-- A coroutine with the resources `a` open, no cleanup block run so far; the
user data counts the blocks that run. -/
def cleanStart (a : Nat) : CleanState Nat := { co := resCoro a, user := 0, trace := [] }

/-- A cleanup block that counts itself in the user data. -/
def countBlock : Nat → Nat → Nat := fun _ s => s + 1

/-- Scenario S2 with the call `sync (B, 3)` made twice in a row: the two return
values and the offsets of the writer and the reader after each call. -/
def s2Twice : Option ((Int × Nat × Nat) × (Int × Nat × Nat)) := do
  let r1 ← _conut_sync linuxErrno 2 s2Heap 1 3
  let r2 ← _conut_sync linuxErrno 2 r1.1 1 3
  pure ((r1.2, (r1.1.nuts 0).ofs, (r1.1.nuts 1).ofs), (r2.2, (r2.1.nuts 0).ofs, (r2.1.nuts 1).ofs))

/-- What a test can see of a nut after `conut_setupbuf`: whether a buffer is
installed, and `max`, `ofs`, `min` and `errno`. -/
def nutView (h : Option Heap) (p : Nat) : Option (Bool × Nat × Nat × Nat × Nat) :=
  h.map fun h1 => ((h1.nuts p).buf.isSome, (h1.nuts p).max, (h1.nuts p).ofs, (h1.nuts p).min,
    (h1.nuts p).errno)

/-- A writer `w` and a reader `r` in lockstep: the offsets are equal, and the
bytes below the offset in the buffer of the reader are those of the buffer of the
writer. -/
def Lockstep (h : Heap) (w r : Nat) : Prop :=
  (h.nuts w).ofs = (h.nuts r).ofs ∧
  ∀ wbuf rbuf, (h.nuts w).buf = some wbuf → (h.nuts r).buf = some rbuf →
    ∀ j, j < (h.nuts r).ofs → rbuf j = wbuf j

/-- Whether one of the two ends has passed its whole buffer: `ofs == max`. -/
def OneEndFull (h : Heap) (w r : Nat) : Prop :=
  (h.nuts w).ofs = (h.nuts w).max ∨ (h.nuts r).ofs = (h.nuts r).max

/-- A sequence of calls `_conut_sync (me, minlen)`, one after the other, whatever
each of them returns; `none` when a call fails an assertion. -/
def syncRun (E : ErrnoCodes) (fuel : Nat) : Heap → List (Nat × Nat) → Option Heap
  | h, [] => some h
  | h, c :: cs =>
    match _conut_sync E fuel h c.1 c.2 with
    | none => none
    | some r1 => syncRun E fuel r1.1 cs

/-- What a test can see of the pair of scenario S2 after a sequence of calls: the
two offsets and the first six bytes of the buffer of the reader. -/
def syncView (h : Option Heap) : Option (Nat × Nat × List Nat) :=
  h.map fun h1 => ((h1.nuts 0).ofs, (h1.nuts 1).ofs,
    match (h1.nuts 1).buf with
    | none => []
    | some b => (List.range 6).map b)

/-- Scenario S2 from fresh records on: `conut_makepipe`, the two calls of
`conut_setupbuf`, a `conut_resetbuf` on each end, and then a sequence of calls of
`_conut_sync`. -/
def s2FromReset (calls : List (Nat × Nat)) : Option Heap := do
  let h1 ← conut_makepipe freshHeap 0 1
  let h2 ← conut_setupbuf linuxErrno h1 0 true (some (bytes [1, 2, 3, 4, 5])) 5
  let h3 ← conut_setupbuf linuxErrno h2 1 false (some (bytes [])) 10
  let h4 ← conut_resetbuf linuxErrno h3 0 true
  let h5 ← conut_resetbuf linuxErrno h4 1 false
  syncRun linuxErrno 2 h5 calls

theorem and_two_pow_eq_zero_iff (a e : Nat) : a &&& 2 ^ e = 0 ↔ a.testBit e = false := by
  constructor
  · intro h
    have h1 := congrArg (fun x => Nat.testBit x e) h
    simpa [Nat.testBit_and, Nat.testBit_two_pow] using h1
  · intro h
    apply Nat.eq_of_testBit_eq
    intro i
    by_cases hi : e = i
    · subst hi; simp [Nat.testBit_and, h]
    · simp [Nat.testBit_and, Nat.testBit_two_pow, hi]

theorem or_and_self_right (a f : Nat) : (a ||| f) &&& f = f := by
  apply Nat.eq_of_testBit_eq
  intro i
  rw [Nat.testBit_and, Nat.testBit_or]
  cases a.testBit i <;> cases f.testBit i <;> rfl

theorem flag_eq (e : Nat) (he : e < 32) : (1 <<< e) % U32 = 2 ^ e := by
  rw [Nat.one_shiftLeft]
  exact Nat.mod_eq_of_lt (Nat.pow_lt_pow_right (by decide) he)

/-- The flag of `conut_trigger`: the bit of the count modulo 64, cut to 32 bits. -/
theorem trigger_flag (e : Nat) :
    ((1 <<< (e % 64)) % SIZE) % U32 = (1 <<< (e % 64)) % U32 := by
  have h : (1 <<< (e % 64)) < SIZE := by
    rw [Nat.one_shiftLeft]
    exact Nat.pow_lt_pow_right (by decide) (Nat.mod_lt _ (by decide))
  rw [Nat.mod_eq_of_lt h]

theorem trigger_flag_eq (e : Nat) (he : e < 32) :
    ((1 <<< (e % 64)) % SIZE) % U32 = 2 ^ e := by
  rw [trigger_flag, Nat.mod_eq_of_lt (by omega : e < 64)]
  exact flag_eq e he

theorem triggerLoop_spec (fuel flag n : Nat) (t : coconut_coro) (hflag : flag ≠ 0) :
    triggerLoop (fuel + 2) flag t n =
      if t.activity &&& flag = 0 then
        some ({ t with activity := t.activity ||| flag }, n + 1)
      else some (t, n) := by
  by_cases h : t.activity &&& flag = 0
  · simp [triggerLoop, h, or_and_self_right, hflag]
  · simp [triggerLoop, h]

theorem or_two_pow_testBit (a e i : Nat) :
    (a ||| 2 ^ e).testBit i = (a.testBit i || decide (e = i)) := by
  rw [Nat.testBit_or, Nat.testBit_two_pow]

/-- The run of `conut_trigger` for an event number below 32. -/
theorem conut_trigger_count_eq (fuel e : Nat) (t : coconut_coro) (he : e < 32) :
    conut_trigger_count (fuel + 2) e t =
      if t.activity.testBit e = true then some (t, 0)
      else some ({ t with activity := t.activity ||| 2 ^ e }, 1) := by
  have hflag : (2 : Nat) ^ e ≠ 0 := by positivity
  unfold conut_trigger_count
  simp only [trigger_flag_eq e he, hflag, if_false]
  rw [triggerLoop_spec _ _ _ _ hflag]
  by_cases hb : t.activity.testBit e = true
  · have : ¬ (t.activity &&& 2 ^ e = 0) := by
      rw [and_two_pow_eq_zero_iff]; simp [hb]
    simp [hb, this]
  · have : t.activity &&& 2 ^ e = 0 := by
      rw [and_two_pow_eq_zero_iff]; simpa using hb
    simp [hb, this]

theorem and_sub_mask (a m k : Nat) (h : a &&& m = 0) (hk : m &&& k = k) : a &&& k = 0 := by
  rw [← hk, ← Nat.and_assoc, h, Nat.zero_and]

/-- The five rounds of the search of `_conut_active`, as a decision tree. -/
theorem activeLoop_eq (fuel a : Nat) (h : a &&& 4294967295 ≠ 0) :
    activeLoop (fuel + 5) a (U32 - 1) (4 * 4) 0 =
      some (if a &&& 65535 = 0 then (32768, 15)
            else if a &&& 255 = 0 then (128, 7)
            else if a &&& 15 = 0 then (8, 3)
            else if a &&& 3 = 0 then (2, 1)
            else (1, 0)) := by
  have c1 : (4294967295 : Nat) &&& 65535 = 65535 := by decide
  have c2 : (65535 : Nat) &&& 255 = 255 := by decide
  have c3 : (65535 : Nat) &&& 16776960 = 65280 := by decide
  have c4 : (255 : Nat) &&& 15 = 15 := by decide
  have c5 : (255 : Nat) &&& 4080 = 240 := by decide
  have c6 : (65280 : Nat) &&& 1044480 = 61440 := by decide
  have c7 : (15 : Nat) &&& 3 = 3 := by decide
  have c8 : (15 : Nat) &&& 60 = 12 := by decide
  have c9 : (240 : Nat) &&& 960 = 192 := by decide
  have c10 : (61440 : Nat) &&& 245760 = 49152 := by decide
  have c11 : (3 : Nat) &&& 1 = 1 := by decide
  have c12 : (3 : Nat) &&& 6 = 2 := by decide
  have c13 : (12 : Nat) &&& 24 = 8 := by decide
  have c14 : (192 : Nat) &&& 384 = 128 := by decide
  have c15 : (49152 : Nat) &&& 98304 = 32768 := by decide
  by_cases h2 : a &&& 65535 = 0
  · have e1 : a &&& 65280 = 0 := and_sub_mask a _ _ h2 (by decide)
    have e2 : a &&& 61440 = 0 := and_sub_mask a _ _ h2 (by decide)
    have e3 : a &&& 49152 = 0 := and_sub_mask a _ _ h2 (by decide)
    simp [activeLoop, U32, h, h2, e1, e2, e3, c1, c3, c6, c10, c15]
  · by_cases h3 : a &&& 255 = 0
    · have e1 : a &&& 240 = 0 := and_sub_mask a _ _ h3 (by decide)
      have e2 : a &&& 192 = 0 := and_sub_mask a _ _ h3 (by decide)
      simp [activeLoop, U32, h, h2, h3, e1, e2, c1, c2, c5, c9, c14]
    · by_cases h4 : a &&& 15 = 0
      · have e1 : a &&& 12 = 0 := and_sub_mask a _ _ h4 (by decide)
        simp [activeLoop, U32, h, h2, h3, h4, e1, c1, c2, c4, c8, c13]
      · by_cases h5 : a &&& 3 = 0
        · simp [activeLoop, U32, h, h2, h3, h4, h5, c1, c2, c4, c7, c12]
        · simp [activeLoop, U32, h, h2, h3, h4, h5, c1, c2, c4, c7, c11]

theorem conut_active_eq (fuel a : Nat) (h0 : a ≠ 0) (h32 : a < U32) :
    _conut_active (fuel + 5) a =
      some (((activeChoice a).2 : Int), a &&& (U32 - 1 - (activeChoice a).1)) := by
  have h : a &&& 4294967295 ≠ 0 := by
    have := Nat.and_pow_two_sub_one_of_lt_two_pow (n := 32) (x := a) h32
    simp only [Nat.reducePow, Nat.reduceSub] at this
    rw [this]; exact h0
  unfold _conut_active
  simp only [h0, if_false]
  rw [activeLoop_eq fuel a h]
  rfl

theorem testBit_false_of_and_eq_zero (a m i : Nat) (h : a &&& m = 0)
    (hm : m.testBit i = true) : a.testBit i = false := by
  have h1 := congrArg (fun x => Nat.testBit x i) h
  simpa [Nat.testBit_and, hm] using h1

theorem and_compl_testBit (a m i : Nat) (ha : a < U32) (hm : m < U32) :
    (a &&& (U32 - 1 - m)).testBit i = (a.testBit i && !m.testBit i) := by
  have e : U32 - 1 - m = 2 ^ 32 - (m + 1) := by unfold U32; omega
  rw [e, Nat.testBit_and, Nat.testBit_two_pow_sub_succ hm]
  by_cases hi : i < 32
  · simp [hi]
  · have : a.testBit i = false :=
      Nat.testBit_lt_two_pow (Nat.lt_of_lt_of_le ha
        (Nat.pow_le_pow_right (by decide) (Nat.le_of_not_lt hi)))
    simp [this]

/-- What the search settles on: a single bit, below every set bit of the value. -/
theorem activeChoice_spec (a : Nat) :
    (activeChoice a).1 = 2 ^ (activeChoice a).2 ∧ (activeChoice a).2 < 32 ∧
    ∀ i, a.testBit i = true → (activeChoice a).2 ≤ i := by
  unfold activeChoice
  split_ifs with h1 h2 h3 h4
  · refine ⟨by norm_num, by norm_num, fun i hi => ?_⟩
    by_contra hlt
    have hlt : i < 15 := Nat.lt_of_not_le hlt
    have := testBit_false_of_and_eq_zero a 65535 i h1 (by interval_cases i <;> decide)
    simp [this] at hi
  · refine ⟨by norm_num, by norm_num, fun i hi => ?_⟩
    by_contra hlt
    have hlt : i < 7 := Nat.lt_of_not_le hlt
    have := testBit_false_of_and_eq_zero a 255 i h2 (by interval_cases i <;> decide)
    simp [this] at hi
  · refine ⟨by norm_num, by norm_num, fun i hi => ?_⟩
    by_contra hlt
    have hlt : i < 3 := Nat.lt_of_not_le hlt
    have := testBit_false_of_and_eq_zero a 15 i h3 (by interval_cases i <;> decide)
    simp [this] at hi
  · refine ⟨by norm_num, by norm_num, fun i hi => ?_⟩
    by_contra hlt
    have hlt : i < 1 := Nat.lt_of_not_le hlt
    have := testBit_false_of_and_eq_zero a 3 i h4 (by interval_cases i; decide)
    simp [this] at hi
  · exact ⟨by norm_num, by norm_num, fun i _ => Nat.zero_le i⟩

/-- The run of `_conut_active` on a non-zero 32-bit value: a bit number below
every set bit, and the value with that bit cleared. -/
theorem conut_active_run (fuel a : Nat) (hf : 5 ≤ fuel) (h0 : a ≠ 0) (h32 : a < 2 ^ 32) :
    ∃ (n : Nat) (act1 : Nat), _conut_active fuel a = some ((n : Int), act1) ∧ n < 32 ∧
      (∀ i, a.testBit i = true → n ≤ i) ∧
      (∀ i, act1.testBit i = (a.testBit i && decide (i ≠ n))) := by
  obtain ⟨f, rfl⟩ : ∃ f, fuel = f + 5 := ⟨fuel - 5, by omega⟩
  obtain ⟨hm, hn, hlow⟩ := activeChoice_spec a
  refine ⟨(activeChoice a).2, _, conut_active_eq f a h0 h32, hn, hlow, fun i => ?_⟩
  have hmlt : (activeChoice a).1 < U32 := by
    rw [hm]; exact Nat.pow_lt_pow_right (by decide) hn
  rw [and_compl_testBit a _ i h32 hmlt, hm, Nat.testBit_two_pow]
  by_cases hi : i = (activeChoice a).2
  · simp [hi]
  · have : ¬ (activeChoice a).2 = i := fun h => hi h.symm
    simp [hi, this]

/-- C5 (amended): on a non-zero 32-bit activity value `_conut_active` gives
priority to LOW bit numbers: it returns a bit number `n` with no pending bit below
`n` and leaves the activity with bit `n` cleared and every other bit as it was;
when event 0 is pending it returns 0, the numerically lowest set bit, and clears
exactly that bit, also with bit 31 or bit 30 pending. -/
theorem conut_active_prefers_low (fuel a : Nat) (hf : 5 ≤ fuel) (h0 : a ≠ 0)
    (h32 : a < 2 ^ 32) :
    ∃ (n : Nat) (act1 : Nat), _conut_active fuel a = some ((n : Int), act1) ∧
      (∀ i, a.testBit i = true → n ≤ i) ∧
      (∀ i, act1.testBit i = (a.testBit i && decide (i ≠ n))) ∧
      (a.testBit 0 = true → n = 0 ∧ a.testBit n = true ∧ act1 < a) := by
  obtain ⟨n, act1, hrun, _, hlow, hbits⟩ := conut_active_run fuel a hf h0 h32
  refine ⟨n, act1, hrun, hlow, hbits, fun hb => ?_⟩
  have hn : n = 0 := Nat.le_zero.mp (hlow 0 hb)
  subst hn
  refine ⟨rfl, hb, ?_⟩
  apply Nat.lt_of_testBit 0 (by simp [hbits 0]) hb
  intro j hj
  have : j ≠ 0 := by omega
  simp [hbits j, this]

/-- Witness of `conut_active_prefers_low`: events 0, 1 and 31 pending. -/
theorem conut_active_prefers_low_witness :
    5 ≤ 5 ∧ (2147483651 : Nat) ≠ 0 ∧ 2147483651 < 2 ^ 32 ∧
    ∃ (n : Nat) (act1 : Nat), _conut_active 5 2147483651 = some ((n : Int), act1) ∧
      (∀ i, (2147483651 : Nat).testBit i = true → n ≤ i) ∧
      (∀ i, act1.testBit i = ((2147483651 : Nat).testBit i && decide (i ≠ n))) ∧
      ((2147483651 : Nat).testBit 0 = true →
        n = 0 ∧ (2147483651 : Nat).testBit n = true ∧ act1 < 2147483651) :=
  ⟨by decide, by decide, by decide,
    conut_active_prefers_low 5 2147483651 (by decide) (by decide) (by decide)⟩

/-- C5 (counterexample): with events 0 and 1 pending, `_conut_active` returns 0
and leaves event 1 pending, where the highest set bit is 1; no amount of fuel
makes it return what the specification's `take_highest` returns. -/
theorem conut_active_not_highest :
    _conut_active 5 3 = some (0, 2) ∧ take_highest_spec 3 = (1, 1) ∧
    ∀ fuel, _conut_active fuel 3 ≠ some (take_highest_spec 3) := by
  refine ⟨by decide, by decide, fun fuel => ?_⟩
  by_cases hf : 5 ≤ fuel
  · obtain ⟨f, rfl⟩ : ∃ f, fuel = f + 5 := ⟨fuel - 5, by omega⟩
    rw [conut_active_eq f 3 (by decide) (by decide)]
    decide
  · have hlt : fuel < 5 := Nat.lt_of_not_le hf
    interval_cases fuel <;> decide

/-- C6 (the code at the failing input): from an empty activity set,
`conut_trigger` for event 1 leaves the set at 2; `_conut_active` then returns 0,
not 1, and leaves the set at 2, so the next call returns 0 again and never `-1`.
The same happens for every event number from 1 to 31: the bit stays set and the
number returned is another one. -/
theorem conut_trigger_active_event_one :
    (conut_trigger 2 1 initialCoro).map (fun c => c.activity) = some 2 ∧
    _conut_active 5 2 = some (0, 2) ∧
    (∀ e < 32, e ≠ 0 →
      (conut_trigger 2 e initialCoro).map (fun c => c.activity) = some (2 ^ e) ∧
      (_conut_active 5 (2 ^ e)).map Prod.snd = some (2 ^ e) ∧
      (_conut_active 5 (2 ^ e)).map Prod.fst ≠ some (e : Int)) := by
  refine ⟨by decide, by decide, ?_⟩
  decide

/-- C7: for an event number below 32, `conut_trigger` ends with the activity
`a | (1 << e)`: bit `e` set, every other bit and every other field of the record
as before.  A second call changes nothing, and when the bit is already set the
loop body does not run at all (it runs at most once otherwise). -/
theorem conut_trigger_sets_bit (fuel e : Nat) (t : coconut_coro) (hf : 2 ≤ fuel)
    (he : e < 32) :
    ∃ t1, conut_trigger fuel e t = some t1 ∧
      t1 = { t with activity := t.activity ||| (1 <<< e) } ∧
      t1.activity.testBit e = true ∧
      (∀ i, i ≠ e → t1.activity.testBit i = t.activity.testBit i) ∧
      conut_trigger fuel e t1 = some t1 ∧
      (t.activity.testBit e = true → conut_trigger_count fuel e t = some (t, 0)) ∧
      (∃ k, conut_trigger_count fuel e t = some (t1, k) ∧ k ≤ 1) := by
  obtain ⟨f, rfl⟩ : ∃ f, fuel = f + 2 := ⟨fuel - 2, by omega⟩
  have hset : ∀ a : Nat, (a ||| 2 ^ e).testBit e = true := by
    intro a; simp [or_two_pow_testBit]
  have hsame : ∀ a : Nat, a.testBit e = true → a ||| 2 ^ e = a := by
    intro a ha
    apply Nat.eq_of_testBit_eq
    intro i
    rw [or_two_pow_testBit]
    by_cases hi : e = i
    · subst hi; simp [ha]
    · simp [hi]
  refine ⟨{ t with activity := t.activity ||| 2 ^ e }, ?_, ?_, hset _, ?_, ?_, ?_, ?_⟩
  · unfold conut_trigger
    rw [conut_trigger_count_eq f e t he]
    by_cases hb : t.activity.testBit e = true
    · simp [hb, hsame _ hb]
    · simp [hb]
  · rw [Nat.one_shiftLeft]
  · intro i hi
    have : ¬ e = i := fun h => hi h.symm
    simp [or_two_pow_testBit, this]
  · unfold conut_trigger
    rw [conut_trigger_count_eq f e _ he]
    simp [hset]
  · intro hb
    rw [conut_trigger_count_eq f e t he]
    simp [hb]
  · rw [conut_trigger_count_eq f e t he]
    by_cases hb : t.activity.testBit e = true
    · exact ⟨0, by simp [hb, hsame _ hb], Nat.zero_le 1⟩
    · exact ⟨1, by simp [hb], Nat.le_refl 1⟩

/-- Witness of `conut_trigger_sets_bit`: event 3 on a fresh coroutine record. -/
theorem conut_trigger_sets_bit_witness :
    2 ≤ 2 ∧ 3 < 32 ∧
    ∃ t1, conut_trigger 2 3 initialCoro = some t1 ∧
      t1 = { initialCoro with activity := initialCoro.activity ||| (1 <<< 3) } ∧
      t1.activity.testBit 3 = true ∧
      (∀ i, i ≠ 3 → t1.activity.testBit i = initialCoro.activity.testBit i) ∧
      conut_trigger 2 3 t1 = some t1 ∧
      (initialCoro.activity.testBit 3 = true →
        conut_trigger_count 2 3 initialCoro = some (initialCoro, 0)) ∧
      (∃ k, conut_trigger_count 2 3 initialCoro = some (t1, k) ∧ k ≤ 1) :=
  ⟨by decide, by decide, conut_trigger_sets_bit 2 3 initialCoro (by decide) (by decide)⟩

/-! ## Properties of the pipe nuts -/

@[simp] theorem setNut_nuts_same (h : Heap) (p : Nat) (n : coconut_pipenut) :
    (h.setNut p n).nuts p = n := by
  simp [Heap.setNut]

theorem setNut_nuts_other (h : Heap) (p q : Nat) (n : coconut_pipenut) (hq : q ≠ p) :
    (h.setNut p n).nuts q = h.nuts q := by
  simp [Heap.setNut, Function.update_noteq hq]

@[simp] theorem setNut_coros (h : Heap) (p : Nat) (n : coconut_pipenut) :
    (h.setNut p n).coros = h.coros := rfl

@[simp] theorem setNut_nutCoro (h : Heap) (p : Nat) (n : coconut_pipenut) :
    (h.setNut p n).nutCoro = h.nutCoro := rfl

@[simp] theorem setNut_nutIndex (h : Heap) (p : Nat) (n : coconut_pipenut) :
    (h.setNut p n).nutIndex = h.nutIndex := rfl

/-- With two units of fuel `conut_trigger` returns, for every event number. -/
theorem conut_trigger_total (fuel conut : Nat) (t : coconut_coro) (hf : 2 ≤ fuel) :
    ∃ t1, conut_trigger fuel conut t = some t1 := by
  obtain ⟨f, rfl⟩ : ∃ f, fuel = f + 2 := ⟨fuel - 2, by omega⟩
  unfold conut_trigger conut_trigger_count
  by_cases hflag : ((1 <<< (conut % 64)) % SIZE) % U32 = 0
  · simp [hflag]
  · simp only [hflag, if_false]
    rw [triggerLoop_spec _ _ _ _ hflag]
    by_cases hb : t.activity &&& ((1 <<< (conut % 64)) % SIZE) % U32 = 0
    · simp [hb]
    · simp [hb]

/-- The signal of `conut_trigger` reaches a coroutine record only: the pipe nuts
and the layout stay as they are. -/
theorem Heap.trigger_spec (h : Heap) (fuel conut target : Nat) (hf : 2 ≤ fuel) :
    ∃ h2, h.trigger fuel conut target = some h2 ∧ h2.nuts = h.nuts ∧
      h2.nutCoro = h.nutCoro ∧ h2.nutIndex = h.nutIndex ∧
      ∀ c, c ≠ target → h2.coros c = h.coros c := by
  obtain ⟨t1, ht1⟩ := conut_trigger_total fuel conut (h.coros target) hf
  refine ⟨h.setCoro target t1, by simp [Heap.trigger, ht1], rfl, rfl, rfl, ?_⟩
  intro c hc
  simp [Heap.setCoro, Function.update_noteq hc]

/-- The memory after `memcpy` of no bytes. -/
theorem memcpy_zero (dst : Nat → Nat) (dofs : Nat) (src : Nat → Nat) (sofs : Nat) :
    memcpy dst dofs src sofs 0 = dst := by
  funext j
  simp [memcpy]

/-- Step four of `_conut_sync` on two distinct nuts that both have a buffer. -/
theorem syncMove_spec (h : Heap) (w r : Nat) (wbuf rbuf : Nat → Nat) (hne : w ≠ r)
    (hwb : (h.nuts w).buf = some wbuf) (hrb : (h.nuts r).buf = some rbuf) :
    ∃ h1, syncMove h w r = some h1 ∧
      h1.coros = h.coros ∧ h1.nutCoro = h.nutCoro ∧ h1.nutIndex = h.nutIndex ∧
      (∀ q, q ≠ w → q ≠ r → h1.nuts q = h.nuts q) ∧
      (let len := min (((h.nuts w).max + SIZE - (h.nuts w).ofs) % SIZE)
                    (((h.nuts r).max + SIZE - (h.nuts r).ofs) % SIZE)
       (0 < len →
          h1.nuts w = { h.nuts w with ofs := ((h.nuts w).ofs + len) % SIZE } ∧
          h1.nuts r = { h.nuts r with
            buf := some (memcpy rbuf (h.nuts r).ofs wbuf (h.nuts w).ofs len),
            ofs := ((h.nuts r).ofs + len) % SIZE }) ∧
       (len = 0 → h1 = h)) := by
  have hlen : (if ((h.nuts w).max + SIZE - (h.nuts w).ofs) % SIZE >
                  ((h.nuts r).max + SIZE - (h.nuts r).ofs) % SIZE
               then ((h.nuts r).max + SIZE - (h.nuts r).ofs) % SIZE
               else ((h.nuts w).max + SIZE - (h.nuts w).ofs) % SIZE) =
      min (((h.nuts w).max + SIZE - (h.nuts w).ofs) % SIZE)
        (((h.nuts r).max + SIZE - (h.nuts r).ofs) % SIZE) := by
    split_ifs with hc
    · exact (Nat.min_eq_right (Nat.le_of_lt hc)).symm
    · exact (Nat.min_eq_left (Nat.le_of_not_lt hc)).symm
  unfold syncMove
  simp only [hlen, hwb, hrb]
  by_cases hpos : 0 < min (((h.nuts w).max + SIZE - (h.nuts w).ofs) % SIZE)
        (((h.nuts r).max + SIZE - (h.nuts r).ofs) % SIZE)
  · simp only [gt_iff_lt, hpos, if_true]
    refine ⟨_, rfl, rfl, rfl, rfl, ?_, ?_⟩
    · intro q hqw hqr
      rw [setNut_nuts_other _ _ _ _ hqw, setNut_nuts_other _ _ _ _ hqr]
    · refine ⟨fun _ => ⟨?_, ?_⟩, fun h0 => ?_⟩
      · rw [setNut_nuts_same, setNut_nuts_other _ _ _ _ hne, hwb]
      · rw [setNut_nuts_other _ _ _ _ hne.symm, setNut_nuts_same]
      · omega
  · simp only [gt_iff_lt, hpos, if_false]
    exact ⟨h, rfl, rfl, rfl, rfl, fun _ _ _ => rfl, fun hp => False.elim hp, fun _ => rfl⟩

/-- Below `2 ^ 31` the conversion to `int` keeps the value. -/
theorem int_of_size_eq (n : Nat) (h : n < 2 ^ 31) : int_of_size n = (n : Int) := by
  have h1 : n % U32 = n := Nat.mod_eq_of_lt (lt_trans h (by decide))
  unfold int_of_size
  rw [h1, if_pos h]

/-- The transfer path of `_conut_sync`: between a writer `w` and a reader `r`
that name each other as peer, have no error and satisfy the assertions on the
roles, a call on either end is step four followed by the signal, and the result
is decided by the caller's offset after the move. -/
theorem conut_sync_transfer (E : ErrnoCodes) (fuel : Nat) (h : Heap) (w r me minlen : Nat)
    (wbuf rbuf : Nat → Nat) (hf : 2 ≤ fuel) (hme : me = w ∨ me = r) (hne : w ≠ r)
    (hwp : (h.nuts w).peer = some r) (hrp : (h.nuts r).peer = some w)
    (hwe : (h.nuts w).errno = 0) (hre : (h.nuts r).errno = 0)
    (hww : (h.nuts w).writer = true) (hrr : (h.nuts r).reader = true)
    (hx : (h.nuts me).reader ≠ (h.nuts me).writer)
    (hwb : (h.nuts w).buf = some wbuf) (hrb : (h.nuts r).buf = some rbuf) :
    ∃ h1 h2, syncMove h w r = some h1 ∧ h2.nuts = h1.nuts ∧
      _conut_sync E fuel h me minlen =
        some (h2, if (h1.nuts me).ofs < minlen then -(E.EAGAIN : Int)
                  else int_of_size (h1.nuts me).ofs) := by
  obtain ⟨h1, hmove, -, -, -, -, -⟩ := syncMove_spec h w r wbuf rbuf hne hwb hrb
  rcases hme with rfl | rfl
  · obtain ⟨h2, htrig, hnuts, -⟩ :=
      Heap.trigger_spec h1 fuel (h1.nutIndex r % 256) (h1.nutCoro r) hf
    have hwr : (h.nuts me).reader = false := by
      rw [hww] at hx; simpa using hx
    refine ⟨h1, h2, hmove, hnuts, ?_⟩
    unfold _conut_sync
    simp [hwb, hwe, hwp, hrp, hre, hww, hwr, hrr, hmove, htrig, hnuts]
    split_ifs <;> rfl
  · obtain ⟨h2, htrig, hnuts, -⟩ :=
      Heap.trigger_spec h1 fuel (h1.nutIndex w % 256) (h1.nutCoro w) hf
    have hrw : (h.nuts me).writer = false := by
      rw [hrr] at hx; simpa using hx
    refine ⟨h1, h2, hmove, hnuts, ?_⟩
    unfold _conut_sync
    simp [hrb, hwe, hwp, hrp, hre, hww, hrw, hrr, hmove, htrig, hnuts]
    split_ifs <;> rfl

/-- The length of step four when neither offset is beyond its maximum. -/
theorem syncLen_eq (wmax wofs rmax rofs : Nat) (hwo : wofs ≤ wmax) (hwm : wmax < SIZE)
    (hro : rofs ≤ rmax) (hrm : rmax < SIZE) :
    min ((wmax + SIZE - wofs) % SIZE) ((rmax + SIZE - rofs) % SIZE) =
      min (wmax - wofs) (rmax - rofs) := by
  unfold SIZE at *
  have e1 : (wmax + 2 ^ 64 - wofs) % 2 ^ 64 = wmax - wofs := by omega
  have e2 : (rmax + 2 ^ 64 - rofs) % 2 ^ 64 = rmax - rofs := by omega
  rw [e1, e2]

/-- The effect of a transfer on a writer and a reader whose offsets are within
their maxima: both offsets advance by the same length, the reader's memory
receives that many bytes, nothing else changes. -/
theorem conut_sync_pair (E : ErrnoCodes) (fuel : Nat) (h : Heap) (w r me minlen : Nat)
    (wbuf rbuf : Nat → Nat) (hf : 2 ≤ fuel) (hme : me = w ∨ me = r)
    (hwp : (h.nuts w).peer = some r) (hrp : (h.nuts r).peer = some w)
    (hwe : (h.nuts w).errno = 0) (hre : (h.nuts r).errno = 0)
    (hww : (h.nuts w).writer = true) (hwr : (h.nuts w).reader = false)
    (hrr : (h.nuts r).reader = true) (hrw : (h.nuts r).writer = false)
    (hwb : (h.nuts w).buf = some wbuf) (hrb : (h.nuts r).buf = some rbuf)
    (hwo : (h.nuts w).ofs ≤ (h.nuts w).max) (hwm : (h.nuts w).max < SIZE)
    (hro : (h.nuts r).ofs ≤ (h.nuts r).max) (hrm : (h.nuts r).max < SIZE) :
    ∃ h2, _conut_sync E fuel h me minlen =
        some (h2, if (h2.nuts me).ofs < minlen then -(E.EAGAIN : Int)
                  else int_of_size (h2.nuts me).ofs) ∧
      h2.nuts w = { h.nuts w with
        ofs := (h.nuts w).ofs +
          min ((h.nuts w).max - (h.nuts w).ofs) ((h.nuts r).max - (h.nuts r).ofs) } ∧
      h2.nuts r = { h.nuts r with
        buf := some (memcpy rbuf (h.nuts r).ofs wbuf (h.nuts w).ofs
          (min ((h.nuts w).max - (h.nuts w).ofs) ((h.nuts r).max - (h.nuts r).ofs))),
        ofs := (h.nuts r).ofs +
          min ((h.nuts w).max - (h.nuts w).ofs) ((h.nuts r).max - (h.nuts r).ofs) } ∧
      ∀ q, q ≠ w → q ≠ r → h2.nuts q = h.nuts q := by
  have hne : w ≠ r := by
    intro e; rw [e, hrw] at hww; exact Bool.noConfusion hww
  have hx : (h.nuts me).reader ≠ (h.nuts me).writer := by
    rcases hme with rfl | rfl
    · rw [hww, hwr]; decide
    · rw [hrr, hrw]; decide
  obtain ⟨h1, h2, hmove, hnuts, hsync⟩ :=
    conut_sync_transfer E fuel h w r me minlen wbuf rbuf hf hme hne hwp hrp hwe hre hww hrr hx
      hwb hrb
  obtain ⟨h1', hmove', -, -, -, hframe, hlen⟩ := syncMove_spec h w r wbuf rbuf hne hwb hrb
  have e11 : h1' = h1 := by rw [hmove] at hmove'; exact (Option.some.inj hmove').symm
  subst e11
  rw [syncLen_eq _ _ _ _ hwo hwm hro hrm] at hlen
  have hlw : min ((h.nuts w).max - (h.nuts w).ofs) ((h.nuts r).max - (h.nuts r).ofs) ≤
      (h.nuts w).max - (h.nuts w).ofs := min_le_left _ _
  have hlr : min ((h.nuts w).max - (h.nuts w).ofs) ((h.nuts r).max - (h.nuts r).ofs) ≤
      (h.nuts r).max - (h.nuts r).ofs := min_le_right _ _
  refine ⟨h2, by rw [hsync, hnuts], ?_, ?_, ?_⟩
  · rw [hnuts]
    by_cases hpos : 0 < min ((h.nuts w).max - (h.nuts w).ofs) ((h.nuts r).max - (h.nuts r).ofs)
    · rw [(hlen.1 hpos).1, Nat.mod_eq_of_lt (by unfold SIZE at *; omega)]
    · have h0 : min ((h.nuts w).max - (h.nuts w).ofs) ((h.nuts r).max - (h.nuts r).ofs) = 0 := by
        omega
      rw [hlen.2 h0, h0]
      rfl
  · rw [hnuts]
    by_cases hpos : 0 < min ((h.nuts w).max - (h.nuts w).ofs) ((h.nuts r).max - (h.nuts r).ofs)
    · rw [(hlen.1 hpos).2, Nat.mod_eq_of_lt (by unfold SIZE at *; omega)]
    · have h0 : min ((h.nuts w).max - (h.nuts w).ofs) ((h.nuts r).max - (h.nuts r).ofs) = 0 := by
        omega
      rw [hlen.2 h0, h0, memcpy_zero, ← hrb]
      rfl
  · intro q hqw hqr
    rw [hnuts]
    exact hframe q hqw hqr

theorem s2Heap_ready : PairReady s2Heap 0 1 := by
  refine ⟨rfl, rfl, rfl, rfl, rfl, rfl, rfl, rfl, ?_, ?_, ?_, ?_, ?_, ?_⟩
  · exact fun e => Option.noConfusion e
  · exact fun e => Option.noConfusion e
  · decide
  · decide
  · decide
  · decide

/-- C1: between a mutually paired writer `w` and reader `r` without error and
with `ofs <= max` on both ends, `_conut_sync` on either end, for any minimum,
returns and advances `w.ofs` and `r.ofs` by the same amount
`min (w.max - w.ofs) (r.max - r.ofs)`; `max` stays as it is on both ends. -/
theorem conut_sync_advances_both (E : ErrnoCodes) (fuel : Nat) (h : Heap)
    (w r me minlen : Nat) (hf : 2 ≤ fuel) (hp : PairReady h w r) (hme : me = w ∨ me = r) :
    ∃ h2 ret, _conut_sync E fuel h me minlen = some (h2, ret) ∧
      (h2.nuts w).ofs = (h.nuts w).ofs +
        min ((h.nuts w).max - (h.nuts w).ofs) ((h.nuts r).max - (h.nuts r).ofs) ∧
      (h2.nuts r).ofs = (h.nuts r).ofs +
        min ((h.nuts w).max - (h.nuts w).ofs) ((h.nuts r).max - (h.nuts r).ofs) ∧
      (h2.nuts w).max = (h.nuts w).max ∧ (h2.nuts r).max = (h.nuts r).max := by
  obtain ⟨hwp, hrp, hwe, hre, hww, hwr, hrr, hrw, hwb, hrb, hwo, hwm, hro, hrm⟩ := hp
  obtain ⟨wbuf, hwb⟩ := Option.ne_none_iff_exists'.mp hwb
  obtain ⟨rbuf, hrb⟩ := Option.ne_none_iff_exists'.mp hrb
  obtain ⟨h2, hsync, hw2, hr2, -⟩ :=
    conut_sync_pair E fuel h w r me minlen wbuf rbuf hf hme hwp hrp hwe hre hww hwr hrr hrw
      hwb hrb hwo hwm hro hrm
  exact ⟨h2, _, hsync, by rw [hw2], by rw [hr2], by rw [hw2], by rw [hr2]⟩

/-- Witness of `conut_sync_advances_both`: the reader's call in scenario S2. -/
theorem conut_sync_advances_both_witness :
    ∃ h2 ret, _conut_sync linuxErrno 2 s2Heap 1 3 = some (h2, ret) ∧
      (h2.nuts 0).ofs = (s2Heap.nuts 0).ofs +
        min ((s2Heap.nuts 0).max - (s2Heap.nuts 0).ofs)
          ((s2Heap.nuts 1).max - (s2Heap.nuts 1).ofs) ∧
      (h2.nuts 1).ofs = (s2Heap.nuts 1).ofs +
        min ((s2Heap.nuts 0).max - (s2Heap.nuts 0).ofs)
          ((s2Heap.nuts 1).max - (s2Heap.nuts 1).ofs) ∧
      (h2.nuts 0).max = (s2Heap.nuts 0).max ∧ (h2.nuts 1).max = (s2Heap.nuts 1).max :=
  conut_sync_advances_both linuxErrno 2 s2Heap 0 1 1 3 (by decide) s2Heap_ready (Or.inr rfl)

/-- C2: after `_conut_sync` between a ready writer `w` and reader `r` has moved
`len = min (w.max - w.ofs) (r.max - r.ofs)` bytes, the reader's memory holds
`w.buf[w.ofs + i]` at `r.ofs + i` for every `i < len`, every other byte of the
reader's memory is as before, and the writer's memory is as before. -/
theorem conut_sync_copies_window (E : ErrnoCodes) (fuel : Nat) (h : Heap)
    (w r me minlen : Nat) (wbuf rbuf : Nat → Nat) (hf : 2 ≤ fuel) (hp : PairReady h w r)
    (hme : me = w ∨ me = r)
    (hwb : (h.nuts w).buf = some wbuf) (hrb : (h.nuts r).buf = some rbuf) :
    ∃ h2 ret rbuf2, _conut_sync E fuel h me minlen = some (h2, ret) ∧
      (h2.nuts r).buf = some rbuf2 ∧ (h2.nuts w).buf = some wbuf ∧
      (∀ i, i < min ((h.nuts w).max - (h.nuts w).ofs) ((h.nuts r).max - (h.nuts r).ofs) →
        rbuf2 ((h.nuts r).ofs + i) = wbuf ((h.nuts w).ofs + i)) ∧
      (∀ j, (j < (h.nuts r).ofs ∨ (h.nuts r).ofs +
          min ((h.nuts w).max - (h.nuts w).ofs) ((h.nuts r).max - (h.nuts r).ofs) ≤ j) →
        rbuf2 j = rbuf j) := by
  obtain ⟨hwp, hrp, hwe, hre, hww, hwr, hrr, hrw, -, -, hwo, hwm, hro, hrm⟩ := hp
  obtain ⟨h2, hsync, hw2, hr2, -⟩ :=
    conut_sync_pair E fuel h w r me minlen wbuf rbuf hf hme hwp hrp hwe hre hww hwr hrr hrw
      hwb hrb hwo hwm hro hrm
  refine ⟨h2, _, _, hsync, by rw [hr2], by rw [hw2, ← hwb], ?_, ?_⟩
  · intro i hi
    have hc : (h.nuts r).ofs ≤ (h.nuts r).ofs + i ∧ (h.nuts r).ofs + i < (h.nuts r).ofs +
        min ((h.nuts w).max - (h.nuts w).ofs) ((h.nuts r).max - (h.nuts r).ofs) := by
      omega
    simp only [memcpy, hc, and_self, if_true, Nat.add_sub_cancel_left]
  · intro j hj
    have hc : ¬ ((h.nuts r).ofs ≤ j ∧ j < (h.nuts r).ofs +
        min ((h.nuts w).max - (h.nuts w).ofs) ((h.nuts r).max - (h.nuts r).ofs)) := by
      omega
    simp only [memcpy, hc, if_false]

/-- Witness of `conut_sync_copies_window`: the writer's call in scenario S2. -/
theorem conut_sync_copies_window_witness :
    ∃ h2 ret rbuf2, _conut_sync linuxErrno 2 s2Heap 0 5 = some (h2, ret) ∧
      (h2.nuts 1).buf = some rbuf2 ∧ (h2.nuts 0).buf = some (bytes [1, 2, 3, 4, 5]) ∧
      (∀ i, i < min ((s2Heap.nuts 0).max - (s2Heap.nuts 0).ofs)
          ((s2Heap.nuts 1).max - (s2Heap.nuts 1).ofs) →
        rbuf2 ((s2Heap.nuts 1).ofs + i) = bytes [1, 2, 3, 4, 5] ((s2Heap.nuts 0).ofs + i)) ∧
      (∀ j, (j < (s2Heap.nuts 1).ofs ∨ (s2Heap.nuts 1).ofs +
          min ((s2Heap.nuts 0).max - (s2Heap.nuts 0).ofs)
            ((s2Heap.nuts 1).max - (s2Heap.nuts 1).ofs) ≤ j) →
        rbuf2 j = bytes [] j) :=
  conut_sync_copies_window linuxErrno 2 s2Heap 0 1 0 5 (bytes [1, 2, 3, 4, 5]) (bytes [])
    (by decide) s2Heap_ready (Or.inl rfl) rfl rfl

theorem resetbuf_condition (n : coconut_pipenut) (wr : Bool) :
    ((wr && n.writer) || (!wr && n.reader)) = hasRole n wr := by
  cases wr <;> simp [hasRole]

/-- The effect of `conut_resetbuf` on a nut with a buffer and a peer other than
itself: the fields of the round are reset, and a peer with the same role puts
`EPROTO` on both ends. -/
theorem conut_resetbuf_spec (E : ErrnoCodes) (h : Heap) (pn p : Nat) (wr : Bool)
    (hbuf : (h.nuts pn).buf ≠ none) (hpeer : (h.nuts pn).peer = some p) (hne : p ≠ pn) :
    ∃ h2, conut_resetbuf E h pn wr = some h2 ∧
      h2.nuts pn = { h.nuts pn with
        writer := wr, reader := !wr, min := ((h.nuts pn).max + 1) % SIZE, ofs := 0,
        errno := if hasRole (h.nuts p) wr = true then E.EPROTO else 0 } ∧
      h2.nuts p = { h.nuts p with
        errno := if hasRole (h.nuts p) wr = true then E.EPROTO else (h.nuts p).errno } ∧
      (∀ q, q ≠ pn → q ≠ p → h2.nuts q = h.nuts q) ∧ h2.coros = h.coros := by
  have hb : (h.nuts pn).buf.isNone = false := by
    cases hc : (h.nuts pn).buf with
    | none => exact absurd hc hbuf
    | some b => rfl
  by_cases hc : hasRole (h.nuts p) wr = true
  · have e : conut_resetbuf E h pn wr = some
        (((h.setNut pn { h.nuts pn with
            writer := wr, reader := !wr, min := ((h.nuts pn).max + 1) % SIZE, ofs := 0,
            errno := 0 }).setNut pn
          { h.nuts pn with
            writer := wr, reader := !wr, min := ((h.nuts pn).max + 1) % SIZE, ofs := 0,
            errno := E.EPROTO }).setNut p { h.nuts p with errno := E.EPROTO }) := by
      unfold conut_resetbuf
      simp only [hb, hpeer, Bool.false_eq_true, if_false, setNut_nuts_same,
        setNut_nuts_other _ _ _ _ hne, resetbuf_condition, hc, if_true]
    refine ⟨_, e, ?_, ?_, ?_, rfl⟩
    · rw [setNut_nuts_other _ _ _ _ hne.symm, setNut_nuts_same, if_pos hc]
    · rw [setNut_nuts_same, if_pos hc]
    · intro q hq1 hq2
      rw [setNut_nuts_other _ _ _ _ hq2, setNut_nuts_other _ _ _ _ hq1,
        setNut_nuts_other _ _ _ _ hq1]
  · have e : conut_resetbuf E h pn wr = some
        (h.setNut pn { h.nuts pn with
            writer := wr, reader := !wr, min := ((h.nuts pn).max + 1) % SIZE, ofs := 0,
            errno := 0 }) := by
      unfold conut_resetbuf
      simp only [hb, hpeer, Bool.false_eq_true, if_false, setNut_nuts_same,
        setNut_nuts_other _ _ _ _ hne, resetbuf_condition, hc]
    refine ⟨_, e, ?_, ?_, ?_, rfl⟩
    · rw [setNut_nuts_same, if_neg hc]
    · rw [setNut_nuts_other _ _ _ _ hne, if_neg hc]
    · intro q hq1 _
      rw [setNut_nuts_other _ _ _ _ hq1]

/-- The effect of `conut_setupbuf` on a connected nut without a buffer. -/
theorem conut_setupbuf_spec (E : ErrnoCodes) (h : Heap) (pn p : Nat) (wr : Bool)
    (b : Nat → Nat) (maxlen : Nat)
    (hbuf : (h.nuts pn).buf = none) (hpeer : (h.nuts pn).peer = some p) (hne : p ≠ pn) :
    ∃ h2, conut_setupbuf E h pn wr (some b) maxlen = some h2 ∧
      h2.nuts pn = { h.nuts pn with
        buf := some b, max := maxlen,
        writer := wr, reader := !wr, min := (maxlen + 1) % SIZE, ofs := 0,
        errno := if hasRole (h.nuts p) wr = true then E.EPROTO else 0 } ∧
      h2.nuts p = { h.nuts p with
        errno := if hasRole (h.nuts p) wr = true then E.EPROTO else (h.nuts p).errno } ∧
      (∀ q, q ≠ pn → q ≠ p → h2.nuts q = h.nuts q) ∧ h2.coros = h.coros := by
  obtain ⟨h2, hreset, hpn2, hp2, hframe, hcoros⟩ :=
    conut_resetbuf_spec E (h.setNut pn { h.nuts pn with buf := some b, max := maxlen }) pn p wr
      (by rw [setNut_nuts_same]; exact fun e => Option.noConfusion e)
      (by rw [setNut_nuts_same]; exact hpeer) hne
  have e : conut_setupbuf E h pn wr (some b) maxlen = some h2 := by
    unfold conut_setupbuf
    rw [if_neg (by simp [hbuf]), if_neg (by simp [hpeer])]
    exact hreset
  refine ⟨h2, e, ?_, ?_, ?_, hcoros⟩
  · rw [hpn2, setNut_nuts_same, setNut_nuts_other _ _ _ _ hne]
  · rw [hp2, setNut_nuts_other _ _ _ _ hne]
  · intro q hq1 hq2
    rw [hframe q hq1 hq2, setNut_nuts_other _ _ _ _ hq1]

/-- An error other than `EPIPE` stays in `errno` when `_conut_sync` reports it:
every call reports it, the next one too. -/
theorem conut_sync_error_stays (E : ErrnoCodes) (fuel : Nat) (h : Heap) (me m1 m2 : Nat)
    (hbuf : (h.nuts me).buf ≠ none) (herr : (h.nuts me).errno ≠ 0)
    (hpipe : (h.nuts me).errno ≠ E.EPIPE) :
    ∃ h1 h2, _conut_sync E fuel h me m1 = some (h1, -((h.nuts me).errno : Int)) ∧
      (h1.nuts me).errno = (h.nuts me).errno ∧
      _conut_sync E fuel h1 me m2 = some (h2, -((h.nuts me).errno : Int)) := by
  have hb : (h.nuts me).buf.isNone = false := by
    cases hc : (h.nuts me).buf with
    | none => exact absurd hc hbuf
    | some b => rfl
  have step : ∀ (g : Heap) (m : Nat), (g.nuts me).buf.isNone = false →
      (g.nuts me).errno = (h.nuts me).errno →
      ∃ g1, _conut_sync E fuel g me m = some (g1, -((h.nuts me).errno : Int)) ∧
        (g1.nuts me).buf.isNone = false ∧ (g1.nuts me).errno = (h.nuts me).errno := by
    intro g m gb ge
    unfold _conut_sync
    simp only [gb, ge, Bool.false_eq_true, if_false, ne_eq, herr, hpipe, not_false_eq_true,
      if_true]
    by_cases hr : (h.nuts me).errno = E.ECONNRESET
    · refine ⟨_, rfl, ?_, ?_⟩
      · simp only [hr, if_true, setNut_nuts_same]; exact gb
      · simp only [hr, if_true, setNut_nuts_same]
    · refine ⟨_, rfl, ?_, ?_⟩
      · simp only [hr, if_false]; exact gb
      · simp only [hr, if_false]; exact ge
  obtain ⟨h1, e1, hb1, he1⟩ := step h m1 hb rfl
  obtain ⟨h2, e2, -, -⟩ := step h1 m2 hb1 he1
  exact ⟨h1, h2, e1, he1, e2⟩

/-- C8 (the code at the failing input): after the writer/writer collision of
scenario S3 both nuts hold `EPROTO` (71); on either end the first `_conut_sync`
returns `-EPROTO`, and the second consecutive call returns `-EPROTO` again. -/
theorem conut_sync_error_delivered_twice : s3Run = some (-71, -71, -71, -71, 71, 71) := by
  decide

theorem s2Heap_buf : (s2Heap.nuts 0).buf ≠ none :=
  fun e => Option.noConfusion e

/-- C9 (role collision): after `conut_resetbuf` (on a nut `pn` of memory `h` that
has a buffer) and after `conut_setupbuf` (on a nut `pn` of memory `g` that has
none), with role `wr` and a peer `p` other than `pn`: if the peer has the same
role at that moment, both `pn.errno` and `p.errno` are `EPROTO`; if it does not
(it has the opposite role, or no role yet), `pn.errno` is 0 and `p.errno` is as
before. -/
theorem role_collision (E : ErrnoCodes) (h g : Heap) (pn p : Nat) (wr : Bool)
    (b : Nat → Nat) (maxlen : Nat) (hne : p ≠ pn)
    (hpeer : (h.nuts pn).peer = some p) (hbuf : (h.nuts pn).buf ≠ none)
    (gpeer : (g.nuts pn).peer = some p) (gbuf : (g.nuts pn).buf = none) :
    (∃ h2, conut_resetbuf E h pn wr = some h2 ∧
      (hasRole (h.nuts p) wr = true →
        (h2.nuts pn).errno = E.EPROTO ∧ (h2.nuts p).errno = E.EPROTO) ∧
      (hasRole (h.nuts p) wr = false →
        (h2.nuts pn).errno = 0 ∧ (h2.nuts p).errno = (h.nuts p).errno)) ∧
    (∃ g2, conut_setupbuf E g pn wr (some b) maxlen = some g2 ∧
      (hasRole (g.nuts p) wr = true →
        (g2.nuts pn).errno = E.EPROTO ∧ (g2.nuts p).errno = E.EPROTO) ∧
      (hasRole (g.nuts p) wr = false →
        (g2.nuts pn).errno = 0 ∧ (g2.nuts p).errno = (g.nuts p).errno)) := by
  obtain ⟨h2, e1, hpn, hp, -, -⟩ := conut_resetbuf_spec E h pn p wr hbuf hpeer hne
  obtain ⟨g2, e2, gpn, gp, -, -⟩ := conut_setupbuf_spec E g pn p wr b maxlen gbuf gpeer hne
  refine ⟨⟨h2, e1, fun hc => ?_, fun hc => ?_⟩, ⟨g2, e2, fun hc => ?_, fun hc => ?_⟩⟩
  · rw [hpn, hp]; simp [hc]
  · rw [hpn, hp]; simp [hc]
  · rw [gpn, gp]; simp [hc]
  · rw [gpn, gp]; simp [hc]

/-- Witness of `role_collision`: the writer of S2 is reset as a reader, the role
of its peer; a freshly connected nut is set up as a reader. -/
theorem role_collision_witness :
    (∃ h2, conut_resetbuf linuxErrno s2Heap 0 false = some h2 ∧
      (hasRole (s2Heap.nuts 1) false = true →
        (h2.nuts 0).errno = linuxErrno.EPROTO ∧ (h2.nuts 1).errno = linuxErrno.EPROTO) ∧
      (hasRole (s2Heap.nuts 1) false = false →
        (h2.nuts 0).errno = 0 ∧ (h2.nuts 1).errno = (s2Heap.nuts 1).errno)) ∧
    (∃ g2, conut_setupbuf linuxErrno pipedHeap 0 false (some (bytes [7])) 1 = some g2 ∧
      (hasRole (pipedHeap.nuts 1) false = true →
        (g2.nuts 0).errno = linuxErrno.EPROTO ∧ (g2.nuts 1).errno = linuxErrno.EPROTO) ∧
      (hasRole (pipedHeap.nuts 1) false = false →
        (g2.nuts 0).errno = 0 ∧ (g2.nuts 1).errno = (pipedHeap.nuts 1).errno)) :=
  role_collision linuxErrno s2Heap pipedHeap 0 1 false (bytes [7]) 1 (by decide) rfl
    s2Heap_buf rfl rfl

/-- C10: on a connected nut `pn` with a buffer, `conut_resetbuf (pn, wr)` sets
exactly the one of `writer`, `reader` that `wr` names, sets `ofs = 0` and
`min = max + 1` (in `size_t`), sets `errno = 0` when the peer does not have the
same role, and leaves `buf`, `max`, `peer` and `queue` as they are.  Hence, from
a connected nut without a buffer, `conut_setupbuf` followed by `conut_resetbuf`
with the same role leaves `ofs = 0`, `min = max + 1` and, without a collision,
`errno = 0`. -/
theorem conut_resetbuf_effect (E : ErrnoCodes) (h g : Heap) (pn p : Nat) (wr : Bool)
    (b : Nat → Nat) (maxlen : Nat) (hne : p ≠ pn)
    (hpeer : (h.nuts pn).peer = some p) (hbuf : (h.nuts pn).buf ≠ none)
    (gpeer : (g.nuts pn).peer = some p) (gbuf : (g.nuts pn).buf = none) :
    (∃ h2, conut_resetbuf E h pn wr = some h2 ∧
      (h2.nuts pn).writer = wr ∧ (h2.nuts pn).reader = !wr ∧
      (h2.nuts pn).ofs = 0 ∧
      (h2.nuts pn).min = ((h.nuts pn).max + 1) % SIZE ∧
      ((h.nuts pn).max + 1 < SIZE → (h2.nuts pn).min = (h.nuts pn).max + 1) ∧
      (hasRole (h.nuts p) wr = false → (h2.nuts pn).errno = 0) ∧
      (h2.nuts pn).buf = (h.nuts pn).buf ∧ (h2.nuts pn).max = (h.nuts pn).max ∧
      (h2.nuts pn).peer = (h.nuts pn).peer ∧ (h2.nuts pn).queue = (h.nuts pn).queue) ∧
    (∃ g1 g2, conut_setupbuf E g pn wr (some b) maxlen = some g1 ∧
      conut_resetbuf E g1 pn wr = some g2 ∧
      (g2.nuts pn).ofs = 0 ∧
      (hasRole (g.nuts p) wr = false → (g2.nuts pn).errno = 0) ∧
      (g2.nuts pn).min = ((g2.nuts pn).max + 1) % SIZE ∧
      ((g2.nuts pn).max + 1 < SIZE → (g2.nuts pn).min = (g2.nuts pn).max + 1) ∧
      (g2.nuts pn).max = maxlen ∧ (g2.nuts pn).buf = some b) := by
  obtain ⟨h2, e1, hpn, -, -, -⟩ := conut_resetbuf_spec E h pn p wr hbuf hpeer hne
  obtain ⟨g1, e2, gpn, gp, -, -⟩ := conut_setupbuf_spec E g pn p wr b maxlen gbuf gpeer hne
  obtain ⟨g2, e3, gpn2, -, -, -⟩ :=
    conut_resetbuf_spec E g1 pn p wr (by rw [gpn]; exact fun e => Option.noConfusion e)
      (by rw [gpn]; exact gpeer) hne
  have hrole : hasRole (g1.nuts p) wr = hasRole (g.nuts p) wr := by
    rw [gp]; cases wr <;> rfl
  refine ⟨⟨h2, e1, ?_, ?_, ?_, ?_, ?_, ?_, ?_, ?_, ?_, ?_⟩,
    ⟨g1, g2, e2, e3, ?_, ?_, ?_, ?_, ?_, ?_⟩⟩
  · rw [hpn]
  · rw [hpn]
  · rw [hpn]
  · rw [hpn]
  · intro hlt; rw [hpn]; exact Nat.mod_eq_of_lt hlt
  · intro hc; rw [hpn]; simp [hc]
  · rw [hpn]
  · rw [hpn]
  · rw [hpn]
  · rw [hpn]
  · rw [gpn2]
  · intro hc; rw [gpn2, hrole]; simp [hc]
  · rw [gpn2]
  · intro hlt; rw [gpn2] at hlt ⊢; exact Nat.mod_eq_of_lt hlt
  · rw [gpn2, gpn]
  · rw [gpn2, gpn]

/-- Witness of `conut_resetbuf_effect`: the writer of S2 is reset as a writer; a
freshly connected nut is set up and reset as a writer. -/
theorem conut_resetbuf_effect_witness :
    (∃ h2, conut_resetbuf linuxErrno s2Heap 0 true = some h2 ∧
      (h2.nuts 0).writer = true ∧ (h2.nuts 0).reader = !true ∧
      (h2.nuts 0).ofs = 0 ∧
      (h2.nuts 0).min = ((s2Heap.nuts 0).max + 1) % SIZE ∧
      ((s2Heap.nuts 0).max + 1 < SIZE → (h2.nuts 0).min = (s2Heap.nuts 0).max + 1) ∧
      (hasRole (s2Heap.nuts 1) true = false → (h2.nuts 0).errno = 0) ∧
      (h2.nuts 0).buf = (s2Heap.nuts 0).buf ∧ (h2.nuts 0).max = (s2Heap.nuts 0).max ∧
      (h2.nuts 0).peer = (s2Heap.nuts 0).peer ∧ (h2.nuts 0).queue = (s2Heap.nuts 0).queue) ∧
    (∃ g1 g2, conut_setupbuf linuxErrno pipedHeap 0 true (some (bytes [7])) 1 = some g1 ∧
      conut_resetbuf linuxErrno g1 0 true = some g2 ∧
      (g2.nuts 0).ofs = 0 ∧
      (hasRole (pipedHeap.nuts 1) true = false → (g2.nuts 0).errno = 0) ∧
      (g2.nuts 0).min = ((g2.nuts 0).max + 1) % SIZE ∧
      ((g2.nuts 0).max + 1 < SIZE → (g2.nuts 0).min = (g2.nuts 0).max + 1) ∧
      (g2.nuts 0).max = 1 ∧ (g2.nuts 0).buf = some (bytes [7])) :=
  conut_resetbuf_effect linuxErrno s2Heap pipedHeap 0 1 true (bytes [7]) 1 (by decide) rfl
    s2Heap_buf rfl rfl

/-! ## The error and would-block paths of `_conut_sync` -/

theorem isNone_false_of_ne_none {α : Type} (o : Option α) (h : o ≠ none) :
    o.isNone = false := by
  cases o with
  | none => exact absurd rfl h
  | some b => rfl

theorem linuxErrno_valid : linuxErrno.valid := by
  unfold ErrnoCodes.valid linuxErrno
  decide

theorem errHeap_buf (e ofs : Nat) : ((errHeap e ofs).nuts 1).buf ≠ none :=
  fun c => Option.noConfusion c

/-- C11 (the code at the failing input): the reader of scenario S2 has two bytes
at EOF (`errno` is `EPIPE`, 32, on both ends) and asks for three.
`_conut_sync` returns 2, not `-EPROTO` (-71), and `errno` stays `EPIPE` on both
ends: `*minlen = 0;` precedes the test `me->ofs < minlen`, which then never
holds. -/
theorem conut_sync_short_eof_returns_ofs :
    ((errHeap 32 2).nuts 1).errno = linuxErrno.EPIPE ∧ ((errHeap 32 2).nuts 1).ofs = 2 ∧
    (_conut_sync linuxErrno 0 (errHeap 32 2) 1 3).map
      (fun r => (r.2, (r.1.nuts 1).errno, (r.1.nuts 0).errno)) = some (2, 32, 32) ∧
    -(linuxErrno.EPROTO : Int) = -71 := by
  refine ⟨by decide, by decide, by decide, by decide⟩

/-- C13: for a nut `me` with a buffer and no error whose peer `p` does not name
it back, or has a non-zero `errno`, `_conut_sync (me, minlen)` returns `-EAGAIN`
and leaves the whole memory as it was: no byte is copied, no offset, `errno`, role
or buffer of either end changes, and no activity bit is set. -/
theorem conut_sync_would_block (E : ErrnoCodes) (fuel : Nat) (h : Heap) (me p minlen : Nat)
    (hbuf : (h.nuts me).buf ≠ none) (herr : (h.nuts me).errno = 0)
    (hmp : (h.nuts me).peer = some p)
    (hpeer : (h.nuts p).peer ≠ some me ∨ (h.nuts p).errno ≠ 0) :
    _conut_sync E fuel h me minlen = some (h, -(E.EAGAIN : Int)) := by
  have hb := isNone_false_of_ne_none _ hbuf
  unfold _conut_sync
  simp only [hb, herr, hmp, Bool.false_eq_true, if_false, ne_eq, not_true_eq_false]
  by_cases h1 : (h.nuts p).peer = some me
  · have h2 : (h.nuts p).errno ≠ 0 := by
      rcases hpeer with c | c
      · exact absurd h1 c
      · exact c
    simp [h1, h2]
  · simp [h1]

/-- Witness of `conut_sync_would_block`: the writer of S2 when its peer holds an
error. -/
theorem conut_sync_would_block_witness :
    _conut_sync linuxErrno 0 (s2Heap.setNut 1 { s2Heap.nuts 1 with errno := 71 }) 0 5 =
      some (s2Heap.setNut 1 { s2Heap.nuts 1 with errno := 71 }, -(linuxErrno.EAGAIN : Int)) :=
  conut_sync_would_block linuxErrno 0 (s2Heap.setNut 1 { s2Heap.nuts 1 with errno := 71 })
    0 1 5 (fun c => Option.noConfusion c) rfl rfl (Or.inr (by decide))

/-- C14 (connection reset): for a nut `me` with a buffer, when `me.errno` is
`ECONNRESET` `_conut_sync` returns `-ECONNRESET` and `me.peer` is `NULL`
afterwards; for every other error code `e` that is not `EPIPE` it returns `-e`
and leaves the memory, so `me.peer`, as it was. -/
theorem conut_sync_conn_reset (E : ErrnoCodes) (fuel : Nat) (h : Heap) (me minlen : Nat)
    (hE : E.valid) (hbuf : (h.nuts me).buf ≠ none) :
    ((h.nuts me).errno = E.ECONNRESET →
      ∃ h2, _conut_sync E fuel h me minlen = some (h2, -(E.ECONNRESET : Int)) ∧
        (h2.nuts me).peer = none) ∧
    ((h.nuts me).errno ≠ 0 → (h.nuts me).errno ≠ E.EPIPE →
      (h.nuts me).errno ≠ E.ECONNRESET →
      _conut_sync E fuel h me minlen = some (h, -((h.nuts me).errno : Int))) := by
  have hb := isNone_false_of_ne_none _ hbuf
  obtain ⟨-, -, hr0, -, -, hpr, -⟩ := hE
  constructor
  · intro herr
    have h0 : E.ECONNRESET ≠ 0 := Nat.pos_iff_ne_zero.mp hr0
    have hp : ¬ E.ECONNRESET = E.EPIPE := fun c => hpr c.symm
    refine ⟨h.setNut me { h.nuts me with peer := none }, ?_, by rw [setNut_nuts_same]⟩
    unfold _conut_sync
    simp only [hb, herr, h0, hp, Bool.false_eq_true, if_false, ne_eq, not_false_eq_true,
      if_true]
  · intro h0 hp hr
    unfold _conut_sync
    simp only [hb, h0, hp, hr, Bool.false_eq_true, if_false, ne_eq, not_false_eq_true,
      if_true]

/-- Witness of `conut_sync_conn_reset`: the reader of S2 with `ECONNRESET` (104). -/
theorem conut_sync_conn_reset_witness :
    (((errHeap 104 2).nuts 1).errno = linuxErrno.ECONNRESET →
      ∃ h2, _conut_sync linuxErrno 0 (errHeap 104 2) 1 3 =
          some (h2, -(linuxErrno.ECONNRESET : Int)) ∧
        (h2.nuts 1).peer = none) ∧
    (((errHeap 104 2).nuts 1).errno ≠ 0 → ((errHeap 104 2).nuts 1).errno ≠ linuxErrno.EPIPE →
      ((errHeap 104 2).nuts 1).errno ≠ linuxErrno.ECONNRESET →
      _conut_sync linuxErrno 0 (errHeap 104 2) 1 3 =
        some (errHeap 104 2, -(((errHeap 104 2).nuts 1).errno : Int))) :=
  conut_sync_conn_reset linuxErrno 0 (errHeap 104 2) 1 3 linuxErrno_valid (errHeap_buf 104 2)

/-! ## `conut_makepipe` and the bound on the offset -/

/-- C18: on two distinct nuts `a` and `b` without peer and with empty queues,
`conut_makepipe (a, b)` sets `a.peer = b` and `b.peer = a` and nothing else: every
other field of the two nuts (buffer, offsets, roles, `errno`, queue), every other
nut, every coroutine record (so every activity set) and the layout are as
before. -/
theorem conut_makepipe_frame (h : Heap) (a b : Nat) (hne : a ≠ b)
    (ha : (h.nuts a).peer = none) (hb : (h.nuts b).peer = none)
    (haq : (h.nuts a).queue = none) (hbq : (h.nuts b).queue = none) :
    ∃ h1, conut_makepipe h a b = some h1 ∧
      (h1.nuts a).peer = some b ∧ (h1.nuts b).peer = some a ∧
      h1.nuts a = { h.nuts a with peer := some b } ∧
      h1.nuts b = { h.nuts b with peer := some a } ∧
      (∀ q, q ≠ a → q ≠ b → h1.nuts q = h.nuts q) ∧
      h1.coros = h.coros ∧ (∀ c, (h1.coros c).activity = (h.coros c).activity) ∧
      h1.nutCoro = h.nutCoro ∧ h1.nutIndex = h.nutIndex := by
  have e : conut_makepipe h a b =
      some ((h.setNut a { h.nuts a with peer := some b }).setNut b
        { (h.setNut a { h.nuts a with peer := some b }).nuts b with peer := some a }) := by
    unfold conut_makepipe
    rw [if_neg (by simp [ha]), if_neg (by simp [hb]), if_neg (by simp [haq]),
      if_neg (by simp [hbq])]
  refine ⟨_, e, ?_, ?_, ?_, ?_, ?_, rfl, fun _ => rfl, rfl, rfl⟩
  · rw [setNut_nuts_other _ _ _ _ hne, setNut_nuts_same]
  · rw [setNut_nuts_same]
  · rw [setNut_nuts_other _ _ _ _ hne, setNut_nuts_same]
  · rw [setNut_nuts_same, setNut_nuts_other _ _ _ _ hne.symm]
  · intro q hqa hqb
    rw [setNut_nuts_other _ _ _ _ hqb, setNut_nuts_other _ _ _ _ hqa]

/-- Witness of `conut_makepipe_frame`: nuts 0 and 1 of a fresh memory. -/
theorem conut_makepipe_frame_witness :
    ∃ h1, conut_makepipe freshHeap 0 1 = some h1 ∧
      (h1.nuts 0).peer = some 1 ∧ (h1.nuts 1).peer = some 0 ∧
      h1.nuts 0 = { freshHeap.nuts 0 with peer := some 1 } ∧
      h1.nuts 1 = { freshHeap.nuts 1 with peer := some 0 } ∧
      (∀ q, q ≠ 0 → q ≠ 1 → h1.nuts q = freshHeap.nuts q) ∧
      h1.coros = freshHeap.coros ∧
      (∀ c, (h1.coros c).activity = (freshHeap.coros c).activity) ∧
      h1.nutCoro = freshHeap.nutCoro ∧ h1.nutIndex = freshHeap.nutIndex :=
  conut_makepipe_frame freshHeap 0 1 (by decide) rfl rfl rfl rfl

/-- The signal changes no pipe nut, whatever the fuel. -/
theorem Heap.trigger_nuts (h h2 : Heap) (fuel conut target : Nat)
    (ht : h.trigger fuel conut target = some h2) : h2.nuts = h.nuts := by
  unfold Heap.trigger at ht
  cases hc : conut_trigger fuel conut (h.coros target) with
  | none => rw [hc] at ht; exact Option.noConfusion ht
  | some t =>
    rw [hc] at ht
    have e : h.setCoro target t = h2 := Option.some.inj ht
    rw [← e]
    rfl

/-- Step four without a buffer on one end either fails or moves nothing. -/
theorem syncMove_no_buf (h h1 : Heap) (w r : Nat)
    (hb : (h.nuts w).buf = none ∨ (h.nuts r).buf = none)
    (hm : syncMove h w r = some h1) : h1 = h := by
  unfold syncMove at hm
  have key : ∀ len : Nat, (if len > 0 then
      (match (h.nuts r).buf, (h.nuts w).buf with
        | some rbuf, some wbuf =>
          some ((h.setNut r
            { h.nuts r with
              buf := some (memcpy rbuf (h.nuts r).ofs wbuf (h.nuts w).ofs len),
              ofs := ((h.nuts r).ofs + len) % SIZE }).setNut w
            { (h.setNut r
              { h.nuts r with
                buf := some (memcpy rbuf (h.nuts r).ofs wbuf (h.nuts w).ofs len),
                ofs := ((h.nuts r).ofs + len) % SIZE }).nuts w with
              ofs := (((h.setNut r
                { h.nuts r with
                  buf := some (memcpy rbuf (h.nuts r).ofs wbuf (h.nuts w).ofs len),
                  ofs := ((h.nuts r).ofs + len) % SIZE }).nuts w).ofs + len) % SIZE })
        | _, _ => none)
      else some h) = some h1 → h1 = h := by
    intro len hl
    by_cases hpos : len > 0
    · rw [if_pos hpos] at hl
      rcases hb with hb | hb
      · cases hr : (h.nuts r).buf <;> simp [hb, hr] at hl
      · simp [hb] at hl
    · rw [if_neg hpos] at hl
      exact (Option.some.inj hl).symm
  exact key _ hm

/-- Step four keeps each offset within its maximum, and keeps the maxima. -/
theorem syncMove_bound (h h1 : Heap) (w r : Nat) (hne : w ≠ r)
    (hwo : (h.nuts w).ofs ≤ (h.nuts w).max) (hwm : (h.nuts w).max < SIZE)
    (hro : (h.nuts r).ofs ≤ (h.nuts r).max) (hrm : (h.nuts r).max < SIZE)
    (hm : syncMove h w r = some h1) :
    (h1.nuts w).ofs ≤ (h1.nuts w).max ∧ (h1.nuts r).ofs ≤ (h1.nuts r).max ∧
    (h1.nuts w).max = (h.nuts w).max ∧ (h1.nuts r).max = (h.nuts r).max := by
  cases hwb : (h.nuts w).buf with
  | none =>
    have e := syncMove_no_buf h h1 w r (Or.inl hwb) hm
    subst e
    exact ⟨hwo, hro, rfl, rfl⟩
  | some wbuf =>
    cases hrb : (h.nuts r).buf with
    | none =>
      have e := syncMove_no_buf h h1 w r (Or.inr hrb) hm
      subst e
      exact ⟨hwo, hro, rfl, rfl⟩
    | some rbuf =>
      obtain ⟨h1', hmove', -, -, -, -, hlen⟩ := syncMove_spec h w r wbuf rbuf hne hwb hrb
      have e11 : h1' = h1 := by rw [hm] at hmove'; exact (Option.some.inj hmove').symm
      subst e11
      rw [syncLen_eq _ _ _ _ hwo hwm hro hrm] at hlen
      by_cases hpos : 0 < min ((h.nuts w).max - (h.nuts w).ofs)
          ((h.nuts r).max - (h.nuts r).ofs)
      · obtain ⟨hw1, hr1⟩ := hlen.1 hpos
        rw [hw1, hr1]
        refine ⟨?_, ?_, rfl, rfl⟩
        · show ((h.nuts w).ofs + _) % SIZE ≤ (h.nuts w).max
          unfold SIZE at *
          omega
        · show ((h.nuts r).ofs + _) % SIZE ≤ (h.nuts r).max
          unfold SIZE at *
          omega
      · have h0 : min ((h.nuts w).max - (h.nuts w).ofs)
            ((h.nuts r).max - (h.nuts r).ofs) = 0 := by omega
        rw [hlen.2 h0]
        exact ⟨hwo, hro, rfl, rfl⟩

/-- Every way out of `_conut_sync` keeps both offsets of a mutually paired pair
within their maxima, and keeps the maxima. -/
theorem conut_sync_keeps_bound (E : ErrnoCodes) (fuel : Nat) (k k2 : Heap)
    (me p minlen : Nat) (ret : Int)
    (hmp : (k.nuts me).peer = some p) (hpm : (k.nuts p).peer = some me)
    (hmo : (k.nuts me).ofs ≤ (k.nuts me).max) (hmm : (k.nuts me).max < SIZE)
    (hpo : (k.nuts p).ofs ≤ (k.nuts p).max) (hpx : (k.nuts p).max < SIZE)
    (hs : _conut_sync E fuel k me minlen = some (k2, ret)) :
    (k2.nuts me).ofs ≤ (k2.nuts me).max ∧ (k2.nuts p).ofs ≤ (k2.nuts p).max ∧
    (k2.nuts me).max = (k.nuts me).max ∧ (k2.nuts p).max = (k.nuts p).max := by
  have same : ∀ k3 : Heap, (∀ q, (k3.nuts q).ofs = (k.nuts q).ofs ∧
      (k3.nuts q).max = (k.nuts q).max) →
      (k3.nuts me).ofs ≤ (k3.nuts me).max ∧ (k3.nuts p).ofs ≤ (k3.nuts p).max ∧
      (k3.nuts me).max = (k.nuts me).max ∧ (k3.nuts p).max = (k.nuts p).max := by
    intro k3 hk
    rw [(hk me).1, (hk me).2, (hk p).1, (hk p).2]
    exact ⟨hmo, hpo, rfl, rfl⟩
  have upd : ∀ (g : Heap) (x : Nat) (n : coconut_pipenut),
      n.ofs = (g.nuts x).ofs → n.max = (g.nuts x).max →
      ∀ q, ((g.setNut x n).nuts q).ofs = (g.nuts q).ofs ∧
        ((g.setNut x n).nuts q).max = (g.nuts q).max := by
    intro g x n h1 h2 q
    by_cases hq : q = x
    · subst hq; rw [setNut_nuts_same]; exact ⟨h1, h2⟩
    · rw [setNut_nuts_other _ _ _ _ hq]; exact ⟨rfl, rfl⟩
  unfold _conut_sync at hs
  by_cases hb : (k.nuts me).buf.isNone = true
  · rw [if_pos hb] at hs; exact Option.noConfusion hs
  rw [if_neg hb] at hs
  dsimp only at hs
  by_cases he : (k.nuts me).errno ≠ 0
  · rw [if_pos he] at hs
    by_cases hpipe : (k.nuts me).errno ≠ E.EPIPE
    · rw [if_pos hpipe] at hs
      have e := (Prod.mk.inj (Option.some.inj hs)).1
      rw [← e]
      apply same
      by_cases hr : (k.nuts me).errno = E.ECONNRESET
      · rw [if_pos hr]; exact upd k me _ rfl rfl
      · rw [if_neg hr]; exact fun q => ⟨rfl, rfl⟩
    · rw [if_neg hpipe] at hs
      by_cases hshort : (k.nuts me).ofs > 0 ∧ (k.nuts me).ofs < 0
      · rw [if_pos hshort] at hs
        simp only [hmp, hpm, ne_eq, not_true_eq_false, if_false] at hs
        have e := (Prod.mk.inj (Option.some.inj hs)).1
        rw [← e]
        apply same
        intro q
        by_cases hqp : q = p
        · rw [hqp, setNut_nuts_same]
          by_cases hpm2 : p = me
          · rw [hpm2, setNut_nuts_same]; exact ⟨rfl, rfl⟩
          · rw [setNut_nuts_other _ _ _ _ hpm2]; exact ⟨rfl, rfl⟩
        · rw [setNut_nuts_other _ _ _ _ hqp]
          by_cases hqm : q = me
          · rw [hqm, setNut_nuts_same]; exact ⟨rfl, rfl⟩
          · rw [setNut_nuts_other _ _ _ _ hqm]; exact ⟨rfl, rfl⟩
      · rw [if_neg hshort] at hs
        have e := (Prod.mk.inj (Option.some.inj hs)).1
        rw [← e]
        exact same k (fun q => ⟨rfl, rfl⟩)
  · rw [if_neg he] at hs
    simp only [hmp, hpm, ne_eq, not_true_eq_false, if_false] at hs
    by_cases hpe : (k.nuts p).errno = 0
    · simp only [hpe, not_true_eq_false, if_false] at hs
      by_cases ha1 : (k.nuts me).reader = (k.nuts me).writer
      · rw [if_pos ha1] at hs; exact Option.noConfusion hs
      rw [if_neg ha1] at hs
      by_cases ha2 : (!((k.nuts me).writer || (k.nuts p).writer)) = true
      · rw [if_pos ha2] at hs; exact Option.noConfusion hs
      rw [if_neg ha2] at hs
      by_cases ha3 : (!((k.nuts me).reader || (k.nuts p).reader)) = true
      · rw [if_pos ha3] at hs; exact Option.noConfusion hs
      rw [if_neg ha3] at hs
      have hne : me ≠ p := by
        intro c
        subst c
        cases hw : (k.nuts me).writer <;> cases hr : (k.nuts me).reader <;>
          simp [hw, hr] at ha1 ha2 ha3
      cases hmv : syncMove k (if (k.nuts me).writer = true then me else p)
          (if (k.nuts me).writer = true then p else me) with
      | none => rw [hmv] at hs; exact Option.noConfusion hs
      | some k1 =>
        rw [hmv] at hs
        simp only at hs
        cases htr : k1.trigger fuel (k1.nutIndex p % 256) (k1.nutCoro p) with
        | none => rw [htr] at hs; exact Option.noConfusion hs
        | some k3 =>
          rw [htr] at hs
          simp only at hs
          have hn3 := Heap.trigger_nuts k1 k3 _ _ _ htr
          have e : k3 = k2 := by
            split at hs
            · exact (Prod.mk.inj (Option.some.inj hs)).1
            · exact (Prod.mk.inj (Option.some.inj hs)).1
          rw [← e, hn3]
          by_cases hw : (k.nuts me).writer = true
          · simp only [hw, if_true] at hmv
            obtain ⟨b1, b2, b3, b4⟩ := syncMove_bound k k1 me p hne hmo hmm hpo hpx hmv
            exact ⟨b1, b2, b3, b4⟩
          · simp only [hw, if_false] at hmv
            obtain ⟨b1, b2, b3, b4⟩ :=
              syncMove_bound k k1 p me (fun c => hne c.symm) hpo hpx hmo hmm hmv
            exact ⟨b2, b1, b4, b3⟩
    · simp only [hpe, not_false_eq_true, if_true] at hs
      have e := (Prod.mk.inj (Option.some.inj hs)).1
      rw [← e]
      exact same k (fun q => ⟨rfl, rfl⟩)

/-- A ready pair lets `_conut_sync` return on either end. -/
theorem conut_sync_returns (E : ErrnoCodes) (fuel : Nat) (k : Heap) (w r me minlen : Nat)
    (hf : 2 ≤ fuel) (hp : PairReady k w r) (hme : me = w ∨ me = r) :
    ∃ k2 ret, _conut_sync E fuel k me minlen = some (k2, ret) := by
  obtain ⟨hwp, hrp, hwe, hre, hww, hwr, hrr, hrw, hwb, hrb, hwo, hwm, hro, hrm⟩ := hp
  obtain ⟨wbuf, hwb⟩ := Option.ne_none_iff_exists'.mp hwb
  obtain ⟨rbuf, hrb⟩ := Option.ne_none_iff_exists'.mp hrb
  obtain ⟨k2, hsync, -⟩ :=
    conut_sync_pair E fuel k w r me minlen wbuf rbuf hf hme hwp hrp hwe hre hww hwr hrr hrw
      hwb hrb hwo hwm hro hrm
  exact ⟨k2, _, hsync⟩

/-- C19: the bound `ofs <= max` is kept.  It holds for the nut after
`conut_setupbuf` (memory `g`, a connected nut without buffer) and after
`conut_resetbuf` (memory `h`, a connected nut with a buffer), and the peer's
bound is untouched; and if it holds on both ends `me`, `q` of a mutually paired
pair (memory `k`), it holds on both ends after `_conut_sync` on `me`, whichever
way the call ends, with `max` as before, so that the `size_t` difference
`max - ofs` is the true difference.  On a pair that is ready to transfer the call
does return. -/
theorem ofs_bound_invariant (E : ErrnoCodes) (fuel : Nat) (g h k : Heap)
    (pn p me q minlen : Nat) (wr : Bool) (b : Nat → Nat) (maxlen : Nat) (hne : p ≠ pn)
    (gpeer : (g.nuts pn).peer = some p) (gbuf : (g.nuts pn).buf = none)
    (hpeer : (h.nuts pn).peer = some p) (hbuf : (h.nuts pn).buf ≠ none)
    (kmq : (k.nuts me).peer = some q) (kqm : (k.nuts q).peer = some me)
    (hmo : (k.nuts me).ofs ≤ (k.nuts me).max) (hmm : (k.nuts me).max < SIZE)
    (hqo : (k.nuts q).ofs ≤ (k.nuts q).max) (hqm : (k.nuts q).max < SIZE) :
    (∃ g2, conut_setupbuf E g pn wr (some b) maxlen = some g2 ∧
      (g2.nuts pn).ofs ≤ (g2.nuts pn).max ∧
      (g2.nuts p).ofs = (g.nuts p).ofs ∧ (g2.nuts p).max = (g.nuts p).max) ∧
    (∃ h2, conut_resetbuf E h pn wr = some h2 ∧
      (h2.nuts pn).ofs ≤ (h2.nuts pn).max ∧
      (h2.nuts p).ofs = (h.nuts p).ofs ∧ (h2.nuts p).max = (h.nuts p).max) ∧
    (∀ k2 ret, _conut_sync E fuel k me minlen = some (k2, ret) →
      (k2.nuts me).ofs ≤ (k2.nuts me).max ∧ (k2.nuts q).ofs ≤ (k2.nuts q).max ∧
      (k2.nuts me).max = (k.nuts me).max ∧ (k2.nuts q).max = (k.nuts q).max ∧
      ((k2.nuts me).max + SIZE - (k2.nuts me).ofs) % SIZE =
        (k2.nuts me).max - (k2.nuts me).ofs ∧
      ((k2.nuts q).max + SIZE - (k2.nuts q).ofs) % SIZE =
        (k2.nuts q).max - (k2.nuts q).ofs) ∧
    ((PairReady k me q ∨ PairReady k q me) → 2 ≤ fuel →
      ∃ k2 ret, _conut_sync E fuel k me minlen = some (k2, ret)) := by
  obtain ⟨g2, e1, gpn, gp, -, -⟩ := conut_setupbuf_spec E g pn p wr b maxlen gbuf gpeer hne
  obtain ⟨h2, e2, hpn, hp, -, -⟩ := conut_resetbuf_spec E h pn p wr hbuf hpeer hne
  refine ⟨⟨g2, e1, ?_, ?_, ?_⟩, ⟨h2, e2, ?_, ?_, ?_⟩, ?_, ?_⟩
  · rw [gpn]; exact Nat.zero_le _
  · rw [gp]
  · rw [gp]
  · rw [hpn]; exact Nat.zero_le _
  · rw [hp]
  · rw [hp]
  · intro k2 ret hs
    obtain ⟨b1, b2, b3, b4⟩ :=
      conut_sync_keeps_bound E fuel k k2 me q minlen ret kmq kqm hmo hmm hqo hqm hs
    refine ⟨b1, b2, b3, b4, ?_, ?_⟩
    · rw [b3] at b1 ⊢
      unfold SIZE at *
      omega
    · rw [b4] at b2 ⊢
      unfold SIZE at *
      omega
  · intro hready hf
    rcases hready with hr | hr
    · exact conut_sync_returns E fuel k me q me minlen hf hr (Or.inl rfl)
    · exact conut_sync_returns E fuel k q me me minlen hf hr (Or.inr rfl)

/-- Witness of `ofs_bound_invariant`: a freshly connected nut is set up, the
writer of S2 is reset, and the reader of S2 calls `_conut_sync`. -/
theorem ofs_bound_invariant_witness :
    (∃ g2, conut_setupbuf linuxErrno pipedHeap 0 true (some (bytes [7])) 1 = some g2 ∧
      (g2.nuts 0).ofs ≤ (g2.nuts 0).max ∧
      (g2.nuts 1).ofs = (pipedHeap.nuts 1).ofs ∧ (g2.nuts 1).max = (pipedHeap.nuts 1).max) ∧
    (∃ h2, conut_resetbuf linuxErrno s2Heap 0 true = some h2 ∧
      (h2.nuts 0).ofs ≤ (h2.nuts 0).max ∧
      (h2.nuts 1).ofs = (s2Heap.nuts 1).ofs ∧ (h2.nuts 1).max = (s2Heap.nuts 1).max) ∧
    (∀ k2 ret, _conut_sync linuxErrno 2 s2Heap 1 3 = some (k2, ret) →
      (k2.nuts 1).ofs ≤ (k2.nuts 1).max ∧ (k2.nuts 0).ofs ≤ (k2.nuts 0).max ∧
      (k2.nuts 1).max = (s2Heap.nuts 1).max ∧ (k2.nuts 0).max = (s2Heap.nuts 0).max ∧
      ((k2.nuts 1).max + SIZE - (k2.nuts 1).ofs) % SIZE =
        (k2.nuts 1).max - (k2.nuts 1).ofs ∧
      ((k2.nuts 0).max + SIZE - (k2.nuts 0).ofs) % SIZE =
        (k2.nuts 0).max - (k2.nuts 0).ofs) ∧
    ((PairReady s2Heap 1 0 ∨ PairReady s2Heap 0 1) → 2 ≤ 2 →
      ∃ k2 ret, _conut_sync linuxErrno 2 s2Heap 1 3 = some (k2, ret)) :=
  ofs_bound_invariant linuxErrno 2 pipedHeap s2Heap s2Heap 0 1 1 0 3 true (bytes [7]) 1
    (by decide) rfl rfl rfl s2Heap_buf rfl rfl (by decide) (by decide) (by decide) (by decide)

/-! ## Connection queues -/

theorem queueWalk_none (n : Nat) (nuts : Nat → coconut_pipenut) :
    queueWalk n nuts none = some [] := by
  cases n <;> rfl

/-- A walk from a nut: one link, then the walk from its `qnext`. -/
theorem queueWalk_some (n : Nat) (nuts : Nat → coconut_pipenut) (x : Nat) (l : List Nat)
    (hw : queueWalk n nuts (some x) = some l) :
    ∃ k tl, n = k + 1 ∧ queueWalk k nuts (nuts x).qnext = some tl ∧ l = x :: tl := by
  cases n with
  | zero => exact Option.noConfusion hw
  | succ k =>
    simp only [queueWalk, Option.map_eq_some'] at hw
    obtain ⟨tl, htl, rfl⟩ := hw
    exact ⟨k, tl, rfl, htl, rfl⟩

theorem queueWalk_step (k : Nat) (nuts : Nat → coconut_pipenut) (x : Nat) (tl : List Nat)
    (hw : queueWalk k nuts (nuts x).qnext = some tl) :
    queueWalk (k + 1) nuts (some x) = some (x :: tl) := by
  simp only [queueWalk, hw, Option.map_some']

/-- More fuel gives the same walk. -/
theorem queueWalk_mono (n m : Nat) (nuts : Nat → coconut_pipenut) (p : Option Nat)
    (l : List Nat) (hw : queueWalk n nuts p = some l) (hnm : n ≤ m) :
    queueWalk m nuts p = some l := by
  induction n generalizing m p l with
  | zero =>
    cases p with
    | none => rw [queueWalk_none] at hw ⊢; exact hw
    | some x => exact Option.noConfusion hw
  | succ k ih =>
    cases p with
    | none => rw [queueWalk_none] at hw ⊢; exact hw
    | some x =>
      obtain ⟨k', tl, hk, htl, rfl⟩ := queueWalk_some _ _ _ _ hw
      have hk2 : k' = k := by omega
      subst hk2
      obtain ⟨m', rfl⟩ : ∃ m', m = m' + 1 := ⟨m - 1, by omega⟩
      exact queueWalk_step m' nuts x tl (ih m' _ tl htl (by omega))

/-- A walk reads the `qnext` fields of its own nuts only. -/
theorem queueWalk_frame (n : Nat) (nuts nuts2 : Nat → coconut_pipenut) (p : Option Nat)
    (l : List Nat) (hw : queueWalk n nuts p = some l)
    (hq : ∀ x, x ∈ l → (nuts2 x).qnext = (nuts x).qnext) :
    queueWalk n nuts2 p = some l := by
  induction n generalizing p l with
  | zero =>
    cases p with
    | none => rw [queueWalk_none] at hw ⊢; exact hw
    | some x => exact Option.noConfusion hw
  | succ k ih =>
    cases p with
    | none => rw [queueWalk_none] at hw ⊢; exact hw
    | some x =>
      obtain ⟨k', tl, hk, htl, rfl⟩ := queueWalk_some _ _ _ _ hw
      have hk2 : k' = k := by omega
      subst hk2
      apply queueWalk_step
      rw [hq x (List.mem_cons_self x tl)]
      exact ih _ tl htl (fun y hy => hq y (List.mem_cons_of_mem x hy))

/-- From every nut of a walk the walk goes on, no longer than the whole. -/
theorem queueWalk_mem (n : Nat) (nuts : Nat → coconut_pipenut) (p : Option Nat)
    (l : List Nat) (y : Nat) (hw : queueWalk n nuts p = some l) (hy : y ∈ l) :
    ∃ l2, queueWalk n nuts (some y) = some l2 ∧ l2.length ≤ l.length := by
  induction n generalizing p l with
  | zero =>
    cases p with
    | none =>
      rw [queueWalk_none] at hw
      have e : l = [] := (Option.some.inj hw).symm
      subst e
      exact absurd hy (List.not_mem_nil y)
    | some x => exact Option.noConfusion hw
  | succ k ih =>
    cases p with
    | none =>
      rw [queueWalk_none] at hw
      have e : l = [] := (Option.some.inj hw).symm
      subst e
      exact absurd hy (List.not_mem_nil y)
    | some x =>
      obtain ⟨k', tl, hk, htl, rfl⟩ := queueWalk_some _ _ _ _ hw
      have hk2 : k' = k := by omega
      subst hk2
      rcases List.mem_cons.mp hy with rfl | hy2
      · exact ⟨_, hw, Nat.le_refl _⟩
      · obtain ⟨l2, hl2, hlen⟩ := ih _ tl htl hy2
        exact ⟨l2, queueWalk_mono _ _ _ _ _ hl2 (Nat.le_succ _),
          Nat.le_trans hlen (by simp)⟩

/-- The head of a queue is not among the nuts behind it. -/
theorem queueWalk_head_not_mem (n : Nat) (nuts : Nat → coconut_pipenut) (p : Option Nat)
    (x : Nat) (tl : List Nat) (hw : queueWalk n nuts p = some (x :: tl)) : x ∉ tl := by
  intro hx
  cases p with
  | none =>
    rw [queueWalk_none] at hw
    exact List.noConfusion (Option.some.inj hw)
  | some z =>
    obtain ⟨k, tl2, rfl, htl, e⟩ := queueWalk_some _ _ _ _ hw
    have hz : x = z := (List.cons.inj e).1
    have ht : tl = tl2 := (List.cons.inj e).2
    rw [← ht] at htl
    rw [← hz] at hw
    obtain ⟨l2, hl2, hlen⟩ := queueWalk_mem k nuts _ tl x htl hx
    have h3 := queueWalk_mono _ (k + 1) _ _ _ hl2 (Nat.le_succ _)
    rw [hw] at h3
    have e2 : x :: tl = l2 := Option.some.inj h3
    rw [← e2] at hlen
    simp at hlen

/-- The nuts of a queue are distinct. -/
theorem queueWalk_nodup (n : Nat) (nuts : Nat → coconut_pipenut) (p : Option Nat)
    (l : List Nat) (hw : queueWalk n nuts p = some l) : l.Nodup := by
  induction n generalizing p l with
  | zero =>
    cases p with
    | none =>
      rw [queueWalk_none] at hw
      rw [← Option.some.inj hw]
      exact List.nodup_nil
    | some x => exact Option.noConfusion hw
  | succ k ih =>
    cases p with
    | none =>
      rw [queueWalk_none] at hw
      rw [← Option.some.inj hw]
      exact List.nodup_nil
    | some x =>
      obtain ⟨k', tl, hk, htl, rfl⟩ := queueWalk_some _ _ _ _ hw
      have hk2 : k' = k := by omega
      subst hk2
      exact List.nodup_cons.mpr ⟨queueWalk_head_not_mem _ _ _ _ _ hw, ih _ tl htl⟩

/-- The memory that `_conut_accept` leaves when the queue of `me` starts with
`hd`, before the signal. -/
theorem conut_accept_eq (fuel : Nat) (h : Heap) (me hd : Nat) (hf : 2 ≤ fuel)
    (hpeer : (h.nuts me).peer = none) (hq : (h.nuts me).queue = some hd) :
    ∃ (h3 h4 : Heap), _conut_accept fuel h me = some (h4, none) ∧ h4.nuts = h3.nuts ∧
      (h3.nuts me).peer = some hd ∧ (h3.nuts me).queue = (h.nuts hd).qnext ∧
      (h3.nuts hd).qnext = none ∧
      (hd ≠ me → (h3.nuts hd).peer = (h.nuts hd).peer) ∧
      (∀ x, x ≠ hd → (h3.nuts x).qnext = (h.nuts x).qnext) := by
  obtain ⟨h4, htrig, hnuts, -⟩ := Heap.trigger_spec
    (((h.setNut me { h.nuts me with queue := (h.nuts hd).qnext }).setNut hd
        { (h.setNut me { h.nuts me with queue := (h.nuts hd).qnext }).nuts hd with
          qnext := none }).setNut me
      { ((h.setNut me { h.nuts me with queue := (h.nuts hd).qnext }).setNut hd
          { (h.setNut me { h.nuts me with queue := (h.nuts hd).qnext }).nuts hd with
            qnext := none }).nuts me with peer := some hd })
    fuel (h.nutIndex me % 256) (h.nutCoro hd) hf
  refine ⟨_, h4, ?_, hnuts, ?_, ?_, ?_, ?_, ?_⟩
  · unfold _conut_accept
    rw [if_neg (by simp [hpeer])]
    simp only [hq]
    have ht := htrig
    simp only [setNut_nutIndex, setNut_nutCoro] at ht ⊢
    rw [ht]
  · rw [setNut_nuts_same]
  · rw [setNut_nuts_same]
    by_cases hc : me = hd
    · subst hc; rw [setNut_nuts_same, setNut_nuts_same]
    · rw [setNut_nuts_other _ _ _ _ hc, setNut_nuts_same]
  · by_cases hc : hd = me
    · subst hc; rw [setNut_nuts_same, setNut_nuts_same]
    · rw [setNut_nuts_other _ _ _ _ hc, setNut_nuts_same]
  · intro hc
    rw [setNut_nuts_other _ _ _ _ hc, setNut_nuts_same, setNut_nuts_other _ _ _ _ hc]
  · intro x hx
    by_cases hxm : x = me
    · subst hxm
      rw [setNut_nuts_same, setNut_nuts_other _ _ _ _ hx, setNut_nuts_same]
    · rw [setNut_nuts_other _ _ _ _ hxm, setNut_nuts_other _ _ _ _ hx,
        setNut_nuts_other _ _ _ _ hxm]

/-- C15 (amended): for a nut `me` without peer, `_conut_accept (me)` on an empty
queue returns 1 and changes nothing; on a queue with head `hd` it ends with
`me.peer = hd`, with `me.queue` the old queue without its head, in the same
order, and with `hd.qnext` unset.  It does not write `hd.peer`: the pair is
mutually bound afterwards when `hd.peer = me` held before. -/
theorem conut_accept_effect (fuel n : Nat) (h : Heap) (me : Nat) (l : List Nat)
    (hf : 2 ≤ fuel) (hpeer : (h.nuts me).peer = none)
    (hq : queueWalk n h.nuts (h.nuts me).queue = some l) :
    (l = [] → _conut_accept fuel h me = some (h, some 1)) ∧
    (∀ hd tl, l = hd :: tl →
      ∃ h2 ret, _conut_accept fuel h me = some (h2, ret) ∧
        (h2.nuts me).peer = some hd ∧
        ((h.nuts hd).peer = some me → (h2.nuts hd).peer = some me) ∧
        (hd ≠ me → (h2.nuts hd).peer = (h.nuts hd).peer) ∧
        queueWalk n h2.nuts (h2.nuts me).queue = some tl ∧
        (h2.nuts hd).qnext = none) := by
  constructor
  · intro hl
    subst hl
    cases hqe : (h.nuts me).queue with
    | none =>
      unfold _conut_accept
      rw [if_neg (by simp [hpeer])]
      simp only [hqe]
    | some z =>
      rw [hqe] at hq
      obtain ⟨k, tl, -, -, e⟩ := queueWalk_some _ _ _ _ hq
      exact List.noConfusion e
  · intro hd tl hl
    subst hl
    cases hqe : (h.nuts me).queue with
    | none =>
      rw [hqe, queueWalk_none] at hq
      exact List.noConfusion (Option.some.inj hq)
    | some z =>
      rw [hqe] at hq
      have hnot := queueWalk_head_not_mem _ _ _ _ _ hq
      obtain ⟨k, tl2, hk, htl, e⟩ := queueWalk_some _ _ _ _ hq
      have hz : hd = z := (List.cons.inj e).1
      have ht : tl = tl2 := (List.cons.inj e).2
      rw [← ht, ← hz] at htl
      rw [← hz] at hqe
      obtain ⟨h3, h4, hacc, hnuts, hp3, hq3, hn3, hpk, hframe⟩ :=
        conut_accept_eq fuel h me hd hf hpeer hqe
      refine ⟨h4, none, hacc, ?_, ?_, ?_, ?_, ?_⟩
      · rw [hnuts]; exact hp3
      · intro hhalf
        rw [hnuts]
        by_cases hc : hd = me
        · rw [hc]; rw [hc] at hp3; exact hp3
        · rw [hpk hc]; exact hhalf
      · intro hc; rw [hnuts]; exact hpk hc
      · rw [hnuts, hq3]
        apply queueWalk_frame n h.nuts
        · exact queueWalk_mono k n _ _ _ htl (by omega)
        · intro x hx
          exact hframe x (fun c => hnot (c ▸ hx))
      · rw [hnuts]; exact hn3

/-- Witness of `conut_accept_effect`: nut 0 accepts with nuts 1 and 2 on its
queue. -/
theorem conut_accept_effect_witness :
    ([1, 2] = [] → _conut_accept 2 halfHeap 0 = some (halfHeap, some 1)) ∧
    (∀ hd tl, [1, 2] = hd :: tl →
      ∃ h2 ret, _conut_accept 2 halfHeap 0 = some (h2, ret) ∧
        (h2.nuts 0).peer = some hd ∧
        ((halfHeap.nuts hd).peer = some 0 → (h2.nuts hd).peer = some 0) ∧
        (hd ≠ 0 → (h2.nuts hd).peer = (halfHeap.nuts hd).peer) ∧
        queueWalk 2 h2.nuts (h2.nuts 0).queue = some tl ∧
        (h2.nuts hd).qnext = none) :=
  conut_accept_effect 2 2 halfHeap 0 [1, 2] (by decide) rfl (by decide)

/-- C15 (counterexample): nut 1 waits on the queue of nut 0 and has no peer.
After `_conut_accept` on nut 0, nut 0 names nut 1 but nut 1 still has no peer, so
the pair is not mutually bound; and the call ends without returning a value. -/
theorem conut_accept_not_mutual :
    (_conut_accept 2 queuedHeap 0).map
        (fun r => ((r.1.nuts 0).peer, (r.1.nuts 1).peer, r.2)) =
      some (some 1, none, none) := by
  decide

/-- C16 (the code at the failing input): `_conut_connect (0, 1)` on two fresh nuts
returns 1 and leaves nut 1, not nut 0, on the queue of nut 1; with nut 2 already
waiting there the queue becomes 2, 1.  Nut 0 is on no queue. -/
theorem conut_connect_enqueues_newpeer :
    (_conut_connect 3 freshHeap 0 1).map
        (fun r => (r.2, queueWalk 3 r.1.nuts (r.1.nuts 1).queue,
          queueWalk 3 r.1.nuts (r.1.nuts 0).queue, (r.1.nuts 0).qnext)) =
      some (1, some [1], some [], none) ∧
    (_conut_connect 3 otherQueueHeap 0 1).map
        (fun r => (r.2, queueWalk 3 r.1.nuts (r.1.nuts 1).queue,
          queueWalk 3 r.1.nuts (r.1.nuts 0).queue, (r.1.nuts 0).qnext)) =
      some (1, some [2, 1], some [], none) := by
  constructor <;> decide

/-- C17 (counterexample): nut 0 waits on the queue of nut 1.  `_conut_connect`
of nut 0 to nut 1 returns 1, not 0; nut 0 stays on the queue of nut 1 and neither
nut has a peer afterwards. -/
theorem conut_connect_no_short_circuit :
    (_conut_connect 3 meQueuedHeap 0 1).map
        (fun r => (r.2, (r.1.nuts 0).peer, (r.1.nuts 1).peer,
          queueWalk 3 r.1.nuts (r.1.nuts 1).queue)) =
      some (1, none, none, some [0, 1]) := by
  decide

theorem readSlot_writeSlot_same (h : Heap) (s : Slot) (v : Option Nat) :
    (h.writeSlot s v).readSlot s = v := by
  cases s <;> simp [Heap.writeSlot, Heap.readSlot]

/-- An assignment through `qp` leaves every `peer` as it is. -/
theorem writeSlot_peer (h : Heap) (s : Slot) (v : Option Nat) (x : Nat) :
    ((h.writeSlot s v).nuts x).peer = (h.nuts x).peer := by
  cases s with
  | queue m =>
    by_cases hx : x = m
    · subst hx; simp [Heap.writeSlot]
    · simp [Heap.writeSlot, setNut_nuts_other _ _ _ _ hx]
  | qnext m =>
    by_cases hx : x = m
    · subst hx; simp [Heap.writeSlot]
    · simp [Heap.writeSlot, setNut_nuts_other _ _ _ _ hx]

/-- An assignment through `qp` leaves every `qnext` but the one it points to. -/
theorem writeSlot_qnext (h : Heap) (s : Slot) (v : Option Nat) (x : Nat)
    (hs : s ≠ Slot.qnext x) : ((h.writeSlot s v).nuts x).qnext = (h.nuts x).qnext := by
  cases s with
  | queue m =>
    by_cases hx : x = m
    · subst hx; simp [Heap.writeSlot]
    · simp [Heap.writeSlot, setNut_nuts_other _ _ _ _ hx]
  | qnext m =>
    have hx : x ≠ m := fun c => hs (by rw [c])
    simp [Heap.writeSlot, setNut_nuts_other _ _ _ _ hx]

/-- An assignment through `qp` leaves every `queue` but the one it points to. -/
theorem writeSlot_queue (h : Heap) (s : Slot) (v : Option Nat) (x : Nat)
    (hs : s ≠ Slot.queue x) : ((h.writeSlot s v).nuts x).queue = (h.nuts x).queue := by
  cases s with
  | queue m =>
    have hx : x ≠ m := fun c => hs (by rw [c])
    simp [Heap.writeSlot, setNut_nuts_other _ _ _ _ hx]
  | qnext m =>
    by_cases hx : x = m
    · subst hx; simp [Heap.writeSlot]
    · simp [Heap.writeSlot, setNut_nuts_other _ _ _ _ hx]

theorem readSlot_writeSlot_other (h : Heap) (s t : Slot) (v : Option Nat) (hst : s ≠ t) :
    (h.writeSlot s v).readSlot t = h.readSlot t := by
  cases t with
  | queue m => exact writeSlot_queue h s v m hst
  | qnext m => exact writeSlot_qnext h s v m hst

/-- After at least one nut the place reached is the `qnext` of one of them. -/
theorem lastSlot_mem (y : Nat) (pre : List Nat) :
    ∃ z, lastSlot (Slot.qnext y) pre = Slot.qnext z ∧ z ∈ y :: pre := by
  induction pre generalizing y with
  | nil => exact ⟨y, rfl, List.mem_cons_self y []⟩
  | cons a pre ih =>
    obtain ⟨z, hz, hm⟩ := ih a
    exact ⟨z, hz, List.mem_cons_of_mem y hm⟩

/-- The first loop of `_conut_connect` stops at the place that holds `other`,
when `other` is on the queue that starts at the place `s`. -/
theorem connectSearch_found (h : Heap) (other : Nat) (post : List Nat) (pre : List Nat)
    (s : Slot) (fuel n : Nat)
    (hw : queueWalk n h.nuts (h.readSlot s) = some (pre ++ other :: post))
    (hnot : other ∉ pre) (hf : pre.length < fuel) :
    connectSearch fuel h other s = some (some (lastSlot s pre)) := by
  induction pre generalizing s fuel n with
  | nil =>
    obtain ⟨f, rfl⟩ : ∃ f, fuel = f + 1 := ⟨fuel - 1, by simp at hf; omega⟩
    cases hr : h.readSlot s with
    | none =>
      rw [hr, queueWalk_none] at hw
      exact List.noConfusion (Option.some.inj hw)
    | some z =>
      rw [hr] at hw
      obtain ⟨k, tl, -, -, e⟩ := queueWalk_some _ _ _ _ hw
      have hz : other = z := (List.cons.inj e).1
      simp only [connectSearch, hr, hz, if_true, lastSlot]
  | cons y pre ih =>
    obtain ⟨f, rfl⟩ : ∃ f, fuel = f + 1 := ⟨fuel - 1, by simp at hf; omega⟩
    cases hr : h.readSlot s with
    | none =>
      rw [hr, queueWalk_none] at hw
      exact List.noConfusion (Option.some.inj hw)
    | some z =>
      rw [hr] at hw
      obtain ⟨k, tl, -, htl, e⟩ := queueWalk_some _ _ _ _ hw
      have hz : y = z := (List.cons.inj e).1
      have ht : pre ++ other :: post = tl := (List.cons.inj e).2
      subst hz
      rw [← ht] at htl
      have hy : ¬ y = other := fun c => hnot (c ▸ List.mem_cons_self y pre)
      simp only [connectSearch, hr, hy, if_false, lastSlot]
      exact ih (Slot.qnext y) f k htl (fun c => hnot (List.mem_cons_of_mem y c))
        (by simp at hf; omega)

/-- Unlinking: the assignment `*qp = other->qnext` at the place that holds
`other` leaves the queue without `other`, the other nuts in the same order. -/
theorem queueWalk_unlink (h : Heap) (other : Nat) (post : List Nat) (pre : List Nat)
    (s : Slot) (n : Nat)
    (hw : queueWalk n h.nuts (h.readSlot s) = some (pre ++ other :: post))
    (hs : ∀ x, s = Slot.qnext x → x ∉ pre ++ other :: post) :
    queueWalk n (h.writeSlot (lastSlot s pre) (h.nuts other).qnext).nuts
      ((h.writeSlot (lastSlot s pre) (h.nuts other).qnext).readSlot s) =
        some (pre ++ post) := by
  induction pre generalizing s n with
  | nil =>
    simp only [lastSlot, List.nil_append] at hw ⊢
    rw [readSlot_writeSlot_same]
    cases hr : h.readSlot s with
    | none =>
      rw [hr, queueWalk_none] at hw
      exact List.noConfusion (Option.some.inj hw)
    | some z =>
      rw [hr] at hw
      obtain ⟨k, tl, hk, htl, e⟩ := queueWalk_some _ _ _ _ hw
      have hz : other = z := (List.cons.inj e).1
      have ht : post = tl := (List.cons.inj e).2
      subst hz
      rw [← ht] at htl
      apply queueWalk_frame n h.nuts
      · exact queueWalk_mono k n _ _ _ htl (by omega)
      · intro x hx
        apply writeSlot_qnext
        intro c
        exact hs x c (by simp [hx])
  | cons y pre ih =>
    simp only [lastSlot, List.cons_append] at hw ⊢
    cases hr : h.readSlot s with
    | none =>
      rw [hr, queueWalk_none] at hw
      exact List.noConfusion (Option.some.inj hw)
    | some z =>
      have hnodup := queueWalk_nodup _ _ _ _ hw
      rw [hr] at hw
      obtain ⟨k, tl, hk, htl, e⟩ := queueWalk_some _ _ _ _ hw
      have hz : y = z := (List.cons.inj e).1
      have ht : pre ++ other :: post = tl := (List.cons.inj e).2
      subst hz
      rw [← ht] at htl
      have hynot : y ∉ pre ++ other :: post := (List.nodup_cons.mp hnodup).1
      have hih := ih (Slot.qnext y) k htl (by
        intro x hx
        have e2 : y = x := by injection hx
        rw [← e2]; exact hynot)
      obtain ⟨z, hzs, hzm⟩ := lastSlot_mem y pre
      have hne : lastSlot (Slot.qnext y) pre ≠ s := by
        rw [hzs]
        intro c
        have hz2 : z ∈ y :: (pre ++ other :: post) := by
          rcases List.mem_cons.mp hzm with c2 | c2
          · rw [c2]; exact List.mem_cons_self _ _
          · exact List.mem_cons_of_mem _ (List.mem_append_left _ c2)
        exact hs z c.symm hz2
      rw [readSlot_writeSlot_other _ _ _ _ hne, hr, hk]
      exact queueWalk_step k _ y _ hih

/-- C17 (amended): the short circuit of `_conut_connect` looks in the queue of
`me`, not in the queue of `other`.  For a nut `me` without peer whose own queue
holds `other`, where `other` already names `me` as its peer (the assertion of
that branch), `_conut_connect (me, other)` removes `other` from `me.queue`, the
other entries staying in their order, leaves the pair mutually bound and returns
0. -/
theorem conut_connect_short_circuit (fuel n : Nat) (h : Heap) (me other : Nat)
    (pre post : List Nat) (hf : pre.length + 2 ≤ fuel)
    (hpeer : (h.nuts me).peer = none) (hop : (h.nuts other).peer = some me)
    (hq : queueWalk n h.nuts (h.nuts me).queue = some (pre ++ other :: post)) :
    ∃ h2, _conut_connect fuel h me other = some (h2, 0) ∧
      (h2.nuts me).peer = some other ∧ (h2.nuts other).peer = some me ∧
      queueWalk n h2.nuts (h2.nuts me).queue = some (pre ++ post) := by
  have hne : other ≠ me := by
    intro c
    rw [c, hpeer] at hop
    exact Option.noConfusion hop
  have hnodup := queueWalk_nodup _ _ _ _ hq
  have hnot : other ∉ pre := by
    intro c
    have := (List.nodup_append.mp hnodup).2.2
    exact this c (List.mem_cons_self other post)
  have hsearch := connectSearch_found h other post pre (Slot.queue me) fuel n hq hnot
    (by omega)
  have hunlink := queueWalk_unlink h other post pre (Slot.queue me) n hq
    (fun x c => Slot.noConfusion c)
  obtain ⟨h3, htrig, hnuts, -⟩ := Heap.trigger_spec
    ((h.writeSlot (lastSlot (Slot.queue me) pre) (h.nuts other).qnext).setNut me
      { (h.writeSlot (lastSlot (Slot.queue me) pre) (h.nuts other).qnext).nuts me with
        peer := some other })
    fuel (h.nutIndex me % 256) (h.nutCoro other) (by omega)
  have hlay : ∀ (s : Slot) (v : Option Nat), (h.writeSlot s v).nutIndex = h.nutIndex ∧
      (h.writeSlot s v).nutCoro = h.nutCoro := by
    intro s v
    cases s <;> exact ⟨rfl, rfl⟩
  refine ⟨h3, ?_, ?_, ?_, ?_⟩
  · unfold _conut_connect
    rw [if_neg (by simp [hpeer]), hsearch]
    simp only
    rw [if_neg (by rw [writeSlot_peer]; simp [hop])]
    have ht := htrig
    simp only [setNut_nutIndex, setNut_nutCoro, (hlay _ _).1, (hlay _ _).2] at ht ⊢
    rw [ht]
  · rw [hnuts, setNut_nuts_same]
  · rw [hnuts, setNut_nuts_other _ _ _ _ hne, writeSlot_peer]
    exact hop
  · rw [hnuts, setNut_nuts_same]
    have hq2 : (h.writeSlot (lastSlot (Slot.queue me) pre) (h.nuts other).qnext).readSlot
        (Slot.queue me) =
        ((h.writeSlot (lastSlot (Slot.queue me) pre) (h.nuts other).qnext).nuts me).queue :=
      rfl
    rw [hq2] at hunlink
    apply queueWalk_frame n _ _ _ _ hunlink
    intro x _
    by_cases hx : x = me
    · subst hx; rw [setNut_nuts_same]
    · rw [setNut_nuts_other _ _ _ _ hx]

/-- Witness of `conut_connect_short_circuit`: nuts 3, 1 and 2 wait on the queue
of nut 0, which connects to nut 1. -/
theorem conut_connect_short_circuit_witness :
    ∃ h2, _conut_connect 3 threeQueuedHeap 0 1 = some (h2, 0) ∧
      (h2.nuts 0).peer = some 1 ∧ (h2.nuts 1).peer = some 0 ∧
      queueWalk 3 h2.nuts (h2.nuts 0).queue = some ([3] ++ [2]) :=
  conut_connect_short_circuit 3 3 threeQueuedHeap 0 1 [3] [2] (by decide) rfl rfl (by decide)

/-! ## Coroutine functions -/

/-- The label `-99998` is sticky: once it is in `coswitch`, a call of `cogo`
returns 0 without running body code, and, when `_codestroy` leaves the label
alone, leaves it there.  This is the state that `codone ()` sets up. -/
theorem cogo_terminated {σ : Type} (destroy : coconut_coro × σ → coconut_coro × σ)
    (code : CoroCode σ) (co : coconut_coro) (s : σ)
    (hd : ∀ r, (destroy r).1.coswitch = r.1.coswitch) (hl : co.coswitch = -99998) :
    ∃ r, cogo destroy code co s = some r ∧ r.ret = 0 ∧ r.bodyRan = false ∧
      r.co.coswitch = -99998 := by
  refine ⟨coend destroy co s false, ?_, rfl, rfl, ?_⟩
  · unfold cogo
    rw [if_pos hl]
  · show (destroy (co, s)).1.coswitch = -99998
    rw [hd]; exact hl

/-- A body that falls through into the case of `coend ()` leaves in `coswitch`
what `_codestroy` makes of the label the call started with: neither `cobegin ()`
nor `coend ()` stores `-99998`. -/
theorem cogo_fallthrough_label {σ : Type} (destroy : coconut_coro × σ → coconut_coro × σ)
    (code : CoroCode σ) (co : coconut_coro) (s s1 : σ)
    (hl : co.coswitch ≠ -99998)
    (hrun : code.run co.coswitch s = some (s1, BodyExit.fallthrough)) :
    ∃ r, cogo destroy code co s = some r ∧ r.ret = 0 ∧ r.bodyRan = true ∧
      r.co = (destroy (co, s1)).1 := by
  refine ⟨coend destroy co s1 true, ?_, rfl, rfl, rfl⟩
  unfold cogo
  rw [if_neg hl, hrun]

/-- A record in the terminated state, as `_codestroy` leaves it, stays as it is
under `cogo`: the call returns 0 and runs no body code. -/
theorem cogo_at_end {σ : Type} (code : CoroCode σ) (r : Resumed σ)
    (hl : r.co.coswitch = -99998) (hres : r.co.resopen = 0) :
    cogo _codestroy code r.co r.user =
      some { co := r.co, user := r.user, ret := 0, bodyRan := false } := by
  have e : ({ r.co with resopen := 0, coswitch := -99998 } : coconut_coro) = r.co := by
    cases hc : r.co
    rw [hc] at hl hres
    simp only at hl hres
    rw [← hl, ← hres]
  have e2 : coend _codestroy r.co r.user false =
      { co := r.co, user := r.user, ret := 0, bodyRan := false } :=
    congrArg (fun c => ({ co := c, user := r.user, ret := 0, bodyRan := false } : Resumed σ)) e
  unfold cogo
  rw [if_pos hl, e2]

/-- A call of `cogo` that returns 0 has gone through the case of `coend ()`, and
`_codestroy` has left the record in the terminated state. -/
theorem cogo_zero_at_end {σ : Type} (code : CoroCode σ) (co : coconut_coro) (s : σ)
    (r1 : Resumed σ) (h1 : cogo _codestroy code co s = some r1) (h0 : r1.ret = 0) :
    r1.co.coswitch = -99998 ∧ r1.co.resopen = 0 := by
  unfold cogo at h1
  by_cases hl : co.coswitch = -99998
  · rw [if_pos hl] at h1
    rw [← Option.some.inj h1]
    exact ⟨rfl, rfl⟩
  · rw [if_neg hl] at h1
    cases hrun : code.run co.coswitch s with
    | none => rw [hrun] at h1; exact Option.noConfusion h1
    | some x =>
      obtain ⟨s1, ex⟩ := x
      rw [hrun] at h1
      cases ex with
      | yield line =>
        have e := Option.some.inj h1
        rw [← e] at h0
        exact absurd h0 Nat.one_ne_zero
      | done =>
        rw [← Option.some.inj h1]
        exact ⟨rfl, rfl⟩
      | fallthrough =>
        rw [← Option.some.inj h1]
        exact ⟨rfl, rfl⟩

/-- Calls of `cogo` on a record in the terminated state, any number of them. -/
theorem cogoRepeat_at_end {σ : Type} (code : CoroCode σ) (n : Nat) :
    ∀ r : Resumed σ, r.co.coswitch = -99998 → r.co.resopen = 0 →
      cogoRepeat _codestroy code (n + 1) r =
        some { co := r.co, user := r.user, ret := 0, bodyRan := false } := by
  induction n with
  | zero =>
    intro r hl hres
    rw [cogoRepeat, cogo_at_end code r hl hres]
    rfl
  | succ n ih =>
    intro r hl hres
    rw [cogoRepeat, cogo_at_end code r hl hres]
    exact ih { co := r.co, user := r.user, ret := 0, bodyRan := false } hl hres

/-- C20: with `_codestroy` as the spec describes the end of a coroutine, a call
of `cogo` that has returned 0 leaves the record in the terminated state (label
`-99998`, no open resource), whether the body got there through `codone ()` or
fell through into the case of `coend ()`; every later call, any number of them,
returns 0 again, runs no body code and leaves the record and the user data as
they are.  A body under `cobody` is a body that never falls through. -/
theorem cogo_sticky {σ : Type} (code : CoroCode σ) (co : coconut_coro) (s : σ)
    (r1 : Resumed σ) (n : Nat) (h1 : cogo _codestroy code co s = some r1)
    (h0 : r1.ret = 0) :
    r1.co.coswitch = -99998 ∧ r1.co.resopen = 0 ∧
    ∃ r, cogoRepeat _codestroy code (n + 1) r1 = some r ∧ r.ret = 0 ∧
      r.bodyRan = false ∧ r.co = r1.co ∧ r.user = r1.user := by
  obtain ⟨hl, hres⟩ := cogo_zero_at_end code co s r1 h1 h0
  exact ⟨hl, hres, _, cogoRepeat_at_end code n r1 hl hres, rfl, rfl, rfl, rfl⟩

theorem cogo_sticky_witness :
    (coend _codestroy initialCoro 1 true).co.coswitch = -99998 ∧
    (coend _codestroy initialCoro 1 true).co.resopen = 0 ∧
    ∃ r, cogoRepeat _codestroy counterCode (2 + 1) (coend _codestroy initialCoro 1 true) =
        some r ∧ r.ret = 0 ∧ r.bodyRan = false ∧
      r.co = (coend _codestroy initialCoro 1 true).co ∧
      r.user = (coend _codestroy initialCoro 1 true).user :=
  cogo_sticky counterCode initialCoro 0 (coend _codestroy initialCoro 1 true) 2 rfl rfl

/-- Two calls in a row: the body `self.n++; if (self.n == 2) coyield ();` falls
through into the case of `coend ()` on the first call, the body `self.n++;
codone ();` gets there through `codone ()`; either way the first call returns 0
with the label `-99998` and the second returns 0 without running body code. -/
theorem cogoTwice_sticky :
    cogoTwice counterCode = some ((0, 1, -99998, true), (0, 1, -99998, false)) ∧
    cogoTwice doneCode = some ((0, 1, -99998, true), (0, 1, -99998, false)) := by
  constructor <;> decide

/-! ## Resources -/

theorem resMask_eq (R : Nat) (h : R < 32) : resMask R = 2 ^ R := flag_eq R h

theorem resMask_lt (R : Nat) : resMask R < U32 := Nat.mod_lt _ (by decide)

/-- The bits that `cocleandone (R)` leaves. -/
theorem cocleandone_testBit (R i : Nat) (co : coconut_coro) (hR : R < 32)
    (hres : co.resopen < U32) :
    (cocleandone R co).resopen.testBit i = (co.resopen.testBit i && decide (i ≠ R)) := by
  show (co.resopen &&& (U32 - 1 - resMask R)).testBit i = _
  rw [and_compl_testBit _ _ _ hres (resMask_lt R), resMask_eq R hR, Nat.testBit_two_pow]
  by_cases h : R = i
  · subst h; simp
  · have h2 : i ≠ R := fun e => h e.symm
    simp [h, h2]

theorem cocleandone_lt (R : Nat) (co : coconut_coro) (hres : co.resopen < U32) :
    (cocleandone R co).resopen < U32 :=
  lt_of_le_of_lt Nat.and_le_left hres

theorem cocleantodo_lt (R : Nat) (co : coconut_coro) (hres : co.resopen < U32) :
    (cocleantodo R co).resopen < U32 :=
  Nat.or_lt_two_pow hres (resMask_lt R)

/-- The test `_co.resopen & (1<<(R))` of `cocleanwhen` looks at bit `R`. -/
theorem resopen_test (R a : Nat) (hR : R < 32) : a &&& resMask R ≠ 0 ↔ a.testBit R = true := by
  rw [resMask_eq R hR, Ne, and_two_pow_eq_zero_iff]
  cases a.testBit R <;> simp

/-- C23 (counterexample): with resource 0 open, `cocleantodo (0)` followed by
`cocleandone (0)` leaves `resopen` at 0 and not at 1, its value before. -/
theorem cocleantodo_cocleandone_not_noop :
    (resCoro 1).resopen = 1 ∧ (cocleandone 0 (cocleantodo 0 (resCoro 1))).resopen = 0 ∧
    (cocleandone 0 (cocleantodo 0 (resCoro 1))).resopen ≠ (resCoro 1).resopen := by
  decide

/-- C23 (amended): for a resource `R` below 32 and a 32-bit value of `resopen`,
`cocleantodo (R)` followed by `cocleandone (R)` leaves bit `R` clear and every
other bit as it was, and changes no other field; `resopen` has its value from
before the two calls exactly when bit `R` was clear before. -/
theorem cocleantodo_cocleandone (R : Nat) (co : coconut_coro) (hR : R < 32)
    (hres : co.resopen < U32) :
    (∀ i, (cocleandone R (cocleantodo R co)).resopen.testBit i =
      (co.resopen.testBit i && decide (i ≠ R))) ∧
    ((cocleandone R (cocleantodo R co)).resopen = co.resopen ↔
      co.resopen.testBit R = false) ∧
    cocleandone R (cocleantodo R co) =
      { co with resopen := (cocleandone R (cocleantodo R co)).resopen } := by
  have bits : ∀ i, (cocleandone R (cocleantodo R co)).resopen.testBit i =
      (co.resopen.testBit i && decide (i ≠ R)) := by
    intro i
    rw [cocleandone_testBit R i _ hR (cocleantodo_lt R co hres)]
    show ((co.resopen ||| resMask R).testBit i && decide (i ≠ R)) = _
    rw [resMask_eq R hR, or_two_pow_testBit]
    by_cases h : R = i
    · subst h; simp
    · simp [h]
  refine ⟨bits, ⟨fun e => ?_, fun hb => ?_⟩, rfl⟩
  · have := bits R
    rw [e] at this
    simpa using this
  · apply Nat.eq_of_testBit_eq
    intro i
    rw [bits i]
    by_cases h : i = R
    · subst h; simp [hb]
    · simp [h]

theorem cocleantodo_cocleandone_witness :
    (∀ i, (cocleandone 0 (cocleantodo 0 (resCoro 6))).resopen.testBit i =
      ((resCoro 6).resopen.testBit i && decide (i ≠ 0))) ∧
    ((cocleandone 0 (cocleantodo 0 (resCoro 6))).resopen = (resCoro 6).resopen ↔
      (resCoro 6).resopen.testBit 0 = false) ∧
    cocleandone 0 (cocleantodo 0 (resCoro 6)) =
      { resCoro 6 with resopen := (cocleandone 0 (cocleantodo 0 (resCoro 6))).resopen } :=
  cocleantodo_cocleandone 0 (resCoro 6) (by decide) (by decide)

/-! ## The activity flags: empty sets and numbers outside the mask -/

/-- C24: on a 32-bit activity value `_conut_active` returns, and it returns `-1`
if and only if the value is 0; in that case the value stays as it is. -/
theorem conut_active_none_iff (fuel a : Nat) (hf : 5 ≤ fuel) (h32 : a < U32) :
    ∃ (ret : Int) (act1 : Nat), _conut_active fuel a = some (ret, act1) ∧
      (ret = -1 ↔ a = 0) ∧ (a = 0 → act1 = a) := by
  by_cases h0 : a = 0
  · subst h0
    exact ⟨-1, 0, by simp [_conut_active], by simp, fun _ => rfl⟩
  · obtain ⟨f, rfl⟩ : ∃ f, fuel = f + 5 := ⟨fuel - 5, by omega⟩
    refine ⟨_, _, conut_active_eq f a h0 h32, ⟨fun e => ?_, fun e => absurd e h0⟩,
      fun e => absurd e h0⟩
    omega

theorem conut_active_none_iff_witness :
    ∃ (ret : Int) (act1 : Nat), _conut_active 5 0 = some (ret, act1) ∧
      (ret = -1 ↔ (0 : Nat) = 0) ∧ ((0 : Nat) = 0 → act1 = 0) :=
  conut_active_none_iff 5 0 (by decide) (by decide)

theorem flag_zero (e : Nat) (he : 32 ≤ e) : (1 <<< e) % U32 = 0 := by
  rw [Nat.one_shiftLeft]
  exact Nat.mod_eq_zero_of_dvd (Nat.pow_dvd_pow 2 he)

theorem setCoro_self (h : Heap) (c : Nat) : h.setCoro c (h.coros c) = h := by
  cases h
  simp [Heap.setCoro]

/-- The shift of `conut_trigger` sees the event number modulo 64 only. -/
theorem conut_trigger_count_mod (fuel e : Nat) (t : coconut_coro) :
    conut_trigger_count fuel e t = conut_trigger_count fuel (e % 64) t := by
  unfold conut_trigger_count
  rw [Nat.mod_mod]

/-- An event number that is 32 to 63 modulo 64 has the flag 0 in the `uint32_t`:
`conut_trigger` returns at once, with any fuel, and the target record and the
whole memory stay as they are. -/
theorem conut_trigger_no_flag (fuel e : Nat) (t : coconut_coro) (h : Heap) (c : Nat)
    (he : 32 ≤ e % 64) :
    conut_trigger fuel e t = some t ∧ conut_trigger_count fuel e t = some (t, 0) ∧
    h.trigger fuel e c = some h := by
  have hz : ((1 <<< (e % 64)) % SIZE) % U32 = 0 := by
    rw [trigger_flag]; exact flag_zero _ he
  have hc : conut_trigger_count fuel e t = some (t, 0) := by
    unfold conut_trigger_count
    simp [hz]
  have ht : ∀ t1, conut_trigger fuel e t1 = some t1 := by
    intro t1
    unfold conut_trigger conut_trigger_count
    simp [hz]
  refine ⟨ht t, hc, ?_⟩
  unfold Heap.trigger
  rw [ht, Option.map_some', setCoro_self]

/-- An event number that is below 32 modulo 64 sets the bit of that remainder,
also when the number itself is 64 or more. -/
theorem conut_trigger_wraps (fuel e : Nat) (t : coconut_coro) (hf : 2 ≤ fuel)
    (he : e % 64 < 32) :
    ∃ t1, conut_trigger fuel e t = some t1 ∧ t1.activity = t.activity ||| 2 ^ (e % 64) := by
  obtain ⟨f, rfl⟩ : ∃ f, fuel = f + 2 := ⟨fuel - 2, by omega⟩
  unfold conut_trigger
  rw [conut_trigger_count_mod, conut_trigger_count_eq f (e % 64) t he]
  by_cases hb : t.activity.testBit (e % 64) = true
  · refine ⟨t, by simp [hb], ?_⟩
    apply Nat.eq_of_testBit_eq
    intro i
    rw [or_two_pow_testBit]
    by_cases hi : e % 64 = i
    · rw [← hi, hb]; simp
    · simp [hi]
  · exact ⟨{ t with activity := t.activity ||| 2 ^ (e % 64) }, by simp [hb], rfl⟩

/-- C27 (the code at the failing input): on a record without activity,
`conut_trigger (64, target)` sets bit 0 and `conut_trigger (95, target)` sets
bit 31, the bit of the event `conut_activity_initialise`; the event numbers 32
and 255 leave the activity at 0.  The shift `1UL << conut` of a 64-bit
`unsigned long` takes the count modulo 64, so that the test `flag == 0` catches
the numbers 32 to 63 modulo 64 only. -/
theorem conut_trigger_event_64 :
    initialCoro.activity = 0 ∧
    (conut_trigger 2 64 initialCoro).map (fun t => t.activity) = some 1 ∧
    (conut_trigger 2 95 initialCoro).map (fun t => t.activity) = some (2 ^ 31) ∧
    (conut_trigger 2 32 initialCoro).map (fun t => t.activity) = some 0 ∧
    (conut_trigger 2 255 initialCoro).map (fun t => t.activity) = some 0 := by
  refine ⟨by decide, by decide, by decide, by decide, by decide⟩

/-- C29 (the code at the failing input): with the events of pipe nuts 1 and 2
pending, `activity = 6`, `_conut_active` returns 0, which is not pending, and
leaves the value at 6: neither is pipe nut 1 returned nor its bit cleared. -/
theorem conut_active_six :
    _conut_active 5 6 = some (0, 6) ∧ (6 : Nat).testBit 0 = false ∧
    (6 : Nat).testBit 1 = true := by
  decide

/-! ## Buffers: a second setup, a missing buffer, length zero -/

/-- On a nut that has a buffer the first assertion of `conut_setupbuf`,
`pnut->buf == NULL`, fails. -/
theorem conut_setupbuf_installed (E : ErrnoCodes) (h : Heap) (pn : Nat) (wr : Bool)
    (buf : Option (Nat → Nat)) (maxlen : Nat) (hb : (h.nuts pn).buf ≠ none) :
    conut_setupbuf E h pn wr buf maxlen = none := by
  obtain ⟨b, hb⟩ := Option.ne_none_iff_exists'.mp hb
  unfold conut_setupbuf
  rw [if_pos (by simp [hb])]

/-- C25 (the code at the failing input): on the writer of scenario S2 with its
buffer installed and all five bytes passed, in the state COMPLETE (`errno` 0), EOF
(`errno` `EPIPE`) and ERROR (`errno` `EPROTO`), `conut_setupbuf` with a new
buffer fails the assertion `pnut->buf == NULL` and leaves no nut in READY, while
`conut_resetbuf` on the same nut leaves it with `ofs = 0`, `min = max + 1` and
`errno = 0`. -/
theorem conut_setupbuf_after_round :
    nutView (conut_setupbuf linuxErrno (errHeap 0 5) 0 true (some (bytes [9])) 1) 0 = none ∧
    nutView (conut_setupbuf linuxErrno (errHeap linuxErrno.EPIPE 5) 0 true
      (some (bytes [9])) 1) 0 = none ∧
    nutView (conut_setupbuf linuxErrno (errHeap linuxErrno.EPROTO 5) 0 true
      (some (bytes [9])) 1) 0 = none ∧
    nutView (conut_resetbuf linuxErrno (errHeap 0 5) 0 true) 0 = some (true, 5, 0, 6, 0) ∧
    nutView (some (errHeap 0 5)) 0 = some (true, 5, 5, 6, 0) := by
  refine ⟨by decide, by decide, by decide, by decide, by decide⟩

/-- C28 (counterexample): on a connected nut without a buffer,
`conut_setupbuf (pnut, wr, buf, 0)` with a buffer returns and leaves the buffer
installed with `max = 0`, `ofs = 0` and `min = 1`. -/
theorem conut_setupbuf_accepts_zero :
    nutView (some pipedHeap) 0 = some (false, 0, 0, 0, 0) ∧
    nutView (conut_setupbuf linuxErrno pipedHeap 0 true (some (bytes [])) 0) 0 =
      some (true, 0, 0, 1, 0) := by
  decide

/-- C28 (amended): on a connected nut without a buffer, `conut_setupbuf` with a
`NULL` buffer fails the assertion `pnut->buf != NULL` of `conut_resetbuf`, for
every length; with a buffer and length 0 it returns and leaves the nut with the
buffer installed, `max = 0`, `ofs = 0`, `min = 1` and the role asked for. -/
theorem conut_setupbuf_null_or_zero (E : ErrnoCodes) (h : Heap) (pn p : Nat) (wr : Bool)
    (b : Nat → Nat) (maxlen : Nat)
    (hbuf : (h.nuts pn).buf = none) (hpeer : (h.nuts pn).peer = some p) (hne : p ≠ pn) :
    conut_setupbuf E h pn wr none maxlen = none ∧
    ∃ h2, conut_setupbuf E h pn wr (some b) 0 = some h2 ∧
      (h2.nuts pn).buf = some b ∧ (h2.nuts pn).max = 0 ∧ (h2.nuts pn).ofs = 0 ∧
      (h2.nuts pn).min = 1 ∧ (h2.nuts pn).writer = wr ∧ (h2.nuts pn).reader = !wr := by
  constructor
  · unfold conut_setupbuf
    rw [if_neg (by simp [hbuf]), if_neg (by simp [hpeer])]
    unfold conut_resetbuf
    rw [if_pos (by rw [setNut_nuts_same]; rfl)]
  · obtain ⟨h2, e, hn, -⟩ := conut_setupbuf_spec E h pn p wr b 0 hbuf hpeer hne
    refine ⟨h2, e, ?_, ?_, ?_, ?_, ?_, ?_⟩ <;> rw [hn]
    rfl

theorem conut_setupbuf_null_or_zero_witness :
    conut_setupbuf linuxErrno pipedHeap 0 true none 4 = none ∧
    ∃ h2, conut_setupbuf linuxErrno pipedHeap 0 true (some (bytes [])) 0 = some h2 ∧
      (h2.nuts 0).buf = some (bytes []) ∧ (h2.nuts 0).max = 0 ∧ (h2.nuts 0).ofs = 0 ∧
      (h2.nuts 0).min = 1 ∧ (h2.nuts 0).writer = true ∧ (h2.nuts 0).reader = !true :=
  conut_setupbuf_null_or_zero linuxErrno pipedHeap 0 1 true (bytes []) 4 rfl rfl (by decide)

/-! ## A call of `_conut_sync` made twice -/

/-- C26 (counterexample): in scenario S2 the first `sync (B, 3)` returns 5 and
the second, with nothing new from the writer, returns 5 again and not `-EAGAIN`;
the offsets stay at 5. -/
theorem conut_sync_s2_twice :
    s2Twice = some ((5, 5, 5), (5, 5, 5)) ∧
    s2Twice.map (fun r => r.2.1) ≠ some (-(linuxErrno.EAGAIN : Int)) := by
  decide

/-- C26 (amended): between a writer `w` and a reader `r` that are ready to
transfer, a call of `_conut_sync` on either end that is repeated at once with the
same minimum moves nothing and returns what the first call returned: when the
offset has reached the minimum that is the offset converted to `int` again, the
offset itself below `2 ^ 31`, and when it has not it is `-EAGAIN` again. -/
theorem conut_sync_repeat (E : ErrnoCodes) (fuel : Nat) (h : Heap) (w r me minlen : Nat)
    (hf : 2 ≤ fuel) (hp : PairReady h w r) (hme : me = w ∨ me = r) :
    ∃ (h2 h3 : Heap) (ret : Int), _conut_sync E fuel h me minlen = some (h2, ret) ∧
      _conut_sync E fuel h2 me minlen = some (h3, ret) ∧ h3.nuts = h2.nuts ∧
      (minlen ≤ (h2.nuts me).ofs → ret = int_of_size (h2.nuts me).ofs ∧
        ((h2.nuts me).ofs < 2 ^ 31 → ret = ((h2.nuts me).ofs : Int))) ∧
      ((h2.nuts me).ofs < minlen → ret = -(E.EAGAIN : Int)) := by
  obtain ⟨hwp, hrp, hwe, hre, hww, hwr, hrr, hrw, hwb, hrb, hwo, hwm, hro, hrm⟩ := hp
  obtain ⟨wbuf, hwb⟩ := Option.ne_none_iff_exists'.mp hwb
  obtain ⟨rbuf, hrb⟩ := Option.ne_none_iff_exists'.mp hrb
  have hne : w ≠ r := by
    intro e; rw [e, hrw] at hww; exact Bool.noConfusion hww
  obtain ⟨h2, hs1, hw2, hr2, -⟩ :=
    conut_sync_pair E fuel h w r me minlen wbuf rbuf hf hme hwp hrp hwe hre hww hwr hrr hrw
      hwb hrb hwo hwm hro hrm
  obtain ⟨h3, hs2, hw3, hr3, hframe⟩ :=
    conut_sync_pair E fuel h2 w r me minlen wbuf
      (memcpy rbuf (h.nuts r).ofs wbuf (h.nuts w).ofs
        (min ((h.nuts w).max - (h.nuts w).ofs) ((h.nuts r).max - (h.nuts r).ofs)))
      hf hme (by rw [hw2]; exact hwp) (by rw [hr2]; exact hrp)
      (by rw [hw2]; exact hwe) (by rw [hr2]; exact hre)
      (by rw [hw2]; exact hww) (by rw [hw2]; exact hwr)
      (by rw [hr2]; exact hrr) (by rw [hr2]; exact hrw)
      (by rw [hw2]; exact hwb) (by rw [hr2])
      (by rw [hw2]; show _ + _ ≤ (h.nuts w).max; omega) (by rw [hw2]; exact hwm)
      (by rw [hr2]; show _ + _ ≤ (h.nuts r).max; omega) (by rw [hr2]; exact hrm)
  have hlen : min ((h2.nuts w).max - (h2.nuts w).ofs) ((h2.nuts r).max - (h2.nuts r).ofs)
      = 0 := by
    rw [hw2, hr2]
    show min ((h.nuts w).max - ((h.nuts w).ofs + _)) ((h.nuts r).max - ((h.nuts r).ofs + _)) = 0
    omega
  rw [hlen, Nat.add_zero] at hw3 hr3
  rw [memcpy_zero] at hr3
  have hrb2 : (h2.nuts r).buf = some (memcpy rbuf (h.nuts r).ofs wbuf (h.nuts w).ofs
      (min ((h.nuts w).max - (h.nuts w).ofs) ((h.nuts r).max - (h.nuts r).ofs))) := by
    rw [hr2]
  rw [← hrb2] at hr3
  have hnuts : h3.nuts = h2.nuts := by
    funext q
    by_cases hqw : q = w
    · rw [hqw]; exact hw3
    · by_cases hqr : q = r
      · rw [hqr]; exact hr3
      · exact hframe q hqw hqr
  rw [hnuts] at hs2
  refine ⟨h2, h3, _, hs1, hs2, hnuts, fun hm => ?_, fun hm => ?_⟩
  · rw [if_neg (by omega)]
    exact ⟨rfl, fun h31 => int_of_size_eq _ h31⟩
  · rw [if_pos hm]

theorem conut_sync_repeat_witness :
    ∃ (h2 h3 : Heap) (ret : Int), _conut_sync linuxErrno 2 s2Heap 1 3 = some (h2, ret) ∧
      _conut_sync linuxErrno 2 h2 1 3 = some (h3, ret) ∧ h3.nuts = h2.nuts ∧
      (3 ≤ (h2.nuts 1).ofs → ret = int_of_size (h2.nuts 1).ofs ∧
        ((h2.nuts 1).ofs < 2 ^ 31 → ret = ((h2.nuts 1).ofs : Int))) ∧
      ((h2.nuts 1).ofs < 3 → ret = -(linuxErrno.EAGAIN : Int)) :=
  conut_sync_repeat linuxErrno 2 s2Heap 0 1 1 3 (by decide) s2Heap_ready (Or.inr rfl)

/-! ## Cleanup of one resource and the sweep at the end -/

/-- C21: for a resource `R` below 32, a 32-bit `resopen` and a line number as
label, `cocleanwhen (R)` leaves the whole state as it is and runs no cleanup
block when bit `R` is clear; when bit `R` is set it returns with the cleanup block
of `R` run once and no other, bit `R` clear and every other bit as before, and
with `coswitch` equal to the `cleanpost` that it saved, its own line, so that the
`switch` lands right after the macro; no field but `resopen`, `cleanpost` and
`coswitch` has changed. -/
theorem cocleanwhen_effect {σ : Type} (fuel : Nat) (block : Nat → σ → σ) (R : Nat)
    (line : Int) (st : CleanState σ) (hf : 2 ≤ fuel) (hR : R < 32)
    (hres : st.co.resopen < U32) (hline : -100000 < line) :
    (st.co.resopen.testBit R = false → cocleanwhen fuel block R line st = some st) ∧
    (st.co.resopen.testBit R = true →
      ∃ st2, cocleanwhen fuel block R line st = some st2 ∧
        st2.trace = st.trace ++ [R] ∧ st2.user = block R st.user ∧
        (∀ i, st2.co.resopen.testBit i = (st.co.resopen.testBit i && decide (i ≠ R))) ∧
        st2.co.cleanpost = line ∧ st2.co.coswitch = line ∧
        st2.co = { st.co with
          resopen := st2.co.resopen, cleanpost := line, coswitch := line }) := by
  constructor
  · intro hb
    unfold cocleanwhen
    rw [if_neg]
    intro hn
    rw [(resopen_test R _ hR).mp hn] at hb
    exact Bool.noConfusion hb
  · intro hb
    obtain ⟨f, rfl⟩ : ∃ f, fuel = f + 2 := ⟨fuel - 2, by omega⟩
    have hR2 : (-100000 - (-100000 - (R : Int))).toNat = R := by
      have : (-100000 - (-100000 - (R : Int))) = (R : Int) := by omega
      rw [this]; exact Int.toNat_ofNat R
    have e : cocleanwhen (f + 2) block R line st =
        some (cocleanaction block R
          { st with co := { st.co with cleanpost := line, coswitch := -100000 - (R : Int) } }) := by
      unfold cocleanwhen
      rw [if_pos ((resopen_test R _ hR).mpr hb), coloopClean,
        if_pos (show (-100000 - (R : Int)) ≤ -100000 by omega), coloopClean, if_neg]
      · show some (cocleanaction block (-100000 - (-100000 - (R : Int))).toNat _) = _
        rw [hR2]
      · show ¬ line ≤ -100000
        omega
    refine ⟨_, e, rfl, rfl, fun i => ?_, rfl, rfl, rfl⟩
    exact cocleandone_testBit R i { st.co with cleanpost := line, coswitch := -100000 - (R : Int) }
      hR hres

theorem cocleanwhen_effect_witness :
    ((cleanStart 5).co.resopen.testBit 2 = false →
      cocleanwhen 2 countBlock 2 40 (cleanStart 5) = some (cleanStart 5)) ∧
    ((cleanStart 5).co.resopen.testBit 2 = true →
      ∃ st2, cocleanwhen 2 countBlock 2 40 (cleanStart 5) = some st2 ∧
        st2.trace = (cleanStart 5).trace ++ [2] ∧ st2.user = countBlock 2 (cleanStart 5).user ∧
        (∀ i, st2.co.resopen.testBit i =
          ((cleanStart 5).co.resopen.testBit i && decide (i ≠ 2))) ∧
        st2.co.cleanpost = 40 ∧ st2.co.coswitch = 40 ∧
        st2.co = { (cleanStart 5).co with
          resopen := st2.co.resopen, cleanpost := 40, coswitch := 40 }) :=
  cocleanwhen_effect 2 countBlock 2 40 (cleanStart 5) (by decide) (by decide) (by decide)
    (by decide)

/-- The sweep over the `n` indices from `r` on: the blocks of the set bits among
them run in ascending order, these bits are cleared, the others stay. -/
theorem terminationSweep_spec {σ : Type} (block : Nat → σ → σ) (n : Nat) :
    ∀ (r : Nat) (st : CleanState σ), r + n ≤ 32 → st.co.resopen < U32 →
      (terminationSweep block n r st).trace =
        st.trace ++ (List.range' r n).filter (fun i => st.co.resopen.testBit i) ∧
      (terminationSweep block n r st).user =
        ((List.range' r n).filter (fun i => st.co.resopen.testBit i)).foldl
          (fun s i => block i s) st.user ∧
      (∀ i, (terminationSweep block n r st).co.resopen.testBit i =
        (st.co.resopen.testBit i && decide (i < r ∨ r + n ≤ i))) := by
  induction n with
  | zero =>
    intro r st _ _
    refine ⟨by simp [terminationSweep], by simp [terminationSweep], fun i => ?_⟩
    have : i < r ∨ r ≤ i := by omega
    simp [terminationSweep, this]
  | succ n ih =>
    intro r st hr hres
    have hR : r < 32 := by omega
    have hfilter : ∀ a1 : Nat, (∀ i, a1.testBit i = (st.co.resopen.testBit i && decide (i ≠ r))) →
        (List.range' (r + 1) n).filter (fun i => a1.testBit i) =
        (List.range' (r + 1) n).filter (fun i => st.co.resopen.testBit i) := by
      intro a1 ha1
      apply List.filter_congr
      intro i hi
      have : r + 1 ≤ i := (List.mem_range'_1.mp hi).1
      have hne : i ≠ r := by omega
      rw [ha1 i]; simp [hne]
    have hbits : ∀ (a1 : Nat) (x : Nat → Bool),
        (∀ i, a1.testBit i = (st.co.resopen.testBit i && decide (i ≠ r))) →
        (∀ i, x i = (a1.testBit i && decide (i < r + 1 ∨ r + 1 + n ≤ i))) →
        ∀ i, x i = (st.co.resopen.testBit i && decide (i < r ∨ r + (n + 1) ≤ i)) := by
      intro a1 x ha1 hx i
      rw [hx i, ha1 i, Bool.and_assoc]
      congr 1
      by_cases h1 : i = r
      · subst h1
        have : ¬ (i < i ∨ i + (n + 1) ≤ i) := by omega
        simp [this]
      · have e : (i < r + 1 ∨ r + 1 + n ≤ i) ↔ (i < r ∨ r + (n + 1) ≤ i) := by omega
        simp [h1, e]
    by_cases hb : st.co.resopen.testBit r = true
    · have hstep : terminationSweep block (n + 1) r st = terminationSweep block n (r + 1)
          { co := cocleandone r st.co, user := block r st.user, trace := st.trace ++ [r] } := by
        rw [terminationSweep, if_pos hb]
      have ha1 := fun i => cocleandone_testBit r i st.co hR hres
      obtain ⟨h1, h2, h3⟩ := ih (r + 1)
        { co := cocleandone r st.co, user := block r st.user, trace := st.trace ++ [r] }
        (by omega) (cocleandone_lt r st.co hres)
      rw [hstep, List.range'_succ, List.filter_cons_of_pos (by simpa using hb)]
      refine ⟨?_, ?_, hbits _ _ ha1 h3⟩
      · rw [h1, hfilter _ ha1]
        simp
      · rw [h2, hfilter _ ha1]
        rfl
    · have hstep : terminationSweep block (n + 1) r st = terminationSweep block n (r + 1) st := by
        rw [terminationSweep, if_neg hb]
      have hbf : st.co.resopen.testBit r = false := by simpa using hb
      have ha1 : ∀ i, st.co.resopen.testBit i =
          (st.co.resopen.testBit i && decide (i ≠ r)) := by
        intro i
        by_cases h1 : i = r
        · subst h1; simp [hbf]
        · simp [h1]
      obtain ⟨h1, h2, h3⟩ := ih (r + 1) st (by omega) hres
      rw [hstep, List.range'_succ, List.filter_cons_of_neg (by simpa using hb)]
      exact ⟨h1, h2, hbits _ _ ha1 h3⟩

/-- The sweep over all 32 indices leaves no resource open. -/
theorem terminationSweep_zero {σ : Type} (block : Nat → σ → σ) (st : CleanState σ)
    (hres : st.co.resopen < U32) : (terminationSweep block 32 0 st).co.resopen = 0 := by
  obtain ⟨-, -, h3⟩ := terminationSweep_spec block 32 0 st (by omega) hres
  apply Nat.eq_of_testBit_eq
  intro i
  rw [h3 i, Nat.zero_testBit]
  by_cases hi : i < 32
  · have : decide (i < 0 ∨ 0 + 32 ≤ i) = false := decide_eq_false (by omega)
    rw [this, Bool.and_false]
  · have : st.co.resopen.testBit i = false :=
      Nat.testBit_lt_two_pow (lt_of_lt_of_le hres (Nat.pow_le_pow_right (by decide) (by omega)))
    simp [this]

/-- On a 32-bit `resopen` the sweep leaves the value that `_codestroy` leaves. -/
theorem codestroySweep_resopen {σ : Type} (block : Nat → σ → σ) (p : coconut_coro × σ)
    (hres : p.1.resopen < U32) :
    (codestroySweep block p).1.resopen = (_codestroy p).1.resopen :=
  terminationSweep_zero block { co := p.1, user := p.2, trace := [] } hres

/-- C22: the termination sweep on a 32-bit `resopen` runs the cleanup blocks of
exactly the resources whose bit is set, each once and in ascending order of the
resource index, the order of declaration; `resopen` is 0 afterwards, and so it is
when `coend` has called the sweep and returned 0. -/
theorem terminationSweep_order {σ : Type} (block : Nat → σ → σ) (st : CleanState σ)
    (ran : Bool) (hres : st.co.resopen < U32) :
    (terminationSweep block 32 0 st).trace =
      st.trace ++ (List.range 32).filter (fun i => st.co.resopen.testBit i) ∧
    (terminationSweep block 32 0 st).user =
      ((List.range 32).filter (fun i => st.co.resopen.testBit i)).foldl
        (fun s i => block i s) st.user ∧
    List.Pairwise (fun i j => i < j)
      ((List.range 32).filter (fun i => st.co.resopen.testBit i)) ∧
    (∀ i, i ∈ (List.range 32).filter (fun i => st.co.resopen.testBit i) ↔
      st.co.resopen.testBit i = true) ∧
    (terminationSweep block 32 0 st).co.resopen = 0 ∧
    (coend (codestroySweep block) st.co st.user ran).ret = 0 ∧
    (coend (codestroySweep block) st.co st.user ran).co.resopen = 0 := by
  obtain ⟨h1, h2, -⟩ := terminationSweep_spec block 32 0 st (by omega) hres
  rw [← List.range_eq_range'] at h1 h2
  refine ⟨h1, h2, List.Pairwise.filter _ (List.pairwise_lt_range 32), fun i => ?_,
    terminationSweep_zero block st hres, rfl, ?_⟩
  · rw [List.mem_filter, List.mem_range]
    constructor
    · exact fun h => h.2
    · intro h
      refine ⟨?_, h⟩
      by_contra hi
      have : st.co.resopen.testBit i = false :=
        Nat.testBit_lt_two_pow
          (lt_of_lt_of_le hres (Nat.pow_le_pow_right (by decide) (by omega)))
      rw [this] at h
      exact Bool.noConfusion h
  · exact terminationSweep_zero block { co := st.co, user := st.user, trace := [] } hres

theorem terminationSweep_order_witness :
    (terminationSweep countBlock 32 0 (cleanStart 7)).trace = [0, 1, 2] ∧
    (terminationSweep countBlock 32 0 (cleanStart 7)).user = 3 ∧
    List.Pairwise (fun i j => i < j)
      ((List.range 32).filter (fun i => (cleanStart 7).co.resopen.testBit i)) ∧
    (∀ i, i ∈ (List.range 32).filter (fun i => (cleanStart 7).co.resopen.testBit i) ↔
      (cleanStart 7).co.resopen.testBit i = true) ∧
    (terminationSweep countBlock 32 0 (cleanStart 7)).co.resopen = 0 ∧
    (coend (codestroySweep countBlock) (cleanStart 7).co (cleanStart 7).user true).ret = 0 ∧
    (coend (codestroySweep countBlock) (cleanStart 7).co (cleanStart 7).user true).co.resopen
      = 0 :=
  terminationSweep_order countBlock (cleanStart 7) true (by decide)

/-! ## The event loop -/

/-- One round of the event loop of `copipenuts` on a 32-bit activity value, for
the event that `_conut_active` returns.  With no activity it returns 1 and leaves
`coswitch` at `-11999`, the label of the event loop, where the next `switch`
lands.  Otherwise `_conut_active` returns a number `e` and `coswitch` becomes
`-12000 - e`, the label of `copoll (e)`; the `switch` lands on that case when the
body declares it and on `default:`, the event loop, when it does not. -/
theorem copipenuts_round (fuel : Nat) (declared : Int → Bool) (co : coconut_coro)
    (hf : 5 ≤ fuel) (h32 : co.activity < U32) :
    (co.activity = 0 →
      copipenuts fuel declared co = some ({ co with coswitch := -11999 }, EventLoopExit.ret1) ∧
      coloop declared (-11999) = Landing.eventloop) ∧
    (co.activity ≠ 0 →
      ∃ (e : Nat) (act1 : Nat), _conut_active fuel co.activity = some ((e : Int), act1) ∧
        e < 32 ∧
        copipenuts fuel declared co =
          some ({ co with activity := act1, coswitch := copoll e },
            EventLoopExit.jump (if declared (copoll e) = true then Landing.handler (copoll e)
              else Landing.eventloop))) := by
  refine ⟨fun h0 => ⟨?_, rfl⟩, fun h0 => ?_⟩
  · have e : _conut_active fuel co.activity = some (-1, co.activity) := by
      unfold _conut_active
      simp [h0]
    unfold copipenuts
    rw [e]
    show (if (-12000 - (-1) : Int) = -11999 then _ else _) = _
    rw [if_pos (by decide)]
    rfl
  · obtain ⟨n, act1, hact, hn, -, -⟩ := conut_active_run fuel co.activity hf h0 h32
    refine ⟨n, act1, hact, hn, ?_⟩
    have hl : copoll n ≠ -11999 := by unfold copoll; omega
    unfold copipenuts
    rw [hact]
    show (if copoll n = -11999 then _ else _) = _
    rw [if_neg hl]
    unfold coloop
    show some (_, EventLoopExit.jump (if copoll n = -11999 then _ else _)) = _
    rw [if_neg hl]
    rfl

/-- C30 (the code at the failing input): one round of the event loop with the
event `conut_activity_initialise`, bit 31, pending and `cocatch_initialise ()`
declared: the label becomes `-12015` and not `-12031`, bit 31 stays set, and the
`switch` lands on `default:`, the event loop, not on the handler.  The same with
`conut_activity_finalise`, bit 30, and `cocatch_finalise ()`.  With the event of
pipe nut 1 pending and `copoll (0)` and `copoll (1)` declared the `switch` lands
on `copoll (0)` and bit 1 stays set.  With no activity the round returns 1 and
leaves the label `-11999`. -/
theorem copipenuts_initialise_lost :
    cocatch_initialise = -12031 ∧ cocatch_finalise = -12030 ∧
    (copipenuts 5 (fun l => decide (l = cocatch_initialise))
        { initialCoro with activity := 2 ^ 31 }).map
      (fun r => (r.1.coswitch, r.1.activity, r.2)) =
      some (-12015, 2 ^ 31, EventLoopExit.jump Landing.eventloop) ∧
    (copipenuts 5 (fun l => decide (l = cocatch_finalise))
        { initialCoro with activity := 2 ^ 30 }).map
      (fun r => (r.1.coswitch, r.1.activity, r.2)) =
      some (-12015, 2 ^ 30, EventLoopExit.jump Landing.eventloop) ∧
    (copipenuts 5 (fun l => decide (l = copoll 0 ∨ l = copoll 1))
        { initialCoro with activity := 2 }).map
      (fun r => (r.1.coswitch, r.1.activity, r.2)) =
      some (copoll 0, 2, EventLoopExit.jump (Landing.handler (copoll 0))) ∧
    (copipenuts 5 (fun l => decide (l = cocatch_initialise)) initialCoro).map
      (fun r => (r.1.coswitch, r.1.activity, r.2)) =
      some (-11999, 0, EventLoopExit.ret1) := by
  refine ⟨by decide, by decide, by decide, by decide, by decide, by decide⟩

/-- One round of the event loop with the event of pipe nut 0 pending: the label
becomes `-12000` and the `switch` lands on `copoll (0)` when it is declared, on
the event loop when only `copoll (1)` is. -/
theorem copipenuts_pending :
    (copipenuts 5 (fun l => decide (l = copoll 0)) { initialCoro with activity := 1 }).map
      (fun r => (r.1.coswitch, r.1.activity, r.2)) =
      some (-12000, 0, EventLoopExit.jump (Landing.handler (-12000))) ∧
    (copipenuts 5 (fun l => decide (l = copoll 1)) { initialCoro with activity := 1 }).map
      (fun r => (r.1.coswitch, r.1.activity, r.2)) =
      some (-12000, 0, EventLoopExit.jump Landing.eventloop) := by
  constructor <;> decide

/-! ## The rounds of `_conut_active` -/

/-- With fewer than five units of fuel the loop of `_conut_active` has not come
to `shift == 0`: the shift goes 16, 8, 4, 2, 1, whatever the value. -/
theorem activeLoop_short (f act mask bitnr : Nat) (hf : f < 5) :
    activeLoop f act mask (4 * 4) bitnr = none := by
  interval_cases f <;> simp [activeLoop]

/-- C31: on a non-zero 32-bit activity value `a` the loop of `_conut_active`
makes exactly five rounds, so that less fuel than five does not reach the end and
five or more does; the result is a bit number `n` below 32 and the new value is
`a & ~(1 << n)` in 32 bits: bit `n` is clear in it, every other bit is as in `a`,
and it is not above `a`. -/
theorem conut_active_five_rounds (fuel a : Nat) (hf : 5 ≤ fuel) (h0 : a ≠ 0) (h32 : a < U32) :
    (∀ f, f < 5 → _conut_active f a = none) ∧
    ∃ n : Nat, n < 32 ∧
      _conut_active fuel a = some ((n : Int), a &&& (U32 - 1 - 2 ^ n)) ∧
      (∀ i, (a &&& (U32 - 1 - 2 ^ n)).testBit i = (a.testBit i && decide (i ≠ n))) ∧
      a &&& (U32 - 1 - 2 ^ n) ≤ a := by
  constructor
  · intro f hf5
    unfold _conut_active
    simp only [h0, if_false]
    rw [activeLoop_short f a _ 0 hf5]
  · obtain ⟨f, rfl⟩ : ∃ f, fuel = f + 5 := ⟨fuel - 5, by omega⟩
    obtain ⟨hm, hn, -⟩ := activeChoice_spec a
    have e := conut_active_eq f a h0 h32
    rw [hm] at e
    refine ⟨(activeChoice a).2, hn, e, fun i => ?_, Nat.and_le_left⟩
    rw [and_compl_testBit a _ i h32 (Nat.pow_lt_pow_right (by decide) hn),
      Nat.testBit_two_pow]
    by_cases hi : i = (activeChoice a).2
    · simp [hi]
    · have : ¬ (activeChoice a).2 = i := fun h => hi h.symm
      simp [hi, this]

theorem conut_active_five_rounds_witness :
    (∀ f, f < 5 → _conut_active f 1 = none) ∧
    ∃ n : Nat, n < 32 ∧
      _conut_active 5 1 = some ((n : Int), 1 &&& (U32 - 1 - 2 ^ n)) ∧
      (∀ i, ((1 : Nat) &&& (U32 - 1 - 2 ^ n)).testBit i =
        ((1 : Nat).testBit i && decide (i ≠ n))) ∧
      1 &&& (U32 - 1 - 2 ^ n) ≤ 1 :=
  conut_active_five_rounds 5 1 (by decide) (by decide) (by decide)

/-! ## Lockstep of a paired transfer -/

/-- One call of `_conut_sync` on either end of a ready pair in lockstep: the call
returns, the pair is ready and in lockstep afterwards, the buffer of the writer
and both maxima are as before, and one end is full. -/
theorem lockstep_step (E : ErrnoCodes) (fuel : Nat) (h : Heap) (w r me minlen : Nat)
    (hf : 2 ≤ fuel) (hp : PairReady h w r) (hme : me = w ∨ me = r) (hl : Lockstep h w r) :
    ∃ (h2 : Heap) (ret : Int), _conut_sync E fuel h me minlen = some (h2, ret) ∧
      PairReady h2 w r ∧ Lockstep h2 w r ∧ (h2.nuts w).buf = (h.nuts w).buf ∧
      (h2.nuts w).max = (h.nuts w).max ∧ (h2.nuts r).max = (h.nuts r).max ∧
      (h.nuts w).ofs ≤ (h2.nuts w).ofs ∧ OneEndFull h2 w r := by
  obtain ⟨hwp, hrp, hwe, hre, hww, hwr, hrr, hrw, hwb, hrb, hwo, hwm, hro, hrm⟩ := hp
  obtain ⟨wbuf, hwb⟩ := Option.ne_none_iff_exists'.mp hwb
  obtain ⟨rbuf, hrb⟩ := Option.ne_none_iff_exists'.mp hrb
  obtain ⟨hofs, hpre⟩ := hl
  obtain ⟨h2, hs, hw2, hr2, -⟩ :=
    conut_sync_pair E fuel h w r me minlen wbuf rbuf hf hme hwp hrp hwe hre hww hwr hrr hrw
      hwb hrb hwo hwm hro hrm
  have hwo2 : (h2.nuts w).ofs = (h.nuts w).ofs +
      min ((h.nuts w).max - (h.nuts w).ofs) ((h.nuts r).max - (h.nuts r).ofs) := by rw [hw2]
  have hro2 : (h2.nuts r).ofs = (h.nuts r).ofs +
      min ((h.nuts w).max - (h.nuts w).ofs) ((h.nuts r).max - (h.nuts r).ofs) := by rw [hr2]
  have hwm2 : (h2.nuts w).max = (h.nuts w).max := by rw [hw2]
  have hrm2 : (h2.nuts r).max = (h.nuts r).max := by rw [hr2]
  have hwb2 : (h2.nuts w).buf = (h.nuts w).buf := by rw [hw2]
  have hrb2 : (h2.nuts r).buf = some (memcpy rbuf (h.nuts r).ofs wbuf (h.nuts w).ofs
      (min ((h.nuts w).max - (h.nuts w).ofs) ((h.nuts r).max - (h.nuts r).ofs))) := by rw [hr2]
  refine ⟨h2, _, hs, ?_, ⟨?_, ?_⟩, hwb2, hwm2, hrm2, ?_, ?_⟩
  · refine ⟨by rw [hw2]; exact hwp, by rw [hr2]; exact hrp, by rw [hw2]; exact hwe,
      by rw [hr2]; exact hre, by rw [hw2]; exact hww, by rw [hw2]; exact hwr,
      by rw [hr2]; exact hrr, by rw [hr2]; exact hrw, ?_, ?_, ?_, ?_, ?_, ?_⟩
    · rw [hwb2, hwb]; exact fun e => Option.noConfusion e
    · rw [hrb2]; exact fun e => Option.noConfusion e
    · rw [hwo2, hwm2]; omega
    · rw [hwm2]; exact hwm
    · rw [hro2, hrm2]; omega
    · rw [hrm2]; exact hrm
  · rw [hwo2, hro2, hofs]
  · intro wbuf2 rbuf2 e1 e2 j hj
    rw [hwb2, hwb] at e1
    rw [hrb2] at e2
    have e1 := Option.some.inj e1
    have e2 := Option.some.inj e2
    rw [← e1, ← e2]
    rw [hro2] at hj
    unfold memcpy
    by_cases hjr : (h.nuts r).ofs ≤ j
    · rw [if_pos ⟨hjr, hj⟩]
      congr 1
      omega
    · rw [if_neg (fun c => hjr c.1)]
      exact hpre wbuf rbuf hwb hrb j (by omega)
  · rw [hwo2]; omega
  · unfold OneEndFull
    rw [hwo2, hro2, hwm2, hrm2]
    omega

/-- A pair that is ready with both offsets at 0, as `conut_resetbuf` leaves them,
is in lockstep. -/
theorem lockstep_of_reset (h : Heap) (w r : Nat) (hw : (h.nuts w).ofs = 0)
    (hr : (h.nuts r).ofs = 0) : Lockstep h w r := by
  refine ⟨by rw [hw, hr], fun _ _ _ _ j hj => ?_⟩
  rw [hr] at hj
  exact absurd hj (Nat.not_lt_zero j)

/-- Every sequence of calls of `_conut_sync` on the ends of a ready pair in
lockstep returns and keeps the pair ready and in lockstep, with the buffer of the
writer as it was. -/
theorem lockstep_run_spec (E : ErrnoCodes) (fuel : Nat) (w r : Nat) (hf : 2 ≤ fuel)
    (calls : List (Nat × Nat)) :
    ∀ h : Heap, PairReady h w r → Lockstep h w r → (∀ c ∈ calls, c.1 = w ∨ c.1 = r) →
      ∃ h2, syncRun E fuel h calls = some h2 ∧ PairReady h2 w r ∧ Lockstep h2 w r ∧
        (h2.nuts w).buf = (h.nuts w).buf ∧ (h2.nuts w).max = (h.nuts w).max ∧
        (h2.nuts r).max = (h.nuts r).max ∧ (h.nuts w).ofs ≤ (h2.nuts w).ofs ∧
        (calls ≠ [] → OneEndFull h2 w r) := by
  induction calls with
  | nil =>
    intro h hp hl _
    exact ⟨h, rfl, hp, hl, rfl, rfl, rfl, le_refl _, fun c => absurd rfl c⟩
  | cons c cs ih =>
    intro h hp hl hc
    obtain ⟨h1, ret, hs, hp1, hl1, hb1, hwm1, hrm1, hle1, hfull1⟩ :=
      lockstep_step E fuel h w r c.1 c.2 hf hp (hc c (List.mem_cons_self c cs)) hl
    obtain ⟨h2, hrun, hp2, hl2, hb2, hwm2, hrm2, hle2, hfull2⟩ :=
      ih h1 hp1 hl1 (fun d hd => hc d (List.mem_cons_of_mem c hd))
    have e : syncRun E fuel h (c :: cs) = some h2 := by
      rw [syncRun, hs]
      exact hrun
    refine ⟨h2, e, hp2, hl2, hb2.trans hb1, hwm2.trans hwm1, hrm2.trans hrm1,
      le_trans hle1 hle2, fun _ => ?_⟩
    by_cases hcs : cs = []
    · subst hcs
      have : h2 = h1 := by
        have := hrun
        rw [syncRun] at this
        exact (Option.some.inj this).symm
      rw [this]
      exact hfull1
    · exact hfull2 hcs

/-- C32: between a writer `w` and a reader `r` that are ready to transfer, a call
of `_conut_sync` on either end keeps the lockstep: equal offsets, and below the
offset the bytes of the reader are those of the writer.  From the state with both
offsets at 0, in which `conut_resetbuf` leaves the two ends, every sequence of
calls on the two ends returns, the buffer of the writer is as at the start, the
reader holds its first `ofs` bytes, the offsets are equal, and after at least one
call one end has `ofs == max`. -/
theorem lockstep_invariant (E : ErrnoCodes) (fuel : Nat) (h : Heap) (w r me minlen : Nat)
    (calls : List (Nat × Nat)) (hf : 2 ≤ fuel) (hp : PairReady h w r)
    (hme : me = w ∨ me = r) (hcalls : ∀ c ∈ calls, c.1 = w ∨ c.1 = r) :
    (Lockstep h w r →
      ∃ (h2 : Heap) (ret : Int), _conut_sync E fuel h me minlen = some (h2, ret) ∧
        Lockstep h2 w r ∧ PairReady h2 w r ∧ OneEndFull h2 w r) ∧
    ((h.nuts w).ofs = 0 → (h.nuts r).ofs = 0 →
      ∃ (h2 : Heap) (wbuf rbuf : Nat → Nat), syncRun E fuel h calls = some h2 ∧
        (h.nuts w).buf = some wbuf ∧ (h2.nuts w).buf = some wbuf ∧
        (h2.nuts r).buf = some rbuf ∧ (h2.nuts w).ofs = (h2.nuts r).ofs ∧
        (∀ j, j < (h2.nuts r).ofs → rbuf j = wbuf j) ∧
        (calls ≠ [] → OneEndFull h2 w r)) := by
  constructor
  · intro hl
    obtain ⟨h2, ret, hs, hp2, hl2, -, -, -, -, hfull⟩ :=
      lockstep_step E fuel h w r me minlen hf hp hme hl
    exact ⟨h2, ret, hs, hl2, hp2, hfull⟩
  · intro hw0 hr0
    obtain ⟨h2, hrun, hp2, hl2, hb2, -, -, -, hfull⟩ :=
      lockstep_run_spec E fuel w r hf calls h hp (lockstep_of_reset h w r hw0 hr0) hcalls
    obtain ⟨wbuf, hwb⟩ := Option.ne_none_iff_exists'.mp hp.2.2.2.2.2.2.2.2.1
    obtain ⟨rbuf, hrb⟩ := Option.ne_none_iff_exists'.mp hp2.2.2.2.2.2.2.2.2.2.1
    have hwb2 : (h2.nuts w).buf = some wbuf := by rw [hb2, hwb]
    exact ⟨h2, wbuf, rbuf, hrun, hwb, hwb2, hrb, hl2.1, hl2.2 wbuf rbuf hwb2 hrb, hfull⟩

theorem lockstep_invariant_witness :
    (Lockstep s2Heap 0 1 →
      ∃ (h2 : Heap) (ret : Int), _conut_sync linuxErrno 2 s2Heap 1 3 = some (h2, ret) ∧
        Lockstep h2 0 1 ∧ PairReady h2 0 1 ∧ OneEndFull h2 0 1) ∧
    ((s2Heap.nuts 0).ofs = 0 → (s2Heap.nuts 1).ofs = 0 →
      ∃ (h2 : Heap) (wbuf rbuf : Nat → Nat),
        syncRun linuxErrno 2 s2Heap [(1, 3), (0, 5), (1, 3)] = some h2 ∧
        (s2Heap.nuts 0).buf = some wbuf ∧ (h2.nuts 0).buf = some wbuf ∧
        (h2.nuts 1).buf = some rbuf ∧ (h2.nuts 0).ofs = (h2.nuts 1).ofs ∧
        (∀ j, j < (h2.nuts 1).ofs → rbuf j = wbuf j) ∧
        ([((1 : Nat), (3 : Nat)), (0, 5), (1, 3)] ≠ [] → OneEndFull h2 0 1)) :=
  lockstep_invariant linuxErrno 2 s2Heap 0 1 1 3 [(1, 3), (0, 5), (1, 3)] (by decide)
    s2Heap_ready (Or.inr rfl) (by decide)

/-- Scenario S2 from fresh records on, with a `conut_resetbuf` on both ends: after
no call the offsets are 0; after `sync (B, 3)`, and after two more calls, both
offsets are 5 and the reader holds the five bytes of the writer. -/
theorem s2FromReset_lockstep :
    syncView (s2FromReset []) = some (0, 0, [0, 0, 0, 0, 0, 0]) ∧
    syncView (s2FromReset [(1, 3)]) = some (5, 5, [1, 2, 3, 4, 5, 0]) ∧
    syncView (s2FromReset [(1, 3), (0, 5), (1, 3)]) = some (5, 5, [1, 2, 3, 4, 5, 0]) := by
  refine ⟨by decide, by decide, by decide⟩

end Coconut
